import Mathlib

/-!
Verification development for the `ltparser` repository (LTspice schematic →
netlist converter). The Python sources are shallowly embedded: Python
strings become `List Char`, Python dicts become insertion-ordered
association lists, Python heterogeneous parsed-data lists become the
inductive `Item`, Python floats are idealised as exact rationals `ℚ`, and
Python functions that can raise become `Except`-valued functions. Each
definition is translated from the corresponding function in
`src/ltparser/…`; the file ends with the theorems that settle the claims.
-/

namespace LTP

/-- Python strings are modelled as lists of characters. -/
abbrev Str := List Char

/-- Coerce a Lean string literal to the `Str` model. -/
def strOf (s : String) : Str := s.data

/-- Whitespace test matching Python `str.split()` / `str.strip()` for the
character set that occurs in this program (space, tab, newline, carriage
return). -/
def isWs (c : Char) : Bool := c = ' ' || c = '\t' || c = '\n' || c = '\r'

/-- Python `s.startswith(pat)` on list strings: structural prefix test
(the match is compiled so that an empty pattern reduces without
inspecting the subject, which keeps concrete runs kernel-reducible). -/
def isPre : Str → Str → Bool
  | [], _ => true
  | _ :: _, [] => false
  | a :: as, b :: bs => a == b && isPre as bs

/-- Python `s.strip()`: remove leading and trailing whitespace. -/
def pyStrip (s : Str) : Str :=
  ((s.dropWhile isWs).reverse.dropWhile isWs).reverse

/-- Python `s.lstrip()` (used by pyparsing leading-whitespace skipping). -/
def pyLstrip (s : Str) : Str := s.dropWhile isWs

/-- Python `s.rstrip(c)` for a single-character strip set: remove every
trailing occurrence of `c`. -/
def pyRstrip (c : Char) (s : Str) : Str :=
  (s.reverse.dropWhile (· = c)).reverse

/-- Python `s.split(sep)` for a one-character separator: split at every
occurrence, keeping empty pieces (`"".split(sep) = [""]`). -/
def splitOnChar (sep : Char) (s : Str) : List Str := s.splitOn sep

/-- Python `sep.join(pieces)` for a one-character separator. -/
def joinChar (sep : Char) (ls : List Str) : Str :=
  List.intercalate [sep] ls

/-- Python `s.split()` (no argument): split on whitespace runs, dropping
empty pieces. -/
def pySplitAux : Nat → Str → List Str
  | _, [] => []
  | 0, _ :: _ => []
  | fuel + 1, c :: s =>
    if isWs c then pySplitAux fuel s
    else (c :: s.takeWhile (fun d => !isWs d)) ::
      pySplitAux fuel (s.dropWhile (fun d => !isWs d))

def pySplit (s : Str) : List Str := pySplitAux s.length s

/-- Python `s.split(sep, 1)`: the part before the first occurrence of
`sep`, and (when `sep` occurs) the part after it. -/
def splitFirst (sep : Char) : Str → Str × Option Str
  | [] => ([], none)
  | c :: rest =>
    if c = sep then ([], some rest)
    else
      let r := splitFirst sep rest
      (c :: r.1, r.2)

/-- Python `sub in s` (substring containment). -/
def containsSub (pat : Str) : Str → Bool
  | [] => pat = []
  | c :: rest => isPre pat (c :: rest) || containsSub pat rest

/-- Python `s.replace(old, new)` for non-empty `old`: replace each
leftmost non-overlapping occurrence. -/
def pyReplaceAux (pat rep : Str) : Nat → Str → Str
  | _, [] => []
  | 0, c :: rest => c :: rest
  | fuel + 1, c :: rest =>
    if pat ≠ [] ∧ isPre pat (c :: rest) then
      rep ++ pyReplaceAux pat rep fuel ((c :: rest).drop pat.length)
    else
      c :: pyReplaceAux pat rep fuel rest

def pyReplace (pat rep s : Str) : Str := pyReplaceAux pat rep s.length s

/-- Python `s.count(sub)` for non-empty `sub`: count non-overlapping
occurrences scanning left to right. -/
def pyCountAux (pat : Str) : Nat → Str → Nat
  | _, [] => 0
  | 0, _ :: _ => 0
  | fuel + 1, c :: rest =>
    if pat ≠ [] ∧ isPre pat (c :: rest) then
      1 + pyCountAux pat fuel ((c :: rest).drop pat.length)
    else
      pyCountAux pat fuel rest

def pyCount (pat s : Str) : Nat := pyCountAux pat s.length s

/-- Python `str.lower()` restricted to the ASCII range used by the
program (`µ` is already lowercase in Python and is left unchanged,
matching `Char.toLower`). -/
def pyLower (s : Str) : Str := s.map Char.toLower

/-- Python `str.upper()` for ASCII. -/
def pyUpper (s : Str) : Str := s.map Char.toUpper

/-- Decimal digit character for `d < 10`. -/
def digitChar (d : Nat) : Char := Char.ofNat (48 + d)

/-- Python `str(n)` for a natural number. -/
def natStrAux : Nat → Nat → Str
  | 0, _ => []
  | fuel + 1, n =>
    if n = 0 then [] else natStrAux fuel (n / 10) ++ [digitChar (n % 10)]

def natStr (n : Nat) : Str :=
  if n = 0 then ['0'] else natStrAux n n

/-- Python `str(i)` for an integer. -/
def intStr (i : Int) : Str :=
  if i < 0 then '-' :: natStr i.natAbs else natStr i.natAbs

/-- Python `f"{x:04d}"`: decimal with the whole field (sign included)
zero-padded to width 4. -/
def pyFmt04 (x : Int) : Str :=
  if x < 0 then
    let ds := natStr x.natAbs
    '-' :: (List.replicate (3 - ds.length) '0' ++ ds)
  else
    let ds := natStr x.natAbs
    List.replicate (4 - ds.length) '0' ++ ds

/-- A Python value that is either an `int` or a `str` — the value type of
the coordinate→node dictionary. -/
inductive PyVal where
  | int (i : Int)
  | str (s : Str)
deriving DecidableEq, Repr

/-- Rendering of a node value into an f-string (`f"{node}"`). -/
def PyVal.render : PyVal → Str
  | .int i => intStr i
  | .str s => s

/-- Python `isinstance(v, int)`. -/
def PyVal.isInt : PyVal → Bool
  | .int _ => true
  | .str _ => false

/-- An insertion-ordered dictionary with `Str` keys, as Python dicts
behave for the coordinate→node map. -/
abbrev Dict := List (Str × PyVal)

/-- Python `d.get(k)` / `k in d`. -/
def dget (d : Dict) (k : Str) : Option PyVal :=
  (d.find? (fun p => p.1 = k)).map (·.2)

/-- Python `d.get(k, default)`. -/
def dgetD (d : Dict) (k : Str) (v : PyVal) : PyVal := (dget d k).getD v

/-- Python `d[k] = v` where `k` is known to be absent: append, keeping
insertion order. -/
def dappend (d : Dict) (k : Str) (v : PyVal) : Dict := d ++ [(k, v)]

/-- Python `d.values()` in insertion order. -/
def dvalues (d : Dict) : List PyVal := d.map (·.2)

/-- A scalar element of a parsed LTspice line: an int or a string. -/
inductive Atom where
  | i (n : Int)
  | s (t : Str)
deriving DecidableEq, Repr

/-- An element of a parsed LTspice line. The parser only ever nests one
level deep (a line is a list whose elements are scalars or flat lists of
scalars, e.g. a `SYMBOL` header or an attached `FLAG`), so a two-layer
encoding is faithful. -/
inductive Item where
  | a (x : Atom)
  | l (xs : List Atom)
deriving DecidableEq, Repr

/-- Shorthand: a string scalar item. -/
def Item.s (t : Str) : Item := .a (.s t)

/-- Shorthand: an int scalar item. -/
def Item.i (n : Int) : Item := .a (.i n)

/-- A parsed schematic: the `self.parsed` list of `parser.py`, one entry
per recognised input line (symbol groups are lists whose head is the
`SYMBOL` header list). -/
abbrev Parsed := List (List Item)

/-- `x == "0" or x == 0`: the ground-label test used by `nodes.py` and
`transformations.py`. -/
def atomIsGround : Atom → Bool
  | .s t => t = strOf "0"
  | .i n => n = 0

/-! ## components.py -/

/-- `components.node_key`: `f"{x:04d}_{y:04d}"`. -/
def node_key (x y : Int) : Str := pyFmt04 x ++ ['_'] ++ pyFmt04 y

/-- `components.rotate_point`: rotation table looked up by direction
string, defaulting to the identity for unknown directions
(`rotations.get(direction, (x, y))`). -/
def rotate_point (x y : Int) (direction : Str) : Int × Int :=
  if direction = strOf "down" then (x, y)
  else if direction = strOf "left" then (-y, x)
  else if direction = strOf "up" then (-x, -y)
  else if direction = strOf "right" then (y, -x)
  else (x, y)

/-- The fixed 5-pin op-amp offset table of
`ComponentMatcher.match_opamp_nodes`, in dict iteration order. -/
def opampPins : List (Str × (Int × Int)) :=
  [(strOf "in_minus", (-32, -16)), (strOf "in_plus", (-32, 16)),
   (strOf "out", (32, 0)), (strOf "vcc", (0, -32)), (strOf "vee", (0, 32))]

/-- The fixed 3-pin op-amp offset table of
`ComponentMatcher.match_simple_opamp_nodes`. -/
def simpleOpampPins : List (Str × (Int × Int)) :=
  [(strOf "in_plus", (-32, 48)), (strOf "in_minus", (-32, 80)),
   (strOf "out", (32, 64))]

/-- Body of the op-amp matchers: rotate each pin offset with
`rotate_point`, look the absolute coordinate up in the node dict,
defaulting to `"?"`. -/
def matchPinTable (pins : List (Str × (Int × Int))) (nodes : Dict)
    (x y : Int) (direction : Str) : List (Str × PyVal) :=
  pins.map (fun p =>
    let r := rotate_point p.2.1 p.2.2 direction
    (p.1, dgetD nodes (node_key (x + r.1) (y + r.2)) (.str (strOf "?"))))

/-- `ComponentMatcher.match_opamp_nodes`. -/
def match_opamp_nodes (nodes : Dict) (x y : Int) (direction : Str) :
    List (Str × PyVal) :=
  matchPinTable opampPins nodes x y direction

/-- `ComponentMatcher.match_simple_opamp_nodes`. -/
def match_simple_opamp_nodes (nodes : Dict) (x y : Int) (direction : Str) :
    List (Str × PyVal) :=
  matchPinTable simpleOpampPins nodes x y direction

/-- A `two_terminal` entry of `components_config.json` (the pin-offset
schema read by `ComponentMatcher.match_node`). The JSON file itself is
not under `src/`, so the table is a parameter of the embedding. -/
structure TwoTermCfg where
  x_offset : Int
  y_offset : Int
  length : Int
deriving DecidableEq, Repr

/-- The `two_terminal` section of the component configuration, as an
association list from component kind to offsets. -/
abbrev TwoTermTable := List (Str × TwoTermCfg)

/-- Association-list lookup (Python `kind in two_term` / indexing). -/
def ttLookup (tbl : TwoTermTable) (k : Str) : Option TwoTermCfg :=
  (tbl.find? (fun p => p.1 = k)).map (·.2)

/-- The config-selection if-chain of `ComponentMatcher.match_node`
(exact key, then `res`/`cap`/`ind` name-sniffing, then
voltage/current/ammeter/voltmeter). -/
def matchNodeConfig (tbl : TwoTermTable) (kind : Str) : Option TwoTermCfg :=
  let kl := pyLower kind
  if (ttLookup tbl kind).isSome then ttLookup tbl kind
  else if isPre (strOf "res") kl ∧ (ttLookup tbl (strOf "res")).isSome then
    ttLookup tbl (strOf "res")
  else if isPre (strOf "cap") kl ∧ (ttLookup tbl (strOf "cap")).isSome then
    ttLookup tbl (strOf "cap")
  else if isPre (strOf "ind") kl ∧ (ttLookup tbl (strOf "ind")).isSome then
    ttLookup tbl (strOf "ind")
  else if kl = strOf "voltage" ∨ isPre (strOf "voltage") kl then
    ttLookup tbl (strOf "voltage")
  else if kl = strOf "current" ∨ isPre (strOf "current") kl then
    ttLookup tbl (strOf "current")
  else if kl = strOf "ammeter" ∨ isPre (strOf "ammeter") kl then
    ttLookup tbl (strOf "ammeter")
  else if kl = strOf "voltmeter" ∨ isPre (strOf "voltmeter") kl then
    ttLookup tbl (strOf "voltmeter")
  else none

/-- The two pin coordinates computed by the two-terminal branch of
`ComponentMatcher.match_node` for a given orientation. -/
def twoTermPins (x y : Int) (cfg : TwoTermCfg) (direction : Str) :
    (Int × Int) × (Int × Int) :=
  if direction = strOf "down" ∨ direction = strOf "R0" ∨ direction = strOf "R" then
    ((x + cfg.x_offset, y + cfg.y_offset), (x + cfg.x_offset, y + cfg.length))
  else if direction = strOf "right" ∨ direction = strOf "R270" then
    ((x + cfg.y_offset, y - cfg.x_offset), (x + cfg.length, y - cfg.x_offset))
  else if direction = strOf "up" ∨ direction = strOf "R180" then
    ((x - cfg.x_offset, y - cfg.y_offset), (x - cfg.x_offset, y - cfg.length))
  else if direction = strOf "left" ∨ direction = strOf "R90" then
    ((x - cfg.y_offset, y + cfg.x_offset), (x - cfg.length, y + cfg.x_offset))
  else
    ((x + cfg.x_offset, y + cfg.y_offset), (x + cfg.x_offset, y + cfg.length))

/-- The direction-offset fallback table of `match_node` for unknown
component kinds (`direction_offsets.get(direction, (16, 0))`). -/
def fallbackOffset (direction : Str) : Int × Int :=
  if direction = strOf "right" then (16, 0)
  else if direction = strOf "down" then (0, 16)
  else if direction = strOf "left" then (-16, 0)
  else if direction = strOf "up" then (0, -16)
  else (16, 0)

/-- `ComponentMatcher.match_node`. -/
def match_node (tbl : TwoTermTable) (nodes : Dict) (x y : Int)
    (kind : Str) (direction : Str) : List (Str × PyVal) :=
  if kind = strOf "Opamps/UniversalOpamp2" then
    match_opamp_nodes nodes x y direction
  else if kind = strOf "opamp" then
    match_simple_opamp_nodes nodes x y direction
  else
    match matchNodeConfig tbl kind with
    | some cfg =>
      let pins := twoTermPins x y cfg direction
      let v1 := dgetD nodes (node_key pins.1.1 pins.1.2) (.str (strOf "?"))
      let v2 := dgetD nodes (node_key pins.2.1 pins.2.2) (.str (strOf "?"))
      [(strOf "n1", v1), (strOf "n2", v2), (strOf "pin0", v1), (strOf "pin1", v2)]
    | none =>
      let off := fallbackOffset direction
      [(strOf "n1", dgetD nodes (node_key x y) (.str (strOf "?"))),
       (strOf "n2",
        dgetD nodes (node_key (x + off.1) (y + off.2)) (.str (strOf "?")))]

/-- Lookup in a matched-pin association list (`matched.get(name, "?")`). -/
def pinGet (m : List (Str × PyVal)) (k : Str) : PyVal :=
  ((m.find? (fun p => p.1 = k)).map (·.2)).getD (.str (strOf "?"))

/-- Lookup with explicit fallback key
(`matched.get("pin0", matched.get("n1", "?"))`). -/
def pinGet2 (m : List (Str × PyVal)) (k1 k2 : Str) : PyVal :=
  match (m.find? (fun p => p.1 = k1)).map (·.2) with
  | some v => v
  | none => pinGet m k2

/-! ## ltparser.py (the legacy single-file implementation) -/

/-- `ltparser.rotate_point` (legacy module). Indexing `rotations[direction]`
raises `KeyError` for an unknown direction in Python; the embedding is
only ever applied to the four direction strings, and returns `(x, y)`
outside them. -/
def lt_rotate_point (x y : Int) (direction : Str) : Int × Int :=
  if direction = strOf "down" then (x, y)
  else if direction = strOf "left" then (y, -x)
  else if direction = strOf "up" then (-x, -y)
  else if direction = strOf "right" then (-y, x)
  else (x, y)

/-- The legacy `component_offsets` table of `ltparser.py` (two-terminal
entries; the op-amp entry has a different shape and is consumed only by
the op-amp matchers). -/
def lt_component_offsets (kind : Str) : Option (Int × Int × Int) :=
  if kind = strOf "voltage" then some (0, 16, 96)
  else if kind = strOf "cap" then some (16, 0, 64)
  else if kind = strOf "res" then some (16, 16, 96)
  else if kind = strOf "current" then some (0, 0, 80)
  else if kind = strOf "polcap" then some (16, 0, 64)
  else if kind = strOf "ind" then some (16, 16, 96)
  else none

/-- The two pin keys computed by the legacy `LTspice.match_node` for a
two-terminal component (the four direction arms; the final `else` arm
sets both keys to `None`, rendering both nodes `"?"`). -/
def lt_match_node_keys (x y x_off y_off length : Int) (direction : Str) :
    Option (Str × Str) :=
  if direction = strOf "left" then
    some (node_key (x - y_off) (y + x_off), node_key (x - length) (y + x_off))
  else if direction = strOf "right" then
    some (node_key (x + y_off) (y - x_off), node_key (x + length) (y - x_off))
  else if direction = strOf "down" then
    some (node_key (x + x_off) (y + y_off), node_key (x + x_off) (y + length))
  else if direction = strOf "up" then
    some (node_key (x - x_off) (y - y_off), node_key (x - x_off) (y - length))
  else none

/-- Legacy `LTspice.match_node`: offsets from `lt_component_offsets`,
then node lookups with `"?"` for a missing key. -/
def lt_match_node (nodes : Dict) (x y : Int) (kind : Str)
    (direction : Str) : PyVal × PyVal :=
  match lt_component_offsets kind with
  | none => (.str (strOf "?"), .str (strOf "?"))
  | some (x_off, y_off, length) =>
    match lt_match_node_keys x y x_off y_off length direction with
    | none => (.str (strOf "?"), .str (strOf "?"))
    | some (k1, k2) =>
      (dgetD nodes k1 (.str (strOf "?")), dgetD nodes k2 (.str (strOf "?")))

/-! ## Exact decimals

Python floats are idealised as exact decimals `m * 10^e`. Every number
this program constructs is a decimal numeral scaled by powers of ten
(the parsers multiply by SI powers of ten and divide only by powers of
ten), so the type is closed under all the arithmetic performed, and —
unlike `ℚ`, whose kernel arithmetic does not reduce — it keeps every
concrete evaluation decidable. `Dec.toRat` gives the rational value for
theorem statements. -/

deriving instance DecidableEq for Except

structure Dec where
  m : Int
  e : Int
deriving DecidableEq, Repr

/-- The rational value of an exact decimal. -/
def Dec.toRat (d : Dec) : ℚ := (d.m : ℚ) * 10 ^ d.e

/-- Multiplication by `10^k`. -/
def Dec.scale (d : Dec) (k : Int) : Dec := ⟨d.m, d.e + k⟩

/-- Negation. -/
def Dec.neg (d : Dec) : Dec := ⟨-d.m, d.e⟩

/-- Floor of a decimal as an integer. -/
def Dec.floor (d : Dec) : Int :=
  if 0 ≤ d.e then d.m * 10 ^ d.e.toNat
  else Int.fdiv d.m (10 ^ (-d.e).toNat)

/-- Absolute value. -/
def Dec.abs (d : Dec) : Dec := ⟨|d.m|, d.e⟩

/-- Round-half-even of a decimal to an integer (how Python rounds when
formatting an exactly representable value). -/
def Dec.roundHalfEven (d : Dec) : Int :=
  if 0 ≤ d.e then d.m * 10 ^ d.e.toNat
  else
    let D : Int := 10 ^ (-d.e).toNat
    let q := Int.fdiv d.m D
    let r := Int.fmod d.m D
    if 2 * r < D then q
    else if 2 * r > D then q + 1
    else if q % 2 = 0 then q else q + 1

/-! ## Numerals and value parsing -/

/-- Numeric value of a digit string (most significant first). -/
def natOfDigits (s : Str) : Nat :=
  s.foldl (fun a c => 10 * a + (c.toNat - 48)) 0

/-- The pieces matched by the leading-numeral regex of
`_parse_prefixed_value`:
`^([+-]?\d*\.?\d*(?:[eE][+-]?\d+)?)(.*)$`. -/
structure NumScan where
  sign : Str
  intPart : Str
  dot : Str
  frac : Str
  expo : Str
  rest : Str
deriving DecidableEq, Repr

/-- Greedy scan of the leading-numeral regex (each group takes as many
characters as it can; the exponent group participates only when an
`e`/`E` with at least one following digit is present, exactly as the
regex backtracks). -/
def scanNumeral (s : Str) : NumScan :=
  let (sign, r1) :=
    match s with
    | '+' :: r => (['+'], r)
    | '-' :: r => (['-'], r)
    | _ => ([], s)
  let intPart := r1.takeWhile Char.isDigit
  let r2 := r1.dropWhile Char.isDigit
  let (dot, r3) :=
    match r2 with
    | '.' :: r => (['.'], r)
    | _ => (([] : Str), r2)
  let frac := r3.takeWhile Char.isDigit
  let r4 := r3.dropWhile Char.isDigit
  let (expo, rest) :=
    match r4 with
    | e :: r =>
      if e = 'e' ∨ e = 'E' then
        let (es, r5) :=
          match r with
          | '+' :: q => (['+'], q)
          | '-' :: q => (['-'], q)
          | _ => (([] : Str), r)
        let ed := r5.takeWhile Char.isDigit
        if ed ≠ [] then (e :: (es ++ ed), r5.dropWhile Char.isDigit)
        else (([] : Str), r4)
      else (([] : Str), r4)
    | [] => (([] : Str), r4)
  ⟨sign, intPart, dot, frac, expo, rest⟩

/-- Signed exponent value of a matched exponent group (`[]`, or
`e`/`E` followed by an optional sign and digits). -/
def expoVal (e : Str) : Int :=
  match e with
  | [] => 0
  | _ :: r =>
    match r with
    | '+' :: d => (natOfDigits d : Int)
    | '-' :: d => -(natOfDigits d : Int)
    | d => (natOfDigits d : Int)

/-- `float(num_str)` for the numerals produced by `scanNumeral`: defined
when the mantissa has at least one digit, exactly when Python's `float`
succeeds on such a numeral. The value is
`±(intPart + frac/10^len(frac)) * 10^expo`, assembled as the exact
decimal `±digits(intPart ++ frac) * 10^(expo - len(frac))`. -/
def floatOfScan (n : NumScan) : Option Dec :=
  if n.intPart = [] ∧ n.frac = [] then none
  else
    let mant : Int := (natOfDigits (n.intPart ++ n.frac) : Int)
    let signed : Int := if n.sign = ['-'] then -mant else mant
    some ⟨signed, expoVal n.expo - n.frac.length⟩

/-- `netlist._parse_prefixed_value`: leading signed numeral, then an
SI-prefix suffix matched by the source's if-chain (`meg` before `g`,
`k`; `u`/`µ` tested on the unlowered suffix; then `m`, `n`, `p`, `f`);
unrecognised suffixes are ignored. Returns `none` where the source
returns `None`. -/
def parse_prefixed_value (raw : Str) : Option Dec :=
  let s := pyStrip raw
  if s = [] then none
  else
    let n := scanNumeral s
    let numStr := n.sign ++ n.intPart ++ n.dot ++ n.frac ++ n.expo
    let suffix := pyStrip n.rest
    if numStr = [] ∨ numStr = ['+'] ∨ numStr = ['-'] then none
    else
      match floatOfScan n with
      | none => none
      | some base =>
        let suffixLower := pyLower suffix
        let shift : Int :=
          if isPre (strOf "meg") suffixLower then 6
          else if isPre (strOf "g") suffixLower then 9
          else if isPre (strOf "k") suffixLower then 3
          else if suffix ≠ [] ∧ (suffix.head? = some 'u' ∨ suffix.head? = some 'µ') then -6
          else if isPre (strOf "m") suffixLower then -3
          else if isPre (strOf "n") suffixLower then -9
          else if isPre (strOf "p") suffixLower then -12
          else if isPre (strOf "f") suffixLower then -15
          else 0
        some (base.scale shift)

/-- A value returned by the legacy `ltspice_value_to_number`: either a
number or a string passed through. -/
inductive LtVal where
  | num (d : Dec)
  | str (s : Str)
deriving DecidableEq, Repr

/-- The rational value of a legacy parse result, when numeric (an
interpretation helper for theorem statements). -/
def LtVal.ratValue : LtVal → Option ℚ
  | .num d => some d.toRat
  | .str _ => none

/-- The pyparsing `number` of `ltparser.py`:
`Combine(Optional(".") + Word(nums) + Optional("." + Optional(Word(nums))))`
after leading-whitespace skipping. Returns the numeric value and the
remaining input. A numeral with both a leading and a trailing dot (e.g.
`".5."`) makes the original raise an uncaught `ValueError` at
`float(parsed[0])`; such inputs are outside this embedding's use. -/
def ppNumber (s : Str) : Option (Dec × Str) :=
  let t := pyLstrip s
  if t.head? = some '.' then
    let r := t.tail
    let d := r.takeWhile Char.isDigit
    if d = [] then none
    else some (⟨(natOfDigits d : Int), -(d.length : Int)⟩, r.dropWhile Char.isDigit)
  else
    let d1 := t.takeWhile Char.isDigit
    if d1 = [] then none
    else
      let r1 := t.dropWhile Char.isDigit
      if r1.head? = some '.' then
        let r2 := r1.tail
        let d2 := r2.takeWhile Char.isDigit
        some (⟨(natOfDigits (d1 ++ d2) : Int), -(d2.length : Int)⟩,
              r2.dropWhile Char.isDigit)
      else some (⟨(natOfDigits d1 : Int), 0⟩, r1)

/-- Caseless-literal test of pyparsing (`CaselessLiteral(p)` succeeding
on the front of `r`, after upper-casing both sides). -/
def caselessStarts (p : Str) (r : Str) : Bool :=
  isPre (pyUpper p) (pyUpper r)

/-- Legacy `ltspice_value_to_number`: `""` literal → empty value; input
starting with `{` → returned verbatim; otherwise a pyparsing numeral
with an optional caseless SI prefix (alternation order
`MEG | F | P | N | U | M | K | µ`) and discarded rest; parse failure →
the original string. -/
def ltspice_value_to_number (s : Str) : LtVal :=
  let t := pyLstrip s
  if isPre (strOf "\"\"") t then .str []
  else if isPre (strOf "\x7b") t then .str s
  else
    match ppNumber t with
    | none => .str s
    | some (x, rest) =>
      let r := pyLstrip rest
      if caselessStarts (strOf "MEG") r then .num (x.scale 6)
      else if caselessStarts (strOf "F") r then .num (x.scale (-15))
      else if caselessStarts (strOf "P") r then .num (x.scale (-12))
      else if caselessStarts (strOf "N") r then .num (x.scale (-9))
      else if caselessStarts (strOf "U") r then .num (x.scale (-6))
      else if caselessStarts (strOf "M") r then .num (x.scale (-3))
      else if caselessStarts (strOf "K") r then .num (x.scale 3)
      else if isPre (strOf "µ") r then .num (x.scale (-6))
      else .num x

/-- The argument part of `ltspice_sine_parser`: up to three
whitespace-separated pyparsing numerals then `)`; missing parameters
default, from the right, to dc = 0, amplitude = 1, frequency = 0. -/
def sineArgs (r0 : Str) : Except Unit (Dec × Dec × Dec) :=
  match ppNumber r0 with
  | none =>
    if (pyLstrip r0).head? = some ')' then .ok (⟨0, 0⟩, ⟨1, 0⟩, ⟨0, 0⟩)
    else .error ()
  | some (dc, r1) =>
    match ppNumber r1 with
    | none =>
      if (pyLstrip r1).head? = some ')' then .ok (dc, ⟨1, 0⟩, ⟨0, 0⟩)
      else .error ()
    | some (amp, r2) =>
      match ppNumber r2 with
      | none =>
        if (pyLstrip r2).head? = some ')' then .ok (dc, amp, ⟨0, 0⟩)
        else .error ()
      | some (omega, r3) =>
        if (pyLstrip r3).head? = some ')' then .ok (dc, amp, omega)
        else .error ()

/-- `netlist.ltspice_sine_parser`: the literal `SINE(` (after leading
blanks) followed by `sineArgs`. A parse failure raises
`pyparsing.ParseException` in the source (not caught by the caller's
`except ValueError`), modelled by `.error`. -/
def ltspice_sine_parse (s : Str) : Except Unit (Dec × Dec × Dec) :=
  let t := pyLstrip s
  if isPre (strOf "SINE(") t then sineArgs (t.drop 5)
  else .error ()

/-! ## Float formatting

The emitters format floats with `f"{v:.6f}"`, `f"{v:.6g}"` and `f"{v}"`,
modelled on the exact-decimal idealisation. -/

/-- Python `f"{v:.6f}"`: fixed-point with exactly six fractional
digits. -/
def format6f (d : Dec) : Str :=
  let n := (d.scale 6).roundHalfEven
  let ds := natStr n.natAbs
  let ds := List.replicate (7 - ds.length) '0' ++ ds
  let intDigits := ds.take (ds.length - 6)
  let fracDigits := ds.drop (ds.length - 6)
  (if n < 0 then ['-'] else []) ++ intDigits ++ ['.'] ++ fracDigits

/-- Decimal exponent (position of the leading digit,
`⌊log10 |v|⌋`) of a non-zero decimal. -/
def decExp (d : Dec) : Int :=
  ((natStr d.m.natAbs).length : Int) - 1 + d.e

/-- Python `f"{v:.6g}"`: six significant digits, trailing zeros
stripped, scientific notation outside `1e-4 ≤ |v| < 1e6`. -/
def format6g (d : Dec) : Str :=
  if d.m = 0 then ['0']
  else
    let a := d.abs
    let e := decExp a
    let m0 := (a.scale (5 - e)).roundHalfEven
    let me := if m0 ≥ 1000000 then ((a.scale (4 - e)).roundHalfEven, e + 1)
              else (m0, e)
    let m := me.1
    let e := me.2
    let sign : Str := if d.m < 0 then ['-'] else []
    let ds := natStr m.natAbs
    if -4 ≤ e ∧ e < 6 then
      let body :=
        if 0 ≤ e then
          let ip := ds.take (e.toNat + 1)
          let fp := (ds.drop (e.toNat + 1)).reverse.dropWhile (· = '0') |>.reverse
          if fp = [] then ip else ip ++ ['.'] ++ fp
        else
          let zeros := List.replicate ((-e).toNat - 1) '0'
          let fp := (zeros ++ ds).reverse.dropWhile (· = '0') |>.reverse
          ['0', '.'] ++ fp
      sign ++ body
    else
      let ip := ds.take 1
      let fp := (ds.drop 1).reverse.dropWhile (· = '0') |>.reverse
      let mant := if fp = [] then ip else ip ++ ['.'] ++ fp
      let es := natStr e.natAbs
      let es := List.replicate (2 - es.length) '0' ++ es
      sign ++ mant ++ ['e'] ++ (if e < 0 then ['-'] else ['+']) ++ es

/-- Python `str(v)` / `f"{v}"` for a float whose value has a short exact
decimal expansion and magnitude below `1e16` (the only floats the
program renders this way): integer part, a dot, and the terminating
fraction digits (at least one). -/
def pyFloatStr (d : Dec) : Str :=
  let sign : Str := if d.m < 0 then ['-'] else []
  let a := d.abs
  let ip := a.floor
  let fracDigits :=
    (List.range 17).map (fun k =>
      digitChar (((a.scale (k + 1)).floor % 10).toNat))
  let fp := fracDigits.reverse.dropWhile (· = '0') |>.reverse
  sign ++ natStr ip.toNat ++ ['.'] ++ (if fp = [] then ['0'] else fp)

/-! ## nodes.py -/

/-- Integer value of a parsed coordinate atom. Parsed coordinates are
always ints (`signed_integer` in the grammar); applying `f"{x:04d}"` to
a string would raise in Python, and that case is unreachable here. -/
def atomInt : Atom → Int
  | .i n => n
  | .s _ => 0

/-- `NodeManager.add_node`: insert a node for `(x, y)` if the key is
absent — with the given name, or with one more than the largest existing
`int` value (`max(existing_numbers, default=0) + 1`). An existing key is
left untouched. -/
def add_node (nodes : Dict) (x y : Int) (name : Option PyVal) : Dict :=
  let key := node_key x y
  if (dget nodes key).isSome then nodes
  else
    match name with
    | some v => dappend nodes key v
    | none =>
      let existing := (dvalues nodes).filterMap
        (fun v => match v with | .int i => some i | .str _ => none)
      dappend nodes key (.int (existing.foldl max 0 + 1))

/-- The `FLAG` sublists attached to a `WIRE` line (scan of `line[5:]`
in `make_nodes_from_wires`). -/
def wireNestedFlags (line : List Item) : List (List Atom) :=
  if line.head? = some (Item.s (strOf "WIRE")) ∧ 5 < line.length then
    (line.drop 5).filterMap (fun it =>
      match it with
      | .l xs => if xs ≠ [] ∧ xs.head? = some (.s (strOf "FLAG")) then some xs else none
      | .a _ => none)
  else []

/-- A standalone `FLAG` line (`isinstance(line[0], list) and
line[0][0] == "FLAG"`). -/
def standaloneFlag (line : List Item) : Option (List Atom) :=
  match line.head? with
  | some (.l xs) => if xs.head? = some (.s (strOf "FLAG")) then some xs else none
  | _ => none

/-- `x, y, name = item[1:4]` for a `FLAG` sublist. -/
def flagFields (xs : List Atom) : Option (Atom × Atom × Atom) :=
  match xs with
  | _ :: a1 :: a2 :: a3 :: _ => some (a1, a2, a3)
  | _ => none

/-- The `FLAG` records each parsed line contributes, in the order
`make_nodes_from_wires` visits them (wire-attached first, then
standalone). -/
def lineFlags (line : List Item) : List (Atom × Atom × Atom) :=
  (wireNestedFlags line).filterMap flagFields ++
    ((standaloneFlag line).bind flagFields).toList

/-- Pass 1 of `make_nodes_from_wires`: the ground flag locations, in
encounter order (with repetitions, as the Python list). -/
def groundLocations (pd : Parsed) : List (Int × Int) :=
  pd.foldl (fun acc line =>
    acc ++ (lineFlags line).filterMap (fun f =>
      if atomIsGround f.2.2 then some (atomInt f.1, atomInt f.2.1) else none)) []

/-- State threaded through pass 2 of `make_nodes_from_wires`: the node
dict, the location → ground-name map, and the running ground counter. -/
structure NodesState where
  nodes : Dict
  gmap : List ((Int × Int) × Str)
  counter : Nat
deriving Repr

/-- Process one `FLAG` record in pass 2 of `make_nodes_from_wires`. -/
def processFlag (singleGround : Bool) (st : NodesState)
    (f : Atom × Atom × Atom) : NodesState :=
  let x := atomInt f.1
  let y := atomInt f.2.1
  if atomIsGround f.2.2 then
    if singleGround then
      { st with nodes := add_node st.nodes x y (some (.int 0)) }
    else
      match (st.gmap.find? (fun p => p.1 = (x, y))).map (·.2) with
      | some g => { st with nodes := add_node st.nodes x y (some (.str g)) }
      | none =>
        let g := strOf "0_" ++ natStr st.counter
        { nodes := add_node st.nodes x y (some (.str g)),
          gmap := st.gmap ++ [((x, y), g)],
          counter := st.counter + 1 }
  else
    { st with nodes := add_node st.nodes x y none }

/-- Pass 2 of `make_nodes_from_wires` over the whole schematic. -/
def flagsFold (sg : Bool) (pd : Parsed) : NodesState :=
  pd.foldl (fun st line => (lineFlags line).foldl (processFlag sg) st)
    (⟨[], [], 1⟩ : NodesState)

/-- Pass 3 of `make_nodes_from_wires` for one line: a node per wire
endpoint. -/
def wireStep (nodes : Dict) (line : List Item) : Dict :=
  match line with
  | .a (.s t) :: .a (.i x1) :: .a (.i y1) :: .a (.i x2) :: .a (.i y2) :: _ =>
    if t = strOf "WIRE" then
      add_node (add_node nodes x1 y1 none) x2 y2 none
    else nodes
  | _ => nodes

/-- `NodeManager.make_nodes_from_wires`: collect ground locations,
create ground / flag nodes (single ground collapses to `0`; several
distinct locations get `0_1`, `0_2`, … by first appearance), then add a
node for every wire endpoint. -/
def make_nodes_from_wires (pd : Parsed) : Dict :=
  let singleGround : Bool := decide ((groundLocations pd).dedup.length ≤ 1)
  pd.foldl wireStep (flagsFold singleGround pd).nodes

/-- All `FLAG` records of the schematic in the order the two passes of
`make_nodes_from_wires` visit them. -/
def allFlags (pd : Parsed) : List (Atom × Atom × Atom) :=
  (pd.map lineFlags).flatten

/-- The expected ground-map contents: the distinct ground locations in
order of first appearance, named `0_<k>` from `k` upwards. -/
def gmapFrom (k : Nat) : List (Int × Int) → List ((Int × Int) × Str)
  | [] => []
  | loc :: r => (loc, strOf "0_" ++ natStr k) :: gmapFrom (k + 1) r

/-- The ground location → name map built by pass 2 of
`make_nodes_from_wires` (the Python `ground_map`). -/
def groundNameMap (pd : Parsed) : List ((Int × Int) × Str) :=
  (flagsFold (decide ((groundLocations pd).dedup.length ≤ 1)) pd).gmap

/-! ## netlist.py — helpers and the generator -/

/-- Python `float(s)` on a full string: the whole (stripped) input must
be consumed by the float literal. -/
def pyFloat (s : Str) : Option Dec :=
  let t := pyStrip s
  let n := scanNumeral t
  if n.rest = [] then floatOfScan n else none

/-- The digits captured by `re.match(r"^[A-Z]+(\d+)$", inst_name)`. -/
def upperDigitsMatch (inst : Str) : Option Str :=
  let letters := inst.takeWhile (fun c => 'A' ≤ c ∧ c ≤ 'Z')
  let rest := inst.drop letters.length
  if letters ≠ [] ∧ rest ≠ [] ∧ rest.all Char.isDigit then some rest else none

/-- `netlist.apply_netlist_prefix`, parameterised by the configured
`netlist_prefix` lookup (the JSON config is not under `src/`): replace
the instance name's letter run with the configured prefix, keeping the
digits; `"opamp"` is looked up as `"Opamps/opamp"`. -/
def applyNetlistPfx (npfx : Str → Option Str) (instName kind : Str) : Str :=
  let lookupKind := if kind = strOf "opamp" then strOf "Opamps/opamp" else kind
  match npfx lookupKind with
  | some p =>
    match upperDigitsMatch instName with
    | some num => p ++ num
    | none => instName
  | none => instName

/-- Configuration flags of `NetlistGenerator.generate`. -/
structure GenOpts where
  use_named_nodes : Bool := true
  include_directions : Bool := true
  minimal : Bool := false
  reorient : Bool := true
  renumber : Bool := true
deriving Repr

/-- Generator state: the accumulated netlist text and the independent
per-kind counters (`AM`, `VM`, `BAT`). -/
structure GenState where
  netlist : Str
  amCount : Nat := 0
  vmCount : Nat := 0
  batCount : Nat := 0
deriving DecidableEq, Repr

/-- The wire direction classification of `wire_to_netlist`:
horizontal (`right`/`left`) when `abs(dx) > abs(dy)`, else vertical
(`down`/`up`) — so a tie classifies as vertical. -/
def wireDirection (dx dy : Int) : Str :=
  if |dx| > |dy| then (if dx > 0 then strOf "right" else strOf "left")
  else (if dy > 0 then strOf "down" else strOf "up")

/-- The orientation canonicalisation of `wire_to_netlist`: swap the
endpoint roles of `up` and `left` wires so that only `down` and `right`
are emitted. -/
def wireCanon (n1 n2 : PyVal) (direction : Str) : PyVal × PyVal × Str :=
  if direction = strOf "up" then (n2, n1, strOf "down")
  else if direction = strOf "left" then (n2, n1, strOf "right")
  else (n1, n2, direction)

/-- `NetlistGenerator.wire_to_netlist`: classify the wire with
`wireDirection`, resolve endpoints (defaulting to `"?"`), canonicalise
with `wireCanon`, and append the statement (with the direction hint
unless in minimal mode without directions). -/
def wire_to_netlist (nodes : Dict) (opts : GenOpts) (st : GenState)
    (line : List Item) : Except Str GenState :=
  match line with
  | .a (.s _) :: .a (.i x1) :: .a (.i y1) :: .a (.i x2) :: .a (.i y2) :: _ =>
    let n1 := dgetD nodes (node_key x1 y1) (.str (strOf "?"))
    let n2 := dgetD nodes (node_key x2 y2) (.str (strOf "?"))
    let c := wireCanon n1 n2 (wireDirection (x2 - x1) (y2 - y1))
    let stmt :=
      if (!opts.minimal && !opts.include_directions) || opts.include_directions then
        strOf "W " ++ c.1.render ++ [' '] ++ c.2.1.render ++ strOf "; " ++
          c.2.2 ++ ['\n']
      else
        strOf "W " ++ c.1.render ++ [' '] ++ c.2.1.render ++ ['\n']
    .ok { st with netlist := st.netlist ++ stmt }
  | _ => .error (strOf "WIRE unpack")

/-- Attribute-dict update (`attributes[name] = value`): overwrite in
place, else append. -/
def setAttr (d : List (Str × Str)) (k v : Str) : List (Str × Str) :=
  if d.any (fun p => p.1 = k) then
    d.map (fun p => if p.1 = k then (k, v) else p)
  else d ++ [(k, v)]

/-- The `SYMATTR` attribute dict collected by `symbol_to_netlist`. -/
def collectAttrs (line : List Item) : List (Str × Str) :=
  (line.drop 1).foldl (fun acc it =>
    match it with
    | .l xs =>
      if 2 ≤ xs.length ∧ xs.head? = some (.s (strOf "SYMATTR")) then
        match xs.get? 1 with
        | some (.s name) =>
          let value :=
            match xs.get? 2 with
            | some (.s v) => pyStrip v
            | some (.i n) => pyStrip (intStr n)
            | none => []
          setAttr acc name value
        | _ => acc
      else acc
    | .a _ => acc) []

/-- `attributes.get(k, default)`. -/
def attrGet (d : List (Str × Str)) (k dflt : Str) : Str :=
  (((d.find? (fun p => p.1 = k)).map (·.2))).getD dflt

/-- `attributes.get(k)` (possibly absent). -/
def attrGet? (d : List (Str × Str)) (k : Str) : Option Str :=
  (d.find? (fun p => p.1 = k)).map (·.2)

/-- The LTspice rotation-token normalisation of `symbol_to_netlist`
(`direction_map.get(direction, direction)`). -/
def normalizeDirection (d : Str) : Str :=
  if d = strOf "R" ∨ d = strOf "R0" then strOf "down"
  else if d = strOf "R90" then strOf "left"
  else if d = strOf "R180" then strOf "up"
  else if d = strOf "R270" then strOf "right"
  else d

/-- The source-value computation shared by the battery and
voltage/current branches of `symbol_to_netlist`: an `AC <amp>` in
`Value2` takes precedence; otherwise a `SINE(...)` value contributes its
amplitude; an AC amplitude is emitted as `ac <amp>` with six decimal
digits; otherwise a parseable magnitude is formatted with `%.6g`. A
`SINE(`-shaped value that fails to parse raises an uncaught
`pyparsing.ParseException` in the source (`except ValueError` does not
catch it), modelled as `.error`. -/
def sourceValueText (value : Str) (value2 : Str) : Except Str Str :=
  let acFromAttr : Option Dec :=
    if value2 ≠ [] then
      match pySplit value2 with
      | p0 :: p1 :: _ => if pyLower p0 = strOf "ac" then pyFloat p1 else none
      | _ => none
    else none
  if h : acFromAttr.isSome then
    .ok (strOf "ac " ++ format6f (acFromAttr.get h))
  else if isPre (strOf "SINE(") (pyUpper value) then
    match ltspice_sine_parse value with
    | .ok r => .ok (strOf "ac " ++ format6f r.2.1)
    | .error _ => .error (strOf "pyparsing.ParseException")
  else
    match parse_prefixed_value value with
    | some m => .ok (format6g m)
    | none => .ok value

/-- The trailing-unit removal applied to source values only
(`value.endswith("V")`/`"v"` and then `"A"`/`"a"` drop the last
character; anything else is kept). -/
def sourceUnitStrip (value0 : Str) : Str :=
  if value0.getLast? = some 'V' ∨ value0.getLast? = some 'v' then value0.dropLast
  else if value0.getLast? = some 'A' ∨ value0.getLast? = some 'a' then value0.dropLast
  else value0

/-- f-string rendering of a parsed atom. -/
def atomRender : Atom → Str
  | .s t => t
  | .i n => intStr n

/-- `NetlistGenerator.symbol_to_netlist`: dispatch on the component
kind, resolve terminals through `match_node`, and append one statement.
`tbl` is the two-terminal offset table and `npfx` the configured
`netlist_prefix` lookup (both from the JSON config, which is not under
`src/`). An unparseable `SINE(` value propagates as `.error`. -/
def symbol_to_netlist (tbl : TwoTermTable) (npfx : Str → Option Str)
    (nodes : Dict) (opts : GenOpts) (st : GenState) (line : List Item) :
    Except Str GenState :=
  match line.head? with
  | some (.l first) =>
    if first.head? ≠ some (Atom.s (strOf "SYMBOL")) then .ok st
    else
      match first.get? 1, first.get? 2, first.get? 3 with
      | some (.s kind), some (.i x), some (.i y) =>
        let direction0 :=
          match first.get? 4 with
          | some (.s d) => d
          | _ => strOf "down"
        let direction := normalizeDirection direction0
        let attrs := collectAttrs line
        let instName := attrGet attrs (strOf "InstName") (strOf "?")
        let value0 := attrGet attrs (strOf "Value") []
        let kl := pyLower kind
        let isV := isPre (strOf "voltage") kl || containsSub (strOf "battery") kl
        let isI := isPre (strOf "current") kl
        let value := if value0 ≠ [] ∧ (isV || isI) then sourceUnitStrip value0 else value0
        let matched := match_node tbl nodes x y kind direction
        let dirSuffix : Str := strOf "; " ++ direction
        if kind = strOf "Opamps/UniversalOpamp2" then
          let out := pinGet matched (strOf "out")
          let vee := pinGet matched (strOf "vee")
          let inp := pinGet matched (strOf "in_plus")
          let inm := pinGet matched (strOf "in_minus")
          let nm := applyNetlistPfx npfx instName kind
          let stmt := nm ++ [' '] ++ out.render ++ [' '] ++ vee.render ++
            strOf " opamp " ++ inp.render ++ [' '] ++ inm.render ++ ['\n']
          .ok { st with netlist := st.netlist ++ stmt }
        else if kind = strOf "opamp" then
          let out := pinGet matched (strOf "out")
          let inp := pinGet matched (strOf "in_plus")
          let inm := pinGet matched (strOf "in_minus")
          let nm := applyNetlistPfx npfx instName kind
          let stmt := nm ++ [' '] ++ out.render ++ strOf " 0 opamp " ++
            inp.render ++ [' '] ++ inm.render ++ ['\n']
          .ok { st with netlist := st.netlist ++ stmt }
        else if isPre (strOf "res") kl ∨ isPre (strOf "cap") kl ∨
            isPre (strOf "ind") kl then
          let n1 := pinGet2 matched (strOf "pin0") (strOf "n1")
          let n2 := pinGet2 matched (strOf "pin1") (strOf "n2")
          let (n1, n2, direction) :=
            if direction = strOf "left" ∧ opts.reorient then (n2, n1, strOf "right")
            else if direction = strOf "up" ∧ opts.reorient then (n2, n1, strOf "down")
            else (n1, n2, direction)
          let valueText :=
            match parse_prefixed_value value with
            | some m => pyFloatStr m
            | none => value
          let stmt := instName ++ [' '] ++ n1.render ++ [' '] ++ n2.render ++
            [' '] ++ valueText ++
            (if opts.minimal then [] else strOf "; " ++ direction) ++ ['\n']
          .ok { st with netlist := st.netlist ++ stmt }
        else if containsSub (strOf "battery") kl then
          let n1 := pinGet2 matched (strOf "pin0") (strOf "n1")
          let n2 := pinGet2 matched (strOf "pin1") (strOf "n2")
          let nm := applyNetlistPfx npfx instName kind
          match sourceValueText value (attrGet attrs (strOf "Value2") []) with
          | .error e => .error e
          | .ok sv =>
            let stmt := nm ++ [' '] ++ n1.render ++ [' '] ++ n2.render ++
              [' '] ++ sv ++ (if opts.minimal then [] else dirSuffix) ++ ['\n']
            .ok { st with netlist := st.netlist ++ stmt }
        else if isPre (strOf "voltage") kl ∨ isPre (strOf "current") kl then
          let n1 := pinGet2 matched (strOf "pin0") (strOf "n1")
          let n2 := pinGet2 matched (strOf "pin1") (strOf "n2")
          match sourceValueText value (attrGet attrs (strOf "Value2") []) with
          | .error e => .error e
          | .ok sv =>
            let stmt := instName ++ [' '] ++ n1.render ++ [' '] ++ n2.render ++
              [' '] ++ sv ++ (if opts.minimal then [] else dirSuffix) ++ ['\n']
            .ok { st with netlist := st.netlist ++ stmt }
        else if kl = strOf "ammeter" ∨ isPre (strOf "ammeter") kl then
          let n1 := pinGet2 matched (strOf "pin0") (strOf "n1")
          let n2 := pinGet2 matched (strOf "pin1") (strOf "n2")
          let st := { st with amCount := st.amCount + 1 }
          let nm := strOf "AM" ++ natStr st.amCount
          let stmt := nm ++ [' '] ++ n1.render ++ [' '] ++ n2.render ++
            (if opts.minimal then [] else dirSuffix) ++ ['\n']
          .ok { st with netlist := st.netlist ++ stmt }
        else if kl = strOf "voltmeter" ∨ isPre (strOf "voltmeter") kl then
          let n1 := pinGet2 matched (strOf "pin0") (strOf "n1")
          let n2 := pinGet2 matched (strOf "pin1") (strOf "n2")
          let st := { st with vmCount := st.vmCount + 1 }
          let nm := strOf "VM" ++ natStr st.vmCount
          let stmt := nm ++ [' '] ++ n1.render ++ [' '] ++ n2.render ++
            (if opts.minimal then [] else dirSuffix) ++ ['\n']
          .ok { st with netlist := st.netlist ++ stmt }
        else
          let n1 := pinGet2 matched (strOf "pin0") (strOf "n1")
          let n2 := pinGet2 matched (strOf "pin1") (strOf "n2")
          let stmt := instName ++ [' '] ++ n1.render ++ [' '] ++ n2.render ++
            [' '] ++ value ++ (if opts.minimal then [] else dirSuffix) ++ ['\n']
          .ok { st with netlist := st.netlist ++ stmt }
      | _, _, _ => .error (strOf "SYMBOL unpack")
  | _ => .ok st

/-! ## transformations.py -/

/-- Swap elements 1 and 2 of a token list
(`main_parts[1], main_parts[2] = main_parts[2], main_parts[1]`). -/
def swap12 (ls : List Str) : List Str :=
  match ls with
  | a :: b :: c :: r => a :: c :: b :: r
  | _ => ls

/-- Per-line body of `NetlistTransformer.reorient_rlc`: statements whose
name starts with `W`/`R`/`L`/`C` and whose trailing direction is exactly
`left` or `up` get their two node fields swapped and the direction
flipped to `right`/`down`; everything else passes through verbatim. -/
def reorientLine (line : Str) : Str :=
  let parts := pySplit line
  if parts.length < 3 then line
  else
    let comp := parts.headD []
    let isRlc := comp.head? = some 'W' ∨ comp.head? = some 'R' ∨
      comp.head? = some 'L' ∨ comp.head? = some 'C'
    if ¬ isRlc then line
    else
      match (splitFirst ';' line).2 with
      | none => line
      | some dirPart =>
        let direction := pyStrip dirPart
        if direction = strOf "left" ∨ direction = strOf "up" then
          let mainParts := pySplit (splitFirst ';' line).1
          if 3 ≤ mainParts.length then
            joinChar ' ' (swap12 mainParts) ++ strOf "; " ++
              (if direction = strOf "left" then strOf "right" else strOf "down")
          else line
        else line

/-- `NetlistTransformer.reorient_rlc`: strip the netlist, drop blank
lines, reorient each remaining line, re-join with a trailing newline. -/
def reorient_rlc (netlist : Str) : Str :=
  if netlist = [] then netlist
  else
    let lines := splitOnChar '\n' (pyStrip netlist)
    joinChar '\n' ((lines.filter (fun l => pyStrip l ≠ [])).map reorientLine) ++
      ['\n']

/-- A well-formed statement token: nonempty, whitespace-free and
semicolon-free (what `line.split()` produces on the node/value fields of
an emitted statement). -/
def wfTok (t : Str) : Prop := t ≠ [] ∧ ∀ c ∈ t, isWs c = false ∧ c ≠ ';'

/-- The node-field positions of a statement, shared by the renumbering
passes: op-amps (`E…` with at least six fields) use 1, 2, 4, 5; sources
(`V…`/`I…` with at least four fields) and everything else use 1, 2. -/
def nodePositions (comp : Str) (nparts : Nat) : List Nat :=
  if comp.head? = some 'E' ∧ 6 ≤ nparts then [1, 2, 4, 5]
  else if (comp.head? = some 'V' ∨ comp.head? = some 'I') ∧ 4 ≤ nparts then [1, 2]
  else [1, 2]

/-- One line of the ground-marking pass of
`NetlistTransformer.renumber_grounds`: each node-position token equal to
`0` (semicolons stripped) becomes `0_<counter>x`, with the occurrence
counter threaded across lines. -/
def markGroundsLine (acc : Nat × List Str) (line : Str) : Nat × List Str :=
  if pyStrip line = [] then (acc.1, acc.2 ++ [line])
  else
    let parts := pySplit line
    if parts.length < 3 then (acc.1, acc.2 ++ [line])
    else
      let positions := nodePositions (parts.headD []) parts.length
      let res := positions.foldl (fun (a : Nat × List Str × Bool) pos =>
        match a.2.1.get? pos with
        | some tok =>
          if pyRstrip ';' tok = strOf "0" then
            let cnt := a.1 + 1
            let newTok := strOf "0_" ++ natStr cnt ++ ['x'] ++
              (if tok.getLast? = some ';' then [';'] else [])
            (cnt, a.2.1.set pos newTok, true)
          else a
        | none => a) (acc.1, parts, false)
      if res.2.2 then (res.1, acc.2 ++ [joinChar ' ' res.2.1])
      else (res.1, acc.2 ++ [line])

/-- The single-ground decision of `renumber_grounds`: distinct standalone
ground-`FLAG` locations when parsed data is given, otherwise a count of
textual bare-`0` occurrences. -/
def rgSingleGround (netlist : Str) (pd : Option Parsed) : Bool :=
  match pd with
  | some p =>
    let locs := p.foldl (fun acc line =>
      if line ≠ [] then
        match standaloneFlag line with
        | some xs =>
          match xs.get? 3 with
          | some nm =>
            if atomIsGround nm then acc ++ [(xs.get? 1, xs.get? 2)] else acc
          | none => acc
        | none => acc
      else acc) ([] : List (Option Atom × Option Atom))
    locs.dedup.length ≤ 1
  | none =>
    pyCount (strOf " 0;") netlist + pyCount (strOf " 0 ") netlist +
      pyCount (strOf " 0\n") netlist ≤ 1

/-- `NetlistTransformer.renumber_grounds`: mark each bare-`0` occurrence
in a node position with a unique `0_<k>x` tag; if the schematic has at
most one distinct ground location, collapse every tag back to `0x`. -/
def renumber_grounds (netlist : Str) (pd : Option Parsed) : Str × Bool :=
  if netlist = [] then (netlist, true)
  else
    let single := rgSingleGround netlist pd
    let folded := (splitOnChar '\n' netlist).foldl markGroundsLine (0, [])
    let result := joinChar '\n' folded.2
    let result :=
      if single then
        (List.range' 2 (folded.1 - 1)).foldl
          (fun r i => pyReplace (strOf "0_" ++ natStr i ++ ['x']) (strOf "0x") r)
          (pyReplace (strOf "0_1x") (strOf "0x") result)
      else result
    (result, single)

/-- The skip test of `renumber_nodes`: a token is left alone if it
already carries an `x` mark or (when grounds are skipped) is `0` or
starts with `0_`. -/
def rnTokenSkip (skipGrounds : Bool) (tok : Str) : Bool :=
  tok.contains 'x' ∨ (skipGrounds ∧ (tok = strOf "0" ∨ isPre (strOf "0_") tok))

/-- First unmarked node value of one line, scanning the node positions
left to right. -/
def rnFindLine (skipGrounds : Bool) (line : Str) : Option Str :=
  if pyStrip line = [] then none
  else
    let parts := pySplit line
    if parts.length < 3 then none
    else
      (((nodePositions (parts.headD []) parts.length).filterMap (fun pos =>
        (parts.get? pos).bind (fun tok =>
          let node := pyRstrip ';' tok
          if rnTokenSkip skipGrounds node then none else some node)))).head?

/-- First unmarked node value of the whole netlist, scanning lines top
to bottom. -/
def rnFind (skipGrounds : Bool) (s : Str) : Option Str :=
  ((splitOnChar '\n' s).filterMap (rnFindLine skipGrounds)).head?

/-- All unmarked node values of one line, in left-to-right node-position
order (the values the renumbering loop still has to rename);
`rnFindLine` returns its head. -/
def rnScanLine (skipGrounds : Bool) (line : Str) : List Str :=
  if pyStrip line = [] then []
  else
    let parts := pySplit line
    if parts.length < 3 then []
    else
      (nodePositions (parts.headD []) parts.length).filterMap (fun pos =>
        (parts.get? pos).bind (fun tok =>
          let node := pyRstrip ';' tok
          if rnTokenSkip skipGrounds node then none else some node))

/-- All unmarked node values of the whole netlist in scan order: top to
bottom, left to right. -/
def rnScan (skipGrounds : Bool) (s : Str) : List Str :=
  ((splitOnChar '\n' s).map (rnScanLine skipGrounds)).flatten

/-- The token rewrite `renumber_nodes` applies at a matching node
position: the new mark, re-attaching a trailing semicolon. -/
def substTok (node newNode tok : Str) : Str :=
  if pyRstrip ';' tok = node then
    newNode ++ (if tok.getLast? = some ';' then [';'] else [])
  else tok

/-- One position step of the per-line substitution of `renumber_nodes`,
threading the modified flag. -/
def rnStep (node newNode : Str) (a : List Str × Bool) (pos : Nat) :
    List Str × Bool :=
  ((a.1.get? pos).map (fun tok =>
    if pyRstrip ';' tok = node then
      (a.1.set pos (newNode ++ (if tok.getLast? = some ';' then [';'] else [])),
       true)
    else a)).getD a

/-- The flag-free view of `rnStep`: update one node position if its
semicolon-stripped token equals `node`. -/
def rnSetTok (node newNode : Str) (cur : List Str) (pos : Nat) : List Str :=
  ((cur.get? pos).map (fun tok =>
    if pyRstrip ';' tok = node then
      cur.set pos (newNode ++ (if tok.getLast? = some ';' then [';'] else []))
    else cur)).getD cur

/-- Replace every node-position occurrence of `node` in one line by
`newNode` (value fields are never touched); a modified line is re-joined
with single spaces. -/
def rnSubstLine (node newNode : Str) (line : Str) : Str :=
  if pyStrip line = [] then line
  else
    let parts := pySplit line
    if parts.length < 3 then line
    else
      let positions := nodePositions (parts.headD []) parts.length
      let res := positions.foldl (rnStep node newNode) (parts, false)
      if res.2 then joinChar ' ' res.1 else line

/-- Replace every node-position occurrence of `node` across the
netlist. -/
def rnSubst (node newNode : Str) (s : Str) : Str :=
  joinChar '\n' ((splitOnChar '\n' s).map (rnSubstLine node newNode))

/-- `nodes_dict` update of `renumber_nodes`: every coordinate whose
value renders as `node` becomes the string `newNode`. -/
def rnUpdateDict (nd : Dict) (node newNode : Str) : Dict :=
  nd.map (fun p => if p.2.render = node then (p.1, PyVal.str newNode) else p)

/-- Fuel bound for the `renumber_nodes` fixpoint loop: the number of
`x`-free tokens in node positions (each iteration marks at least one). -/
def rnMeasure (s : Str) : Nat :=
  ((splitOnChar '\n' s).map (fun line =>
    if pyStrip line = [] then 0
    else
      let parts := pySplit line
      if parts.length < 3 then 0
      else
        (((nodePositions (parts.headD []) parts.length).filterMap
          (fun pos => parts.get? pos)).filter
            (fun tok => ¬ tok.contains 'x')).length)).sum

/-- The `while True` loop of `renumber_nodes`, with explicit fuel: find
the first unmarked node value, substitute `<k>x` for every occurrence,
update the node dict, repeat. -/
def rnLoop (skipGrounds : Bool) : Nat → Nat → Str → Option Dict → Str × Option Dict
  | 0, _, s, nd => (s, nd)
  | fuel + 1, k, s, nd =>
    match rnFind skipGrounds s with
    | none => (s, nd)
    | some node =>
      rnLoop skipGrounds fuel (k + 1) (rnSubst node (natStr k ++ ['x']) s)
        (nd.map (fun d => rnUpdateDict d node (natStr k ++ ['x'])))

/-- `NetlistTransformer.renumber_nodes`. -/
def renumber_nodes (netlist : Str) (skipGrounds : Bool) (nd : Option Dict) :
    Str × Option Dict :=
  if netlist = [] then (netlist, nd)
  else rnLoop skipGrounds (rnMeasure netlist + 1) 1 netlist nd

/-- The substitution sequence of `renumber_nodes` written as a plain
recursion over the list of node values it renames: the head value
receives the mark `<k>x`, the next `<k+1>x`, and so on. -/
def rnApply : List Str → Nat → Str → Option Dict → Str × Option Dict
  | [], _, s, nd => (s, nd)
  | n :: ns, k, s, nd =>
    rnApply ns (k + 1) (rnSubst n (natStr k ++ ['x']) s)
      (nd.map (fun d => rnUpdateDict d n (natStr k ++ ['x'])))

/-- The node-dict cleanup of `renumber_nodes_for_drawing`: strip `x`
marks, turning all-digit strings back into ints. -/
def cleanDictVal (v : PyVal) : PyVal :=
  let cleaned :=
    match v with
    | .str t => pyReplace ['x'] [] t
    | .int i => pyReplace ['x'] [] (intStr i)
  if cleaned ≠ [] ∧ cleaned.all Char.isDigit then .int (natOfDigits cleaned)
  else .str cleaned

/-- `NetlistTransformer.renumber_nodes_for_drawing`: ground marking,
then node renumbering, then removal of every `x` from the text and the
dict. (The Python backwards-compatibility shim only reinterprets
positional arguments; the typed embedding passes both optional arguments
explicitly.) -/
def renumber_nodes_for_drawing (netlist : Str) (nd : Option Dict)
    (pd : Option Parsed) : Str × Option Dict :=
  if netlist = [] then ([], nd)
  else
    let r1 := (renumber_grounds netlist pd).1
    let (r2, nd2) := renumber_nodes r1 true nd
    (pyReplace ['x'] [] r2, nd2.map (fun d => d.map (fun p => (p.1, cleanDictVal p.2))))

/-- First-occurrence deduplication (Python dict-key iteration order for
`named_nodes`). -/
def dedupFirst {α : Type} [DecidableEq α] : List α → List α
  | [] => []
  | a :: r => a :: (dedupFirst r).filter (fun b => b ≠ a)

/-- `NetlistTransformer.convert_named_nodes_to_numbers`: assign the next
integers past the current maximum to every non-ground string node value
and substitute them textually (in `" name;"`, `" name "`, `" name\n"`
contexts) and in the dict. -/
def convert_named_nodes (netlist : Str) (nd : Dict) : Str × Dict :=
  let maxNode := (dvalues nd).foldl (fun m v =>
    match v with
    | .int i => if i ≠ 0 then max m i else m
    | .str _ => m) 0
  let named := dedupFirst ((dvalues nd).filterMap (fun v =>
    match v with
    | .str s => if s ≠ strOf "0" then some s else none
    | .int _ => none))
  let repl := named.enum.map (fun p => (p.2, intStr (maxNode + 1 + p.1)))
  let result := repl.foldl (fun r p =>
    pyReplace ([' '] ++ p.1 ++ ['\n']) ([' '] ++ p.2 ++ ['\n'])
      (pyReplace ([' '] ++ p.1 ++ [' ']) ([' '] ++ p.2 ++ [' '])
        (pyReplace ([' '] ++ p.1 ++ [';']) ([' '] ++ p.2 ++ [';']) r))) netlist
  let nd2 := nd.map (fun q =>
    match q.2 with
    | .str s =>
      match (repl.find? (fun p => p.1 = s)).map (·.2) with
      | some t => (q.1, PyVal.int (natOfDigits t))
      | none => q
    | .int _ => q)
  (result, nd2)

/-! ## netlist.py — ports and generate -/

/-- Python `int(s)` (optional sign, digits). -/
def pyInt (s : Str) : Option Int :=
  let t := pyStrip s
  match t with
  | '+' :: d => if d ≠ [] ∧ d.all Char.isDigit then some (natOfDigits d : Int) else none
  | '-' :: d => if d ≠ [] ∧ d.all Char.isDigit then some (-(natOfDigits d : Int)) else none
  | d => if d ≠ [] ∧ d.all Char.isDigit then some (natOfDigits d : Int) else none

/-- A node key split back into coordinates (`nk.split("_")` with both
parts `int()`-parseable), used by the port fallback search. -/
def parseNodeKeyPair (k : Str) : Option (Int × Int) :=
  match splitOnChar '_' k with
  | [a, b] =>
    match pyInt a, pyInt b with
    | some xa, some xb => some (xa, xb)
    | _, _ => none
  | _ => none

/-- Flags-dict update (`flags[coord] = label`): overwrite or append. -/
def fset (f : List ((Int × Int) × Atom)) (c : Int × Int) (lab : Atom) :
    List ((Int × Int) × Atom) :=
  if f.any (fun p => p.1 = c) then
    f.map (fun p => if p.1 = c then (c, lab) else p)
  else f ++ [(c, lab)]

/-- `netlist.extract_iopins_and_flags`: IOPins in file order, and the
coordinate → label dict collected from standalone flags and flags inside
symbol or wire groups. -/
def extract_iopins_and_flags (pd : Parsed) :
    List (Int × Int × Atom) × List ((Int × Int) × Atom) :=
  pd.foldl (fun acc line =>
    if 4 ≤ line.length ∧ line.head? = some (Item.s (strOf "IOPIN")) then
      if 5 ≤ line.length then
        match line.get? 2, line.get? 3, line.get? 4 with
        | some (.a ax), some (.a ay), some (.a ad) =>
          (acc.1 ++ [(atomInt ax, atomInt ay, ad)], acc.2)
        | _, _, _ => acc
      else acc
    else if line.length = 1 then
      match line.head? with
      | some (.l xs) =>
        if 4 ≤ xs.length ∧ xs.head? = some (Atom.s (strOf "FLAG")) then
          match xs.get? 1, xs.get? 2, xs.get? 3 with
          | some a1, some a2, some a3 =>
            (acc.1, fset acc.2 (atomInt a1, atomInt a2) a3)
          | _, _, _ => acc
        else acc
      | _ => acc
    else
      (acc.1, line.foldl (fun f it =>
        match it with
        | .l xs =>
          if 4 ≤ xs.length ∧ xs.head? = some (Atom.s (strOf "FLAG")) then
            match xs.get? 1, xs.get? 2, xs.get? 3 with
            | some a1, some a2, some a3 => fset f (atomInt a1, atomInt a2) a3
            | _, _, _ => f
          else f
        | .a _ => f) acc.2))
    (([], []) : List (Int × Int × Atom) × List ((Int × Int) × Atom))

/-- `netlist.generate_port_definitions`: one `P<k> <node> 0; down,
v=<label>` statement per IOPin (no `down` in minimal mode); a missing
co-located flag yields a placeholder label plus a warning; a missing
node triggers the coordinate-equality fallback search, and failing that
the port is skipped with a warning. Warnings are returned as marker
strings. -/
def generate_port_definitions (iopins : List (Int × Int × Atom))
    (flags : List ((Int × Int) × Atom)) (nodes : Dict) (minimal : Bool) :
    List Str × List Str :=
  (iopins.enum.map (fun p => (p.1 + 1, p.2))).foldl (fun acc q =>
    let (idx, iopin) := q
    let (x, y, _) := iopin
    let label :=
      match (flags.find? (fun p => p.1 = (x, y))).map (·.2) with
      | some a => (atomRender a, ([] : List Str))
      | none =>
        (strOf "PORT_" ++ intStr x ++ ['_'] ++ intStr y,
         [strOf "IOPIN has no matching FLAG"])
    let node :=
      match dget nodes (node_key x y) with
      | some v => some v
      | none =>
        ((nodes.find? (fun p : Str × PyVal =>
          decide (parseNodeKeyPair p.1 = some (x, y)))).map
            (fun p : Str × PyVal => p.2))
    match node with
    | none => (acc.1, acc.2 ++ label.2 ++ [strOf "Could not find node for IOPIN"])
    | some v =>
      let stmt :=
        if minimal then
          strOf "P" ++ natStr idx ++ [' '] ++ v.render ++ strOf " 0; v=" ++ label.1
        else
          strOf "P" ++ natStr idx ++ [' '] ++ v.render ++ strOf " 0; down, v=" ++
            label.1
      (acc.1 ++ [stmt], acc.2 ++ label.2))
    (([], []) : List Str × List Str)

/-- `netlist.ensure_iopin_nodes`: give every IOPin coordinate a node,
injecting one past the largest positive integer node id (with a
warning). On a non-empty dict with no positive integer value, the
source's `max()` over an empty generator raises `ValueError`, modelled
as `.error`. -/
def ensure_iopin_nodes (pd : Parsed) (nodes : Dict) :
    Except Str (Dict × Nat × List Str) :=
  (extract_iopins_and_flags pd).1.foldlM (fun acc iopin =>
    let (nd, cnt, ws) := acc
    let nk := node_key iopin.1 iopin.2.1
    if (dget nd nk).isSome then .ok acc
    else if nd ≠ [] then
      match (dvalues nd).filterMap (fun v =>
          match v with
          | .int i => if 0 < i then some i else none
          | .str _ => none) with
      | [] => .error (strOf "ValueError: max() arg is an empty sequence")
      | p :: ps =>
        let mx := ps.foldl max p
        .ok (dappend nd nk (.int (mx + 1)), cnt + 1,
             ws ++ [strOf "Added node at IOPIN coordinate"])
    else
      .ok (dappend nd nk (.int 1), cnt + 1,
           ws ++ [strOf "Added node at IOPIN coordinate"]))
    (nodes, 0, ([] : List Str))

/-- `NetlistGenerator.generate`: walk the records (wires unless minimal,
symbol groups), then apply the configured transformation passes, ensure
IOPin nodes, and append port definitions. Returns the netlist text and
the final node dict. -/
def generate (tbl : TwoTermTable) (npfx : Str → Option Str) (nodes0 : Dict)
    (pd : Parsed) (opts : GenOpts) : Except Str (Str × Dict) := do
  let st0 : GenState := { netlist := [] }
  let st ← pd.foldlM (fun (st : GenState) line =>
    match line.head? with
    | none => Except.error (strOf "IndexError")
    | some h => do
      let st ←
        if h = Item.s (strOf "WIRE") ∧ ¬ opts.minimal then
          wire_to_netlist nodes0 opts st line
        else pure st
      match h with
      | .l _ => symbol_to_netlist tbl npfx nodes0 opts st line
      | .a _ => pure st) st0
  let netlist := st.netlist
  let netlist := if opts.reorient ∧ ¬ opts.minimal then reorient_rlc netlist else netlist
  let (netlist, nodes1) :=
    if ¬ opts.use_named_nodes then convert_named_nodes netlist nodes0
    else (netlist, nodes0)
  let (netlist, nodes2) :=
    if opts.renumber then
      let r := renumber_nodes_for_drawing netlist (some nodes1) (some pd)
      (r.1, r.2.getD nodes1)
    else (netlist, nodes1)
  let r ← ensure_iopin_nodes pd nodes2
  let nodes3 := r.1
  let (iopins, flags) := extract_iopins_and_flags pd
  let netlist :=
    if iopins ≠ [] then
      ((generate_port_definitions iopins flags nodes3 opts.minimal).1).foldl
        (fun n p => n ++ p ++ ['\n']) netlist
    else netlist
  return (netlist, nodes3)

/-! # Infrastructure lemmas -/

theorem natOfDigits_foldl (t : Str) : ∀ a : Nat,
    t.foldl (fun x c => 10 * x + (c.toNat - 48)) a =
      a * 10 ^ t.length + natOfDigits t := by
  induction t with
  | nil => intro a; simp [natOfDigits]
  | cons c t ih =>
    intro a
    simp only [List.foldl_cons, List.length_cons]
    rw [ih]
    have h2 : natOfDigits (c :: t) = (c.toNat - 48) * 10 ^ t.length + natOfDigits t := by
      simp only [natOfDigits, List.foldl_cons]
      rw [ih]
      simp [natOfDigits]
    rw [h2, pow_succ]
    ring

theorem natOfDigits_append (s t : Str) :
    natOfDigits (s ++ t) = natOfDigits s * 10 ^ t.length + natOfDigits t := by
  simp only [natOfDigits, List.foldl_append]
  exact natOfDigits_foldl t _

theorem natOfDigits_revMap (ds : List Nat) (h : ∀ d ∈ ds, d < 10) :
    natOfDigits ((ds.map digitChar).reverse) = Nat.ofDigits 10 ds := by
  induction ds with
  | nil => simp [natOfDigits, Nat.ofDigits]
  | cons d ds ih =>
    have hd : d < 10 := h d (by simp)
    have hds : ∀ x ∈ ds, x < 10 := fun x hx => h x (by simp [hx])
    simp only [List.map_cons, List.reverse_cons]
    rw [natOfDigits_append, ih hds]
    have hch : (digitChar d).toNat - 48 = d := by
      interval_cases d <;> decide
    simp [natOfDigits, Nat.ofDigits_cons, hch]
    ring

theorem natStrAux_eq_digits (fuel : Nat) : ∀ n : Nat, n ≤ fuel →
    natStrAux fuel n = ((Nat.digits 10 n).map digitChar).reverse := by
  induction fuel with
  | zero =>
    intro n hn
    interval_cases n
    simp [natStrAux]
  | succ f ih =>
    intro n hn
    by_cases h0 : n = 0
    · subst h0
      simp [natStrAux]
    · have hpos : 0 < n := Nat.pos_of_ne_zero h0
      have hlt : n / 10 < n := Nat.div_lt_self hpos (by norm_num)
      simp only [natStrAux, if_neg h0]
      rw [ih (n / 10) (by omega)]
      rw [Nat.digits_def' (by norm_num : 1 < 10) hpos]
      simp

theorem natStr_eq_digits (n : Nat) :
    natStr n = if n = 0 then ['0'] else ((Nat.digits 10 n).map digitChar).reverse := by
  unfold natStr
  by_cases h : n = 0
  · simp [h]
  · rw [if_neg h, if_neg h, natStrAux_eq_digits n n le_rfl]

theorem natOfDigits_natStr (n : Nat) : natOfDigits (natStr n) = n := by
  rw [natStr_eq_digits]
  by_cases h : n = 0
  · subst h
    decide
  · rw [if_neg h, natOfDigits_revMap _ (fun d hd => Nat.digits_lt_base (by norm_num) hd),
      Nat.ofDigits_digits]

theorem natStr_ne_nil (n : Nat) : natStr n ≠ [] := by
  rw [natStr_eq_digits]
  by_cases h : n = 0
  · simp [h]
  · rw [if_neg h]
    simp [Nat.digits_ne_nil_iff_ne_zero, h]

theorem digitChar_isDigit (d : Nat) (h : d < 10) : (digitChar d).isDigit = true := by
  interval_cases d <;> decide

theorem natStr_all_digit (n : Nat) : ∀ c ∈ natStr n, c.isDigit = true := by
  intro c hc
  rw [natStr_eq_digits] at hc
  by_cases h : n = 0
  · rw [if_pos h] at hc
    simp at hc
    subst hc
    decide
  · rw [if_neg h] at hc
    rw [List.mem_reverse, List.mem_map] at hc
    obtain ⟨d, hd, rfl⟩ := hc
    exact digitChar_isDigit d (Nat.digits_lt_base (by norm_num) hd)

theorem pySplitAux_congr : ∀ (f1 : Nat) (s : Str) (f2 : Nat),
    s.length ≤ f1 → s.length ≤ f2 → pySplitAux f1 s = pySplitAux f2 s := by
  intro f1
  induction f1 with
  | zero =>
    intro s f2 h1 _
    have : s = [] := List.length_eq_zero.mp (Nat.le_zero.mp h1)
    subst this
    cases f2 <;> rfl
  | succ f ih =>
    intro s f2 h1 h2
    cases s with
    | nil => cases f2 <;> rfl
    | cons c t =>
      cases f2 with
      | zero => simp at h2
      | succ g =>
        simp only [pySplitAux]
        have ht1 : t.length ≤ f := by
          simp only [List.length_cons] at h1
          omega
        have ht2 : t.length ≤ g := by
          simp only [List.length_cons] at h2
          omega
        have hd : (t.dropWhile (fun d => !isWs d)).length ≤ t.length :=
          (List.dropWhile_suffix _).length_le
        by_cases hc : isWs c
        · rw [if_pos hc, if_pos hc]
          exact ih t g ht1 ht2
        · rw [if_neg hc, if_neg hc]
          exact congrArg _ (ih _ g (le_trans hd ht1) (le_trans hd ht2))

theorem pySplit_nil : pySplit [] = [] := rfl

theorem pySplit_cons (c : Char) (s : Str) :
    pySplit (c :: s) = if isWs c then pySplit s
      else (c :: s.takeWhile (fun d => !isWs d)) ::
        pySplit (s.dropWhile (fun d => !isWs d)) := by
  show pySplitAux (s.length + 1) (c :: s) = _
  simp only [pySplitAux]
  by_cases hc : isWs c
  · rw [if_pos hc, if_pos hc]
    exact rfl
  · rw [if_neg hc, if_neg hc]
    exact congrArg _ (pySplitAux_congr s.length _ _
      (List.dropWhile_suffix _).length_le le_rfl)

theorem pyReplaceAux_congr (pat rep : Str) : ∀ (f1 : Nat) (s : Str) (f2 : Nat),
    s.length ≤ f1 → s.length ≤ f2 →
    pyReplaceAux pat rep f1 s = pyReplaceAux pat rep f2 s := by
  intro f1
  induction f1 with
  | zero =>
    intro s f2 h1 _
    have : s = [] := List.length_eq_zero.mp (Nat.le_zero.mp h1)
    subst this
    cases f2 <;> rfl
  | succ f ih =>
    intro s f2 h1 h2
    cases s with
    | nil => cases f2 <;> rfl
    | cons c t =>
      cases f2 with
      | zero => simp at h2
      | succ g =>
        simp only [pyReplaceAux]
        have ht1 : t.length ≤ f := by
          simp only [List.length_cons] at h1
          omega
        have ht2 : t.length ≤ g := by
          simp only [List.length_cons] at h2
          omega
        by_cases hp : pat ≠ [] ∧ isPre pat (c :: t) = true
        · rw [if_pos hp, if_pos hp]
          have hplen : 1 ≤ pat.length := by
            cases hq : pat with
            | nil => exact absurd hq hp.1
            | cons a b => simp
          have hd : ((c :: t).drop pat.length).length ≤ t.length := by
            simp only [List.length_drop, List.length_cons]
            omega
          exact congrArg _ (ih _ g (le_trans hd ht1) (le_trans hd ht2))
        · rw [if_neg hp, if_neg hp]
          exact congrArg _ (ih t g ht1 ht2)

theorem pyReplace_nil (pat rep : Str) : pyReplace pat rep [] = [] := rfl

theorem pyReplace_cons (pat rep : Str) (c : Char) (rest : Str) :
    pyReplace pat rep (c :: rest) =
      if pat ≠ [] ∧ isPre pat (c :: rest) then
        rep ++ pyReplace pat rep ((c :: rest).drop pat.length)
      else
        c :: pyReplace pat rep rest := by
  show pyReplaceAux pat rep (rest.length + 1) (c :: rest) = _
  simp only [pyReplaceAux]
  by_cases hp : pat ≠ [] ∧ isPre pat (c :: rest) = true
  · rw [if_pos hp, if_pos hp]
    have hplen : 1 ≤ pat.length := by
      cases hq : pat with
      | nil => exact absurd hq hp.1
      | cons a b => simp
    have hd : ((c :: rest).drop pat.length).length ≤ rest.length := by
      simp only [List.length_drop, List.length_cons]
      omega
    exact congrArg _ (pyReplaceAux_congr pat rep rest.length _ _ hd le_rfl)
  · rw [if_neg hp, if_neg hp]
    exact rfl

theorem pyCountAux_congr (pat : Str) : ∀ (f1 : Nat) (s : Str) (f2 : Nat),
    s.length ≤ f1 → s.length ≤ f2 →
    pyCountAux pat f1 s = pyCountAux pat f2 s := by
  intro f1
  induction f1 with
  | zero =>
    intro s f2 h1 _
    have : s = [] := List.length_eq_zero.mp (Nat.le_zero.mp h1)
    subst this
    cases f2 <;> rfl
  | succ f ih =>
    intro s f2 h1 h2
    cases s with
    | nil => cases f2 <;> rfl
    | cons c t =>
      cases f2 with
      | zero => simp at h2
      | succ g =>
        simp only [pyCountAux]
        have ht1 : t.length ≤ f := by
          simp only [List.length_cons] at h1
          omega
        have ht2 : t.length ≤ g := by
          simp only [List.length_cons] at h2
          omega
        by_cases hp : pat ≠ [] ∧ isPre pat (c :: t) = true
        · rw [if_pos hp, if_pos hp]
          have hplen : 1 ≤ pat.length := by
            cases hq : pat with
            | nil => exact absurd hq hp.1
            | cons a b => simp
          have hd : ((c :: t).drop pat.length).length ≤ t.length := by
            simp only [List.length_drop, List.length_cons]
            omega
          exact congrArg _ (ih _ g (le_trans hd ht1) (le_trans hd ht2))
        · rw [if_neg hp, if_neg hp]
          exact ih t g ht1 ht2

theorem pyCount_nil (pat : Str) : pyCount pat [] = 0 := rfl

theorem pyCount_cons (pat : Str) (c : Char) (rest : Str) :
    pyCount pat (c :: rest) =
      if pat ≠ [] ∧ isPre pat (c :: rest) then
        1 + pyCount pat ((c :: rest).drop pat.length)
      else
        pyCount pat rest := by
  show pyCountAux pat (rest.length + 1) (c :: rest) = _
  simp only [pyCountAux]
  by_cases hp : pat ≠ [] ∧ isPre pat (c :: rest) = true
  · rw [if_pos hp, if_pos hp]
    have hplen : 1 ≤ pat.length := by
      cases hq : pat with
      | nil => exact absurd hq hp.1
      | cons a b => simp
    have hd : ((c :: rest).drop pat.length).length ≤ rest.length := by
      simp only [List.length_drop, List.length_cons]
      omega
    exact congrArg _ (pyCountAux_congr pat rest.length _ _ hd le_rfl)
  · rw [if_neg hp, if_neg hp]
    exact rfl

theorem isDigit_not_ws {c : Char} (h : c.isDigit = true) : isWs c = false := by
  by_contra hw
  rw [Bool.not_eq_false] at hw
  simp only [isWs, Bool.or_eq_true, decide_eq_true_eq] at hw
  rcases hw with ((h1 | h1) | h1) | h1 <;> (subst h1; exact absurd h (by decide))

theorem takeWhile_append_all {p : Char → Bool} {l1 : Str} (l2 : Str)
    (h : ∀ c ∈ l1, p c = true) :
    (l1 ++ l2).takeWhile p = l1 ++ l2.takeWhile p := by
  induction l1 with
  | nil => simp
  | cons c l ih =>
    have hc : p c = true := h c (by simp)
    simp only [List.cons_append, List.takeWhile_cons, hc, if_true]
    rw [ih (fun x hx => h x (by simp [hx]))]

theorem dropWhile_append_all {p : Char → Bool} {l1 : Str} (l2 : Str)
    (h : ∀ c ∈ l1, p c = true) :
    (l1 ++ l2).dropWhile p = l2.dropWhile p := by
  induction l1 with
  | nil => simp
  | cons c l ih =>
    have hc : p c = true := h c (by simp)
    simp only [List.cons_append, List.dropWhile_cons, hc, if_true]
    exact ih (fun x hx => h x (by simp [hx]))

/-- `pySplit` of a single whitespace-free non-empty token followed by a
remainder that starts with a blank (or is empty). -/
theorem pySplit_token (t r : Str) (ht : t ≠ []) (hw : ∀ c ∈ t, isWs c = false)
    (hr : ∀ c, r.head? = some c → isWs c = true) :
    pySplit (t ++ r) = t :: pySplit r := by
  obtain ⟨c, t0, rfl⟩ := List.exists_cons_of_ne_nil ht
  have hc : isWs c = false := hw c (by simp)
  have hw0 : ∀ x ∈ t0, isWs x = false := fun x hx => hw x (by simp [hx])
  have htk : (t0 ++ r).takeWhile (fun d => !isWs d) = t0 := by
    rw [takeWhile_append_all r (fun x hx => by simp [hw0 x hx])]
    cases hr2 : r with
    | nil => simp
    | cons c2 r2 =>
      have := hr c2 (by simp [hr2])
      simp [List.takeWhile_cons, this]
  have hdr : (t0 ++ r).dropWhile (fun d => !isWs d) = r := by
    rw [dropWhile_append_all r (fun x hx => by simp [hw0 x hx])]
    cases hr2 : r with
    | nil => simp
    | cons c2 r2 =>
      have := hr c2 (by simp [hr2])
      simp [List.dropWhile_cons, this]
  simp only [List.cons_append, pySplit_cons, hc, Bool.false_eq_true, if_false, htk, hdr]

/-- `pySplit` ignores a leading blank. -/
theorem pySplit_cons_ws (c : Char) (s : Str) (h : isWs c = true) :
    pySplit (c :: s) = pySplit s := by
  rw [pySplit_cons, if_pos h]

/-- `ppNumber` on a rendered natural followed by a non-numeric
remainder. -/
theorem ppNumber_natStr (a : Nat) (r : Str)
    (h : ∀ c, r.head? = some c → c.isDigit = false ∧ c ≠ '.') :
    ppNumber (natStr a ++ r) = some (⟨(a : Int), 0⟩, r) := by
  have hall : ∀ c ∈ natStr a, c.isDigit = true := natStr_all_digit a
  have hne := natStr_ne_nil a
  obtain ⟨c0, t0, he⟩ := List.exists_cons_of_ne_nil hne
  have hls : pyLstrip (natStr a ++ r) = natStr a ++ r := by
    rw [he]
    simp [pyLstrip, List.dropWhile_cons,
      isDigit_not_ws (hall c0 (by rw [he]; simp))]
  have hc0d : c0.isDigit = true := hall c0 (by rw [he]; simp)
  have hc0 : ¬ c0 = '.' := by
    intro hh
    rw [hh] at hc0d
    simp [Char.isDigit] at hc0d
  have hhead : (natStr a ++ r).head? = some c0 := by
    rw [he]
    simp
  have htk : (natStr a ++ r).takeWhile Char.isDigit = natStr a := by
    rw [takeWhile_append_all r hall]
    cases hr2 : r with
    | nil => simp
    | cons c2 r2 =>
      have := (h c2 (by simp [hr2])).1
      simp [List.takeWhile_cons, this]
  have hdr : (natStr a ++ r).dropWhile Char.isDigit = r := by
    rw [dropWhile_append_all r hall]
    cases hr2 : r with
    | nil => simp
    | cons c2 r2 =>
      have := (h c2 (by simp [hr2])).1
      simp [List.dropWhile_cons, this]
  have hrdot : ¬ r.head? = some '.' := by
    intro hh
    cases hr2 : r with
    | nil => rw [hr2] at hh; simp at hh
    | cons c2 r2 =>
      rw [hr2] at hh
      simp at hh
      exact (h c2 (by simp [hr2])).2 hh
  simp only [ppNumber, hls, hhead, htk, hdr]
  rw [if_neg (by simp [hhead, hc0]), if_neg (by simp [natStr_ne_nil a]),
    if_neg hrdot]
  rw [natOfDigits_natStr]

theorem isPre_append_self (l r : Str) : isPre l (l ++ r) = true := by
  induction l with
  | nil => rfl
  | cons c t ih => simp [isPre, ih]

/-- `pySplit` of one whitespace-free non-empty token alone. -/
theorem pySplit_single (t : Str) (ht : t ≠ []) (hw : ∀ c ∈ t, isWs c = false) :
    pySplit t = [t] := by
  have h := pySplit_token t [] ht hw (fun c hc => by simp at hc)
  simp only [List.append_nil] at h
  rw [h]
  rfl

/-- A remainder string headed by a fixed non-numeric character satisfies the
side condition of `ppNumber_natStr`. -/
theorem head_stop (c0 : Char) (r : Str) (h1 : c0.isDigit = false) (h2 : c0 ≠ '.') :
    ∀ c, (c0 :: r).head? = some c → c.isDigit = false ∧ c ≠ '.' := by
  intro c h
  injection h with h
  subst h
  exact ⟨h1, h2⟩

theorem ppNumber_cons_ws (c : Char) (s : Str) (h : isWs c = true) :
    ppNumber (c :: s) = ppNumber s := by
  simp only [ppNumber, pyLstrip, List.dropWhile_cons, h]
  rfl

/-! ### Line and token structure lemmas (used by the reorientation and
renumbering analyses) -/

theorem pySplitAux_wf : ∀ (fuel : Nat) (s : Str), ∀ t ∈ pySplitAux fuel s,
    t ≠ [] ∧ ∀ c ∈ t, isWs c = false := by
  intro fuel
  induction fuel with
  | zero =>
    intro s t ht
    cases s <;> simp [pySplitAux] at ht
  | succ f ih =>
    intro s t ht
    cases s with
    | nil => simp [pySplitAux] at ht
    | cons c r =>
      simp only [pySplitAux] at ht
      by_cases hc : isWs c
      · rw [if_pos hc] at ht
        exact ih r t ht
      · rw [if_neg hc] at ht
        rcases List.mem_cons.mp ht with h | h
        · subst h
          refine ⟨by simp, ?_⟩
          intro x hx
          rcases List.mem_cons.mp hx with rfl | hx
          · exact Bool.eq_false_iff.mpr hc
          · have := List.mem_takeWhile_imp hx
            simpa using this
        · exact ih _ t h

theorem pySplit_wf (s : Str) : ∀ t ∈ pySplit s, t ≠ [] ∧ ∀ c ∈ t, isWs c = false :=
  pySplitAux_wf s.length s

theorem pySplitAux_mem_subset : ∀ (fuel : Nat) (s : Str),
    ∀ t ∈ pySplitAux fuel s, ∀ c ∈ t, c ∈ s := by
  intro fuel
  induction fuel with
  | zero =>
    intro s t ht
    cases s <;> simp [pySplitAux] at ht
  | succ f ih =>
    intro s t ht c hc
    cases s with
    | nil => simp [pySplitAux] at ht
    | cons a r =>
      simp only [pySplitAux] at ht
      by_cases ha : isWs a
      · rw [if_pos ha] at ht
        exact List.mem_cons_of_mem a (ih r t ht c hc)
      · rw [if_neg ha] at ht
        rcases List.mem_cons.mp ht with h | h
        · subst h
          rcases List.mem_cons.mp hc with rfl | hc
          · exact List.mem_cons_self c r
          · exact List.mem_cons_of_mem a ((List.takeWhile_sublist _).subset hc)
        · exact List.mem_cons_of_mem a
            ((List.dropWhile_sublist _).subset (ih _ t h c hc))

theorem pySplit_mem_subset (s : Str) : ∀ t ∈ pySplit s, ∀ c ∈ t, c ∈ s :=
  pySplitAux_mem_subset s.length s

theorem joinChar_nil (sep : Char) : joinChar sep [] = [] := by
  simp [joinChar, List.intercalate]

theorem joinChar_one (sep : Char) (a : Str) : joinChar sep [a] = a := by
  simp [joinChar, List.intercalate]

theorem joinChar_cons_cons (sep : Char) (a b : Str) (l : List Str) :
    joinChar sep (a :: b :: l) = a ++ sep :: joinChar sep (b :: l) := by
  simp [joinChar, List.intercalate, List.intersperse]

theorem mem_joinChar {c sep : Char} : ∀ {ts : List Str}, c ∈ joinChar sep ts →
    c = sep ∨ ∃ t ∈ ts, c ∈ t := by
  intro ts
  induction ts with
  | nil =>
    intro h
    rw [joinChar_nil] at h
    exact absurd h (List.not_mem_nil c)
  | cons a ts ih =>
    cases ts with
    | nil =>
      intro h
      rw [joinChar_one] at h
      exact Or.inr ⟨a, by simp, h⟩
    | cons b l =>
      intro h
      rw [joinChar_cons_cons] at h
      rcases List.mem_append.mp h with h | h
      · exact Or.inr ⟨a, by simp, h⟩
      · rcases List.mem_cons.mp h with h | h
        · exact Or.inl h
        · rcases ih h with h | ⟨t, ht, hc⟩
          · exact Or.inl h
          · exact Or.inr ⟨t, by simp [ht], hc⟩

theorem head?_append_left {s : Str} (t : Str) (hs : s ≠ []) :
    (s ++ t).head? = s.head? := by
  obtain ⟨c, r, rfl⟩ := List.exists_cons_of_ne_nil hs
  rfl

theorem getLast?_append_right (s : Str) {t : Str} (ht : t ≠ []) :
    (s ++ t).getLast? = t.getLast? := by
  rw [List.getLast?_append]
  obtain ⟨c, r, rfl⟩ := List.exists_cons_of_ne_nil ht
  cases hgl : (c :: r).getLast? with
  | none => simp at hgl
  | some x => rfl

theorem head?_joinChar (sep : Char) (a : Str) (ts : List Str) (ha : a ≠ []) :
    (joinChar sep (a :: ts)).head? = a.head? := by
  cases ts with
  | nil => rw [joinChar_one]
  | cons b l =>
    rw [joinChar_cons_cons]
    exact head?_append_left _ ha

theorem getLast?_joinChar_char {sep c : Char} : ∀ {ts : List Str},
    (joinChar sep ts).getLast? = some c → c ≠ sep →
    ∃ y, ts.getLast? = some y ∧ y.getLast? = some c := by
  intro ts
  induction ts with
  | nil =>
    intro h _
    rw [joinChar_nil] at h
    simp at h
  | cons a ts ih =>
    cases ts with
    | nil =>
      intro h hc
      rw [joinChar_one] at h
      exact ⟨a, rfl, h⟩
    | cons b l =>
      intro h hc
      rw [joinChar_cons_cons] at h
      rw [getLast?_append_right a (by simp)] at h
      cases hj : (joinChar sep (b :: l)) with
      | nil =>
        rw [hj] at h
        simp at h
        exact absurd h.symm hc
      | cons u v =>
        rw [hj] at h
        rw [show sep :: u :: v = [sep] ++ u :: v from rfl,
          getLast?_append_right [sep] (by simp)] at h
        rw [← hj] at h
        obtain ⟨y, hy, hyc⟩ := ih h hc
        exact ⟨y, by rw [List.getLast?_cons_cons]; exact hy, hyc⟩

theorem splitFirst_no_sep (sep : Char) : ∀ (a : Str), (∀ c ∈ a, c ≠ sep) →
    splitFirst sep a = (a, none) := by
  intro a
  induction a with
  | nil => intro _; rfl
  | cons c r ih =>
    intro h
    simp only [splitFirst]
    rw [if_neg (h c (by simp))]
    rw [ih (fun x hx => h x (by simp [hx]))]

theorem splitFirst_append_sep (sep : Char) : ∀ (a : Str) (b : Str), (∀ c ∈ a, c ≠ sep) →
    splitFirst sep (a ++ sep :: b) = (a, some b) := by
  intro a
  induction a with
  | nil =>
    intro b _
    simp [splitFirst]
  | cons c r ih =>
    intro b h
    simp only [List.cons_append, splitFirst]
    rw [if_neg (h c (by simp))]
    have hr := ih b (fun x hx => h x (by simp [hx]))
    simp only [List.append_eq]
    rw [hr]

theorem splitFirst_fst_no_sep (sep : Char) : ∀ (l : Str), ∀ c ∈ (splitFirst sep l).1, c ≠ sep := by
  intro l
  induction l with
  | nil =>
    intro c hc
    simp [splitFirst] at hc
  | cons a r ih =>
    intro c hc
    by_cases ha : a = sep
    · simp only [splitFirst, if_pos ha] at hc
      exact absurd hc (List.not_mem_nil c)
    · simp only [splitFirst, if_neg ha] at hc
      rcases List.mem_cons.mp hc with rfl | hc
      · exact ha
      · exact ih c hc

theorem splitFirst_recover (sep : Char) : ∀ (l : Str) (r : Str),
    (splitFirst sep l).2 = some r → l = (splitFirst sep l).1 ++ sep :: r := by
  intro l
  induction l with
  | nil =>
    intro r h
    simp [splitFirst] at h
  | cons a t ih =>
    intro r h
    by_cases ha : a = sep
    · simp only [splitFirst, if_pos ha] at h ⊢
      injection h with h
      rw [ha, h]
      rfl
    · simp only [splitFirst, if_neg ha] at h ⊢
      conv_lhs => rw [ih r h]
      rw [List.cons_append]

theorem dropWhile_head_false {p : Char → Bool} {s : Str}
    (h : ∀ c, s.head? = some c → p c = false) : s.dropWhile p = s := by
  cases s with
  | nil => rfl
  | cons c r =>
    rw [List.dropWhile_cons, h c rfl]
    simp

theorem pyStrip_eq_self {s : Str}
    (h1 : ∀ c, s.head? = some c → isWs c = false)
    (h2 : ∀ c, s.getLast? = some c → isWs c = false) : pyStrip s = s := by
  unfold pyStrip
  rw [dropWhile_head_false h1]
  rw [dropWhile_head_false (fun c hc => h2 c (by rwa [List.head?_reverse] at hc))]
  rw [List.reverse_reverse]

theorem pyStrip_append_newline {s : Str} (hs : s ≠ [])
    (h1 : ∀ c, s.head? = some c → isWs c = false)
    (h2 : ∀ c, s.getLast? = some c → isWs c = false) :
    pyStrip (s ++ ['\n']) = s := by
  unfold pyStrip
  rw [show (s ++ ['\n'] : Str).dropWhile isWs = s ++ ['\n'] from
    dropWhile_head_false (fun c hc => h1 c (by rwa [head?_append_left _ hs] at hc))]
  rw [List.reverse_append]
  rw [show (['\n'] : Str).reverse ++ s.reverse = '\n' :: s.reverse from rfl]
  rw [List.dropWhile_cons]
  rw [if_pos (by decide : isWs '\n' = true)]
  rw [dropWhile_head_false (fun c hc => h2 c (by rwa [List.head?_reverse] at hc))]
  rw [List.reverse_reverse]

theorem pyStrip_eq_nil_iff {s : Str} : pyStrip s = [] ↔ ∀ c ∈ s, isWs c = true := by
  unfold pyStrip
  constructor
  · intro h c hc
    have h1 : (s.dropWhile isWs).reverse.dropWhile isWs = [] := by
      rwa [List.reverse_eq_nil_iff] at h
    have h2 : ∀ x ∈ (s.dropWhile isWs).reverse, isWs x = true :=
      List.dropWhile_eq_nil_iff.mp h1
    have h3 : ∀ x ∈ s.dropWhile isWs, isWs x = true :=
      fun x hx => h2 x (by simpa using hx)
    rw [← List.takeWhile_append_dropWhile isWs s] at hc
    rcases List.mem_append.mp hc with hc | hc
    · exact List.mem_takeWhile_imp hc
    · exact h3 c hc
  · intro h
    have : s.dropWhile isWs = [] := List.dropWhile_eq_nil_iff.mpr h
    rw [this]
    rfl

theorem pyStrip_ne_nil_of_mem {s : Str} {c : Char} (hc : c ∈ s) (hw : isWs c = false) :
    pyStrip s ≠ [] := by
  intro h
  have := pyStrip_eq_nil_iff.mp h c hc
  rw [hw] at this
  cases this

theorem pyStrip_getLast_not_ws {s : Str} :
    ∀ c, (pyStrip s).getLast? = some c → isWs c = false := by
  intro c hc
  unfold pyStrip at hc
  rw [List.getLast?_reverse] at hc
  have := List.head?_dropWhile_not isWs (s.dropWhile isWs).reverse
  rw [hc] at this
  exact this

theorem pyStrip_head_not_ws {s : Str} :
    ∀ c, (pyStrip s).head? = some c → isWs c = false := by
  intro c hc
  unfold pyStrip at hc
  rw [List.head?_reverse] at hc
  set Y := ((s.dropWhile isWs).reverse).dropWhile isWs with hY
  have hYne : Y ≠ [] := by
    intro hnil
    rw [hnil] at hc
    simp at hc
  obtain ⟨u, hu⟩ := List.dropWhile_suffix (l := (s.dropWhile isWs).reverse) isWs
  rw [← hY] at hu
  have h2 : (s.dropWhile isWs).reverse.getLast? = some c := by
    rw [← hu, getLast?_append_right u hYne]
    exact hc
  rw [List.getLast?_reverse] at h2
  have h3 := List.head?_dropWhile_not isWs s
  rw [h2] at h3
  exact h3

theorem splitOnP_struct (p : Char → Bool) : ∀ (l : Str),
    l.splitOnP p ≠ [] ∧ ∀ t ∈ l.splitOnP p, ∀ c ∈ t, p c = false := by
  intro l
  induction l with
  | nil =>
    refine ⟨by simp, ?_⟩
    intro t ht c hc
    simp [List.splitOnP_nil] at ht
    subst ht
    exact absurd hc (List.not_mem_nil c)
  | cons x xs ih =>
    rw [List.splitOnP_cons]
    by_cases hx : p x
    · rw [if_pos hx]
      refine ⟨by simp, ?_⟩
      intro t ht c hc
      rcases List.mem_cons.mp ht with rfl | ht
      · exact absurd hc (List.not_mem_nil c)
      · exact ih.2 t ht c hc
    · rw [if_neg hx]
      obtain ⟨q, qs, hq⟩ := List.exists_cons_of_ne_nil ih.1
      rw [hq]
      refine ⟨by simp [List.modifyHead], ?_⟩
      intro t ht c hc
      simp only [List.modifyHead] at ht
      rcases List.mem_cons.mp ht with rfl | ht
      · rcases List.mem_cons.mp hc with rfl | hc
        · exact Bool.eq_false_iff.mpr hx
        · exact ih.2 q (by rw [hq]; simp) c hc
      · exact ih.2 t (by rw [hq]; simp [ht]) c hc

theorem splitOnChar_ne_nil (sep : Char) (l : Str) : splitOnChar sep l ≠ [] := by
  unfold splitOnChar List.splitOn
  exact (splitOnP_struct _ l).1

theorem splitOnChar_no_sep (sep : Char) (l : Str) :
    ∀ t ∈ splitOnChar sep l, sep ∉ t := by
  intro t ht hmem
  have := (splitOnP_struct (· == sep) l).2 t ht sep hmem
  simp at this

theorem filter_getLast? {p : Str → Bool} : ∀ (l : List Str) (y : Str),
    l.getLast? = some y → p y = true → (l.filter p).getLast? = some y := by
  intro l
  induction l with
  | nil =>
    intro y hy
    simp at hy
  | cons a t ih =>
    intro y hy hp
    cases t with
    | nil =>
      simp at hy
      subst hy
      rw [List.filter_cons_of_pos hp]
      rfl
    | cons b t2 =>
      have hy2 : (b :: t2).getLast? = some y := by
        rwa [List.getLast?_cons_cons] at hy
      by_cases hpa : p a
      · rw [List.filter_cons_of_pos hpa]
        have hlast := ih y hy2 hp
        cases hfe : (b :: t2).filter p with
        | nil =>
          rw [hfe] at hlast
          simp at hlast
        | cons u v =>
          rw [hfe] at hlast
          rw [List.getLast?_cons_cons]
          exact hlast
      · rw [List.filter_cons_of_neg hpa]
        exact ih y hy2 hp

theorem mem_swap12 {t : Str} {ls : List Str} : t ∈ swap12 ls ↔ t ∈ ls := by
  cases ls with
  | nil => simp [swap12]
  | cons a l1 =>
    cases l1 with
    | nil => simp [swap12]
    | cons b l2 =>
      cases l2 with
      | nil => simp [swap12]
      | cons c r =>
        simp only [swap12, List.mem_cons]
        tauto

theorem exists_three {ls : List Str} (h : 3 ≤ ls.length) :
    ∃ m0 m1 m2 r, ls = m0 :: m1 :: m2 :: r := by
  cases ls with
  | nil => simp at h
  | cons a t =>
    cases t with
    | nil => simp at h
    | cons b t2 =>
      cases t2 with
      | nil => simp at h
      | cons c r => exact ⟨a, b, c, r, rfl⟩

/-- A line whose post-`;` remainder does not strip to `left` or `up` is
untouched by `reorientLine`. -/
theorem reorientLine_fixed_of_dir (x : Str)
    (h : ∀ r, (splitFirst ';' x).2 = some r →
      pyStrip r ≠ strOf "left" ∧ pyStrip r ≠ strOf "up") :
    reorientLine x = x := by
  simp only [reorientLine]
  split
  · rfl
  · split
    · rfl
    · split
      · rfl
      · rename_i dp heq
        split
        · rename_i hdir
          rcases hdir with hdir | hdir
          · exact absurd hdir (h dp heq).1
          · exact absurd hdir (h dp heq).2
        · rfl

/-- `reorientLine` either leaves the line unchanged or produces the
node-swapped form with the direction rewritten to `right`/`down`. -/
theorem reorientLine_eq_or_swap (l : Str) :
    reorientLine l = l ∨
    ∃ dnew, (dnew = strOf "right" ∨ dnew = strOf "down") ∧
      3 ≤ (pySplit (splitFirst ';' l).1).length ∧
      reorientLine l =
        joinChar ' ' (swap12 (pySplit (splitFirst ';' l).1)) ++ strOf "; " ++ dnew := by
  simp only [reorientLine]
  split
  · exact Or.inl rfl
  · split
    · exact Or.inl rfl
    · split
      · exact Or.inl rfl
      · rename_i dp heq
        split
        · split
          · rename_i hlen
            refine Or.inr ⟨_, ?_, hlen, rfl⟩
            split
            · exact Or.inl rfl
            · exact Or.inr rfl
          · exact Or.inl rfl
        · exact Or.inl rfl

theorem getLast?_some_of_ne_nil {l : Str} (h : l ≠ []) : ∃ c, l.getLast? = some c := by
  obtain ⟨c, t, hct⟩ := List.exists_cons_of_ne_nil
    (show l.reverse ≠ [] by rwa [ne_eq, List.reverse_eq_nil_iff])
  exact ⟨c, by rw [← List.head?_reverse, hct]; rfl⟩

theorem mem_of_getLast?_eq {l : Str} {c : Char} (h : l.getLast? = some c) : c ∈ l := by
  rw [← List.head?_reverse] at h
  cases hrev : l.reverse with
  | nil => rw [hrev] at h; simp at h
  | cons a t =>
    rw [hrev] at h
    injection h with h
    subst h
    have : a ∈ l.reverse := by rw [hrev]; simp
    rwa [List.mem_reverse] at this

theorem getLast?_joinChar (sep : Char) : ∀ (ts : List Str) (y : Str),
    ts.getLast? = some y → y ≠ [] → (joinChar sep ts).getLast? = y.getLast? := by
  intro ts
  induction ts with
  | nil =>
    intro y hy
    simp at hy
  | cons a ts ih =>
    intro y hy hyne
    cases ts with
    | nil =>
      simp at hy
      subst hy
      rw [joinChar_one]
    | cons b l =>
      have hy2 : (b :: l).getLast? = some y := by
        rwa [List.getLast?_cons_cons] at hy
      rw [joinChar_cons_cons]
      have hjne : joinChar sep (b :: l) ≠ [] := by
        intro hnil
        have hlast := ih y hy2 hyne
        rw [hnil] at hlast
        obtain ⟨c, hc⟩ := getLast?_some_of_ne_nil hyne
        rw [hc] at hlast
        simp at hlast
      rw [show a ++ sep :: joinChar sep (b :: l) =
        (a ++ [sep]) ++ joinChar sep (b :: l) from by simp]
      rw [getLast?_append_right _ hjne]
      exact ih y hy2 hyne

theorem splitOnChar_head (sep : Char) (c : Char) (rest : Str) (hcs : c ≠ sep) :
    ∃ q qs, splitOnChar sep (c :: rest) = (c :: q) :: qs := by
  unfold splitOnChar List.splitOn
  rw [List.splitOnP_cons]
  rw [if_neg (by simp [hcs])]
  obtain ⟨q, qs, hq⟩ := List.exists_cons_of_ne_nil (splitOnP_struct (· == sep) rest).1
  rw [hq]
  exact ⟨q, qs, rfl⟩

/-- `reorientLine` is idempotent: its only rewriting branch emits a line
whose direction is already `right` or `down`. -/
theorem reorientLine_idem (l : Str) : reorientLine (reorientLine l) = reorientLine l := by
  rcases reorientLine_eq_or_swap l with hfix | ⟨dnew, hdnew, hlen, hout⟩
  · rw [hfix]
    exact hfix
  · rw [hout]
    apply reorientLine_fixed_of_dir
    intro r hr
    have hnosep : ∀ c ∈ joinChar ' ' (swap12 (pySplit (splitFirst ';' l).1)), c ≠ ';' := by
      intro c hc
      rcases mem_joinChar hc with rfl | ⟨t, ht, hct⟩
      · decide
      · exact splitFirst_fst_no_sep ';' l c
          (pySplit_mem_subset _ t (mem_swap12.mp ht) c hct)
    rw [show joinChar ' ' (swap12 (pySplit (splitFirst ';' l).1)) ++ strOf "; " ++ dnew
        = joinChar ' ' (swap12 (pySplit (splitFirst ';' l).1)) ++ ';' :: (' ' :: dnew) from by
      rw [List.append_assoc]
      rfl] at hr
    rw [splitFirst_append_sep ';' _ _ hnosep] at hr
    injection hr with hr
    subst hr
    rcases hdnew with rfl | rfl
    · exact ⟨by decide, by decide⟩
    · exact ⟨by decide, by decide⟩

theorem reorientLine_no_newline {l : Str} (h : '\n' ∉ l) : '\n' ∉ reorientLine l := by
  rcases reorientLine_eq_or_swap l with hfix | ⟨dnew, hdnew, hlen, hout⟩
  · rwa [hfix]
  · rw [hout]
    intro hmem
    rcases List.mem_append.mp hmem with hmem | hmem
    · rcases List.mem_append.mp hmem with hmem | hmem
      · rcases mem_joinChar hmem with heq | ⟨t, ht, hct⟩
        · exact absurd heq (by decide)
        · have hwf := (pySplit_wf _ t (mem_swap12.mp ht)).2 '\n' hct
          exact absurd hwf (by decide)
      · exact absurd hmem (by decide)
    · rcases hdnew with rfl | rfl
      · exact absurd hmem (by decide)
      · exact absurd hmem (by decide)

theorem reorientLine_strip_ne {l : Str} (h : pyStrip l ≠ []) :
    pyStrip (reorientLine l) ≠ [] := by
  rcases reorientLine_eq_or_swap l with hfix | ⟨dnew, hdnew, hlen, hout⟩
  · rwa [hfix]
  · rw [hout]
    apply pyStrip_ne_nil_of_mem (c := ';')
    · apply List.mem_append.mpr
      left
      apply List.mem_append.mpr
      right
      decide
    · decide

theorem reorientLine_head_not_ws {l : Str}
    (h : ∀ c, l.head? = some c → isWs c = false) :
    ∀ c, (reorientLine l).head? = some c → isWs c = false := by
  rcases reorientLine_eq_or_swap l with hfix | ⟨dnew, hdnew, hlen, hout⟩
  · rwa [hfix]
  · intro c hc
    rw [hout] at hc
    obtain ⟨m0, m1, m2, r, hm⟩ := exists_three hlen
    have hwf := pySplit_wf _ m0 (by rw [hm]; simp)
    have hswap : swap12 (m0 :: m1 :: m2 :: r) = m0 :: m2 :: m1 :: r := rfl
    rw [hm, hswap] at hc
    have hJhead : (joinChar ' ' (m0 :: m2 :: m1 :: r)).head? = m0.head? :=
      head?_joinChar ' ' m0 _ hwf.1
    have hJne : joinChar ' ' (m0 :: m2 :: m1 :: r) ≠ [] := by
      intro hnil
      rw [hnil] at hJhead
      obtain ⟨c0, t0, rfl⟩ := List.exists_cons_of_ne_nil hwf.1
      simp at hJhead
    rw [head?_append_left _ (fun h0 => hJne (List.append_eq_nil.mp h0).1)] at hc
    rw [head?_append_left _ hJne] at hc
    rw [hJhead] at hc
    obtain ⟨c0, t0, hc0⟩ := List.exists_cons_of_ne_nil hwf.1
    rw [hc0] at hc
    injection hc with hc
    subst hc
    exact hwf.2 c0 (by rw [hc0]; simp)

theorem reorientLine_getLast_not_ws {l : Str}
    (h : ∀ c, l.getLast? = some c → isWs c = false) :
    ∀ c, (reorientLine l).getLast? = some c → isWs c = false := by
  rcases reorientLine_eq_or_swap l with hfix | ⟨dnew, hdnew, hlen, hout⟩
  · rwa [hfix]
  · intro c hc
    rw [hout] at hc
    rcases hdnew with rfl | rfl
    · rw [getLast?_append_right _ (by decide : strOf "right" ≠ [])] at hc
      rw [show (strOf "right").getLast? = some 't' from rfl] at hc
      injection hc with hc
      subst hc
      decide
    · rw [getLast?_append_right _ (by decide : strOf "down" ≠ [])] at hc
      rw [show (strOf "down").getLast? = some 'n' from rfl] at hc
      injection hc with hc
      subst hc
      decide

/-- `NetlistTransformer.reorient_rlc` is idempotent on every input. -/
theorem reorient_rlc_idem (s : Str) : reorient_rlc (reorient_rlc s) = reorient_rlc s := by
  by_cases hs : s = []
  · subst hs
    rfl
  · by_cases hP : pyStrip s = []
    · have h1 : reorient_rlc s = ['\n'] := by
        simp only [reorient_rlc]
        rw [if_neg hs, hP]
        rfl
      rw [h1]
      decide
    · obtain ⟨ch, tl, hPc⟩ := List.exists_cons_of_ne_nil hP
      have hch : (pyStrip s).head? = some ch := by rw [hPc]; rfl
      have hchw : isWs ch = false := pyStrip_head_not_ws ch hch
      obtain ⟨cl, hcl⟩ := getLast?_some_of_ne_nil hP
      have hclw : isWs cl = false := pyStrip_getLast_not_ws cl hcl
      have hjoin : joinChar '\n' (splitOnChar '\n' (pyStrip s)) = pyStrip s :=
        List.intercalate_splitOn (pyStrip s) '\n'
      -- first piece structure
      obtain ⟨q0, qs0, hL0c⟩ := splitOnChar_head '\n' ch tl
        (fun hh => by rw [hh] at hchw; exact absurd hchw (by decide))
      rw [← hPc] at hL0c
      -- last piece structure
      obtain ⟨y, hy, hycl⟩ := getLast?_joinChar_char (by rw [hjoin]; exact hcl)
        (fun hh => by rw [hh] at hclw; exact absurd hclw (by decide))
      have hyne : y ≠ [] := fun hh => by rw [hh] at hycl; simp at hycl
      -- membership facts for kept, reoriented lines
      have hkeep : ∀ t ∈ splitOnChar '\n' (pyStrip s), '\n' ∉ t :=
        splitOnChar_no_sep '\n' (pyStrip s)
      set L1 := (splitOnChar '\n' (pyStrip s)).filter
        (fun l => decide (pyStrip l ≠ [])) with hL1
      set Lp := L1.map reorientLine with hLp
      have hF : ∀ t ∈ Lp, '\n' ∉ t ∧ pyStrip t ≠ [] := by
        intro t ht
        obtain ⟨u, hu, rfl⟩ := List.mem_map.mp ht
        have huL0 : u ∈ splitOnChar '\n' (pyStrip s) := List.mem_of_mem_filter hu
        have hupred : pyStrip u ≠ [] := by
          have := List.of_mem_filter hu
          simpa using this
        exact ⟨reorientLine_no_newline (hkeep u huL0), reorientLine_strip_ne hupred⟩
      -- head line of Lp
      have hq0mem : (ch :: q0) ∈ splitOnChar '\n' (pyStrip s) := by rw [hL0c]; simp
      have hq0keep : (fun l => decide (pyStrip l ≠ [])) (ch :: q0) = true := by
        simp only [decide_eq_true_eq]
        exact pyStrip_ne_nil_of_mem (by simp) hchw
      have hL1c : L1 = (ch :: q0) :: qs0.filter (fun l => decide (pyStrip l ≠ [])) := by
        rw [hL1, hL0c]
        exact List.filter_cons_of_pos hq0keep
      have hLpc : Lp = reorientLine (ch :: q0) ::
          (qs0.filter (fun l => decide (pyStrip l ≠ []))).map reorientLine := by
        rw [hLp, hL1c]
        rfl
      have hl0head : ∀ c, (reorientLine (ch :: q0)).head? = some c → isWs c = false := by
        apply reorientLine_head_not_ws
        intro c hcc
        injection hcc with hcc
        subst hcc
        exact hchw
      have hl0ne : reorientLine (ch :: q0) ≠ [] := by
        intro hh
        have := reorientLine_strip_ne (l := ch :: q0)
          (pyStrip_ne_nil_of_mem (by simp) hchw)
        rw [hh] at this
        exact this rfl
      -- last line of Lp
      have hykeep : (fun l => decide (pyStrip l ≠ [])) y = true := by
        simp only [decide_eq_true_eq]
        exact pyStrip_ne_nil_of_mem (mem_of_getLast?_eq hycl) hclw
      have hL1last : L1.getLast? = some y := filter_getLast? _ y hy hykeep
      have hLplast : Lp.getLast? = some (reorientLine y) := by
        rw [hLp, List.getLast?_map, hL1last]
        rfl
      have hylast : ∀ c, (reorientLine y).getLast? = some c → isWs c = false := by
        apply reorientLine_getLast_not_ws
        intro c hcc
        rw [hycl] at hcc
        injection hcc with hcc
        subst hcc
        exact hclw
      have hyne2 : reorientLine y ≠ [] := by
        intro hh
        have := reorientLine_strip_ne (l := y)
          (pyStrip_ne_nil_of_mem (mem_of_getLast?_eq hycl) hclw)
        rw [hh] at this
        exact this rfl
      -- the output and its parts
      have hout : reorient_rlc s = joinChar '\n' Lp ++ ['\n'] := by
        simp only [reorient_rlc]
        rw [if_neg hs]
      have hJhead : (joinChar '\n' Lp).head? = (reorientLine (ch :: q0)).head? := by
        rw [hLpc]
        exact head?_joinChar '\n' _ _ hl0ne
      have hJne : joinChar '\n' Lp ≠ [] := by
        intro hh
        rw [hh] at hJhead
        obtain ⟨c0, t0, hc0⟩ := List.exists_cons_of_ne_nil hl0ne
        rw [hc0] at hJhead
        simp at hJhead
      have hJlast : (joinChar '\n' Lp).getLast? = (reorientLine y).getLast? :=
        getLast?_joinChar '\n' Lp _ hLplast hyne2
      have hJh : ∀ c, (joinChar '\n' Lp).head? = some c → isWs c = false := by
        intro c hcc
        rw [hJhead] at hcc
        exact hl0head c hcc
      have hJl : ∀ c, (joinChar '\n' Lp).getLast? = some c → isWs c = false := by
        intro c hcc
        rw [hJlast] at hcc
        exact hylast c hcc
      have hstrip : pyStrip (joinChar '\n' Lp ++ ['\n']) = joinChar '\n' Lp :=
        pyStrip_append_newline hJne hJh hJl
      have hLpne : Lp ≠ [] := by
        rw [hLpc]
        simp
      have hsplit : splitOnChar '\n' (joinChar '\n' Lp) = Lp := by
        unfold splitOnChar joinChar
        exact List.splitOn_intercalate Lp '\n' (fun t ht => (hF t ht).1) hLpne
      have hfilter : Lp.filter (fun l => decide (pyStrip l ≠ [])) = Lp :=
        List.filter_eq_self.mpr (fun t ht => decide_eq_true (hF t ht).2)
      have hmap : Lp.map reorientLine = Lp := by
        rw [hLp, List.map_map]
        exact List.map_congr_left (fun u _ => reorientLine_idem u)
      rw [hout]
      have h2 : reorient_rlc (joinChar '\n' Lp ++ ['\n']) =
          joinChar '\n' (((splitOnChar '\n'
              (pyStrip (joinChar '\n' Lp ++ ['\n']))).filter
            (fun l => decide (pyStrip l ≠ []))).map reorientLine) ++ ['\n'] := by
        simp only [reorient_rlc]
        rw [if_neg (by simp)]
      rw [h2, hstrip, hsplit, hfilter, hmap]

theorem reorientLine_fixed_of_not_rlc (x : Str)
    (h : ¬ (((pySplit x).headD []).head? = some 'W' ∨
        ((pySplit x).headD []).head? = some 'R' ∨
        ((pySplit x).headD []).head? = some 'L' ∨
        ((pySplit x).headD []).head? = some 'C')) :
    reorientLine x = x := by
  simp only [reorientLine]
  by_cases h3 : (pySplit x).length < 3
  · rw [if_pos h3]
  · rw [if_neg h3, if_pos h]

/-- The swap branch of `reorientLine` in full generality: a W/R/L/C
statement of shape `nm n1 n2 v; left` (resp. `; up`) becomes
`nm n2 n1 v; right` (resp. `; down`). -/
theorem reorientLine_swap (nm n1 n2 v dold dnew : Str)
    (hnm : wfTok nm) (h1 : wfTok n1) (h2 : wfTok n2) (hv : wfTok v)
    (hd : (dold = strOf "left" ∧ dnew = strOf "right") ∨
          (dold = strOf "up" ∧ dnew = strOf "down"))
    (hrlc : nm.head? = some 'W' ∨ nm.head? = some 'R' ∨
            nm.head? = some 'L' ∨ nm.head? = some 'C') :
    reorientLine
        (nm ++ (' ' :: (n1 ++ (' ' :: (n2 ++ (' ' :: (v ++ (';' :: (' ' :: dold)))))))))
      = nm ++ (' ' :: (n2 ++ (' ' :: (n1 ++ (' ' :: (v ++ (';' :: (' ' :: dnew)))))))) := by
  obtain ⟨hnm1, hnm2⟩ := hnm
  obtain ⟨h11, h12⟩ := h1
  obtain ⟨h21, h22⟩ := h2
  obtain ⟨hv1, hv2⟩ := hv
  have hdold : dold = strOf "left" ∨ dold = strOf "up" := by
    rcases hd with ⟨h, _⟩ | ⟨h, _⟩
    · exact Or.inl h
    · exact Or.inr h
  set line := nm ++ (' ' :: (n1 ++ (' ' :: (n2 ++ (' ' :: (v ++ (';' :: (' ' :: dold))))))))
    with hline
  have hsplitv : pySplit (v ++ (';' :: (' ' :: dold))) = [v ++ [';'], dold] := by
    rw [show v ++ (';' :: (' ' :: dold)) = (v ++ [';']) ++ (' ' :: dold) from by simp]
    rw [pySplit_token (v ++ [';']) (' ' :: dold) (by simp)
      (fun c hc => by
        rcases List.mem_append.mp hc with hc | hc
        · exact (hv2 c hc).1
        · simp at hc
          subst hc
          decide)
      (fun c hc => by injection hc with hc; subst hc; decide)]
    rw [pySplit_cons_ws ' ' dold (by decide)]
    rcases hdold with rfl | rfl
    · rw [show pySplit (strOf "left") = [strOf "left"] from by decide]
    · rw [show pySplit (strOf "up") = [strOf "up"] from by decide]
  have hparts : pySplit line = [nm, n1, n2, v ++ [';'], dold] := by
    rw [hline]
    rw [pySplit_token nm _ hnm1 (fun c hc => (hnm2 c hc).1)
      (fun c hc => by injection hc with hc; subst hc; decide)]
    rw [pySplit_cons_ws ' ' _ (by decide)]
    rw [pySplit_token n1 _ h11 (fun c hc => (h12 c hc).1)
      (fun c hc => by injection hc with hc; subst hc; decide)]
    rw [pySplit_cons_ws ' ' _ (by decide)]
    rw [pySplit_token n2 _ h21 (fun c hc => (h22 c hc).1)
      (fun c hc => by injection hc with hc; subst hc; decide)]
    rw [pySplit_cons_ws ' ' _ (by decide)]
    rw [hsplitv]
  have hpre : ∀ c ∈ nm ++ (' ' :: (n1 ++ (' ' :: (n2 ++ (' ' :: v))))), c ≠ ';' := by
    intro c hc
    simp only [List.mem_append, List.mem_cons] at hc
    rcases hc with hc | hc
    · exact (hnm2 c hc).2
    · rcases hc with rfl | hc
      · decide
      · rcases hc with hc | hc
        · exact (h12 c hc).2
        · rcases hc with rfl | hc
          · decide
          · rcases hc with hc | hc
            · exact (h22 c hc).2
            · rcases hc with rfl | hc
              · decide
              · exact (hv2 c hc).2
  have hsf : splitFirst ';' line =
      (nm ++ (' ' :: (n1 ++ (' ' :: (n2 ++ (' ' :: v))))), some (' ' :: dold)) := by
    rw [hline, show nm ++ (' ' :: (n1 ++ (' ' :: (n2 ++ (' ' :: (v ++ (';' :: (' ' :: dold))))))))
      = (nm ++ (' ' :: (n1 ++ (' ' :: (n2 ++ (' ' :: v)))))) ++ (';' :: (' ' :: dold)) from by
        simp]
    exact splitFirst_append_sep ';' _ _ hpre
  have hmain : pySplit (nm ++ (' ' :: (n1 ++ (' ' :: (n2 ++ (' ' :: v)))))) =
      [nm, n1, n2, v] := by
    rw [pySplit_token nm _ hnm1 (fun c hc => (hnm2 c hc).1)
      (fun c hc => by injection hc with hc; subst hc; decide)]
    rw [pySplit_cons_ws ' ' _ (by decide)]
    rw [pySplit_token n1 _ h11 (fun c hc => (h12 c hc).1)
      (fun c hc => by injection hc with hc; subst hc; decide)]
    rw [pySplit_cons_ws ' ' _ (by decide)]
    rw [pySplit_token n2 _ h21 (fun c hc => (h22 c hc).1)
      (fun c hc => by injection hc with hc; subst hc; decide)]
    rw [pySplit_cons_ws ' ' _ (by decide)]
    rw [pySplit_single v hv1 (fun c hc => (hv2 c hc).1)]
  simp only [reorientLine]
  rw [hparts]
  rw [if_neg (by simp : ¬ ([nm, n1, n2, v ++ [';'], dold] : List Str).length < 3)]
  rw [List.headD_cons]
  rw [if_neg (not_not_intro hrlc)]
  simp only [hsf]
  rcases hd with ⟨rfl, rfl⟩ | ⟨rfl, rfl⟩
  · rw [show pyStrip (' ' :: strOf "left") = strOf "left" from by decide]
    rw [if_pos (Or.inl rfl)]
    rw [hmain]
    rw [if_pos (by simp : 3 ≤ ([nm, n1, n2, v] : List Str).length)]
    rw [show swap12 [nm, n1, n2, v] = [nm, n2, n1, v] from rfl]
    rw [joinChar_cons_cons, joinChar_cons_cons, joinChar_cons_cons, joinChar_one]
    rw [show strOf "; " = [';', ' '] from rfl]
    rw [if_pos (rfl : strOf "left" = strOf "left")]
    simp [List.append_assoc]
  · rw [show pyStrip (' ' :: strOf "up") = strOf "up" from by decide]
    rw [if_pos (Or.inr rfl)]
    rw [hmain]
    rw [if_pos (by simp : 3 ≤ ([nm, n1, n2, v] : List Str).length)]
    rw [show swap12 [nm, n1, n2, v] = [nm, n2, n1, v] from rfl]
    rw [joinChar_cons_cons, joinChar_cons_cons, joinChar_cons_cons, joinChar_one]
    rw [show (if strOf "up" = strOf "left" then strOf "right" else strOf "down")
      = strOf "down" from by decide]
    rw [show strOf "; " = [';', ' '] from rfl]
    simp [List.append_assoc]

theorem foldl_max_le_init : ∀ (ps : List Int) (p : Int), p ≤ ps.foldl max p := by
  intro ps
  induction ps with
  | nil => intro p; exact le_refl p
  | cons a t ih =>
    intro p
    simp only [List.foldl_cons]
    exact le_trans (le_max_left p a) (ih (max p a))

theorem le_foldl_max : ∀ (ps : List Int) (p q : Int), q ∈ p :: ps → q ≤ ps.foldl max p := by
  intro ps
  induction ps with
  | nil =>
    intro p q hq
    simp at hq
    subst hq
    exact le_refl q
  | cons a t ih =>
    intro p q hq
    simp only [List.foldl_cons]
    rcases List.mem_cons.mp hq with rfl | hq
    · exact le_trans (le_max_left q a) (foldl_max_le_init t (max q a))
    · rcases List.mem_cons.mp hq with rfl | hq
      · exact le_trans (le_max_right p q) (foldl_max_le_init t (max p q))
      · exact ih (max p a) q (List.mem_cons_of_mem _ hq)

/-! ### Node-map lemmas (ground unification analysis) -/

theorem foldl_inv_mem {α σ : Type} {P : σ → Prop} {f : σ → α → σ} :
    ∀ (l : List α) (s : σ), (∀ s' a, a ∈ l → P s' → P (f s' a)) → P s →
      P (l.foldl f s) := by
  intro l
  induction l with
  | nil =>
    intro s _ hs
    exact hs
  | cons a t ih =>
    intro s hstep hs
    exact ih (f s a) (fun s' b hb => hstep s' b (by simp [hb]))
      (hstep s a (by simp) hs)

theorem flagsFold_eq (sg : Bool) (pd : Parsed) :
    flagsFold sg pd = (allFlags pd).foldl (processFlag sg) ⟨[], [], 1⟩ := by
  unfold flagsFold allFlags
  rw [List.foldl_flatten, List.foldl_map]

theorem groundLocations_eq (pd : Parsed) :
    groundLocations pd = (allFlags pd).filterMap (fun f =>
      if atomIsGround f.2.2 then some (atomInt f.1, atomInt f.2.1) else none) := by
  unfold groundLocations allFlags
  have key : ∀ (l : Parsed) (a : List (Int × Int)),
      l.foldl (fun acc line => acc ++ (lineFlags line).filterMap (fun f =>
        if atomIsGround f.2.2 then some (atomInt f.1, atomInt f.2.1) else none)) a =
      a ++ ((l.map lineFlags).flatten).filterMap (fun f =>
        if atomIsGround f.2.2 then some (atomInt f.1, atomInt f.2.1) else none) := by
    intro l
    induction l with
    | nil =>
      intro a
      simp
    | cons x t ih =>
      intro a
      simp only [List.foldl_cons, List.map_cons, List.flatten_cons,
        List.filterMap_append]
      rw [ih]
      simp [List.append_assoc]
  have h := key pd []
  simpa using h

theorem mem_add_node {d : Dict} {x y : Int} {n : Option PyVal} {p : Str × PyVal}
    (hp : p ∈ add_node d x y n) :
    p ∈ d ∨ (∃ v, n = some v ∧ p.2 = v) ∨
      (n = none ∧ ∃ i : Int, 1 ≤ i ∧ p.2 = PyVal.int i) := by
  unfold add_node at hp
  by_cases hk : (dget d (node_key x y)).isSome
  · rw [if_pos hk] at hp
    exact Or.inl hp
  · rw [if_neg hk] at hp
    cases n with
    | some v =>
      rcases List.mem_append.mp hp with hp | hp
      · exact Or.inl hp
      · simp only [List.mem_singleton] at hp
        exact Or.inr (Or.inl ⟨v, rfl, by rw [hp]⟩)
    | none =>
      rcases List.mem_append.mp hp with hp | hp
      · exact Or.inl hp
      · simp only [List.mem_singleton] at hp
        refine Or.inr (Or.inr ⟨rfl, _ + 1, ?_, by rw [hp]⟩)
        have h0 : (0 : Int) ≤ ((dvalues d).filterMap (fun v => match v with
            | PyVal.int i => some i
            | PyVal.str _ => none)).foldl max 0 := foldl_max_le_init _ 0
        omega

theorem add_node_values {V : PyVal → Prop} {d : Dict} {x y : Int}
    (hV1 : ∀ i : Int, 1 ≤ i → V (PyVal.int i)) (hd : ∀ p ∈ d, V p.2) :
    ∀ p ∈ add_node d x y none, V p.2 := by
  intro p hp
  rcases mem_add_node hp with hp | ⟨v, hv, _⟩ | ⟨_, i, hi, hp2⟩
  · exact hd p hp
  · cases hv
  · rw [hp2]
    exact hV1 i hi

theorem add_node_values_some {V : PyVal → Prop} {d : Dict} {x y : Int} {v : PyVal}
    (hv : V v) (hd : ∀ p ∈ d, V p.2) :
    ∀ p ∈ add_node d x y (some v), V p.2 := by
  intro p hp
  rcases mem_add_node hp with hp | ⟨w, hw, hp2⟩ | ⟨hn, _⟩
  · exact hd p hp
  · injection hw with hw
    rw [hp2, ← hw]
    exact hv
  · cases hn

theorem wireStep_values {V : PyVal → Prop} {d : Dict} {line : List Item}
    (hV1 : ∀ i : Int, 1 ≤ i → V (PyVal.int i)) (hd : ∀ p ∈ d, V p.2) :
    ∀ p ∈ wireStep d line, V p.2 := by
  unfold wireStep
  split
  · split
    · exact add_node_values hV1 (add_node_values hV1 hd)
    · exact hd
  · exact hd

theorem flags_fold_values (V : PyVal → Prop) (sg : Bool)
    (hV1 : ∀ i : Int, 1 ≤ i → V (PyVal.int i)) :
    ∀ (fs : List (Atom × Atom × Atom)),
      (∀ f ∈ fs, atomIsGround f.2.2 = true →
        (sg = true → V (PyVal.int 0)) ∧ (sg = false → ∀ g : Str, V (PyVal.str g))) →
      ∀ (st : NodesState), (∀ p ∈ st.nodes, V p.2) →
      ∀ p ∈ (fs.foldl (processFlag sg) st).nodes, V p.2 := by
  intro fs
  induction fs with
  | nil =>
    intro _ st hst
    exact hst
  | cons f t ih =>
    intro hVg st hst
    simp only [List.foldl_cons]
    apply ih (fun f' hf' => hVg f' (by simp [hf']))
    intro p hp
    unfold processFlag at hp
    by_cases hg : atomIsGround f.2.2
    · rw [if_pos hg] at hp
      cases sg with
      | true =>
        rw [if_pos rfl] at hp
        exact add_node_values_some ((hVg f (by simp) hg).1 rfl) hst p hp
      | false =>
        rw [if_neg (by simp)] at hp
        cases hfind : (NodesState.gmap st
            |>.find? (fun q => q.1 = (atomInt f.1, atomInt f.2.1))).map
            (fun q => q.2) with
        | some g =>
          simp only [hfind] at hp
          exact add_node_values_some ((hVg f (by simp) hg).2 rfl g) hst p hp
        | none =>
          simp only [hfind] at hp
          exact add_node_values_some ((hVg f (by simp) hg).2 rfl _) hst p hp
    · rw [if_neg hg] at hp
      exact add_node_values hV1 hst p hp

theorem make_nodes_values (pd : Parsed) (V : PyVal → Prop)
    (hV1 : ∀ i : Int, 1 ≤ i → V (PyVal.int i))
    (hVg : ∀ f ∈ allFlags pd, atomIsGround f.2.2 = true →
      (decide ((groundLocations pd).dedup.length ≤ 1) = true → V (PyVal.int 0)) ∧
      (decide ((groundLocations pd).dedup.length ≤ 1) = false →
        ∀ g : Str, V (PyVal.str g))) :
    ∀ p ∈ make_nodes_from_wires pd, V p.2 := by
  simp only [make_nodes_from_wires]
  exact foldl_inv_mem (P := fun d => ∀ p ∈ d, V p.2) (f := wireStep) pd
    ((flagsFold (decide ((groundLocations pd).dedup.length ≤ 1)) pd).nodes)
    (fun d line _ hd => wireStep_values hV1 hd)
    (by rw [flagsFold_eq]
        exact flags_fold_values V _ hV1 (allFlags pd) hVg ⟨[], [], 1⟩ (by simp))

theorem mem_dedupFirst {α : Type} [DecidableEq α] {a : α} :
    ∀ {l : List α}, a ∈ dedupFirst l ↔ a ∈ l := by
  intro l
  induction l with
  | nil => simp [dedupFirst]
  | cons b r ih =>
    simp only [dedupFirst, List.mem_cons]
    constructor
    · intro h
      rcases h with rfl | h
      · exact Or.inl rfl
      · exact Or.inr (ih.mp (List.mem_of_mem_filter h))
    · intro h
      rcases h with rfl | h
      · exact Or.inl rfl
      · by_cases hab : a = b
        · exact Or.inl hab
        · refine Or.inr (List.mem_filter.mpr ⟨ih.mpr h, ?_⟩)
          simp [hab]

theorem dedupFirst_append {α : Type} [DecidableEq α] :
    ∀ (xs ys : List α), dedupFirst (xs ++ ys) =
      dedupFirst xs ++ (dedupFirst ys).filter (fun b => decide (b ∉ xs)) := by
  intro xs
  induction xs with
  | nil =>
    intro ys
    simp [dedupFirst]
  | cons a r ih =>
    intro ys
    show dedupFirst (a :: (r ++ ys)) = _
    rw [show dedupFirst (a :: (r ++ ys)) =
      a :: (dedupFirst (r ++ ys)).filter (fun b => b ≠ a) from rfl]
    rw [ih ys, List.filter_append]
    show _ = a :: ((dedupFirst r).filter (fun b => b ≠ a) ++
      (dedupFirst ys).filter (fun b => decide (b ∉ a :: r)))
    congr 2
    rw [List.filter_filter]
    apply List.filter_congr
    intro b _
    simp only [List.mem_cons, not_or, decide_not, Bool.decide_and]

theorem gmapFrom_append : ∀ (a : List (Int × Int)) (k : Nat) (b : List (Int × Int)),
    gmapFrom k (a ++ b) = gmapFrom k a ++ gmapFrom (k + a.length) b := by
  intro a
  induction a with
  | nil =>
    intro k b
    simp [gmapFrom]
  | cons loc r ih =>
    intro k b
    show gmapFrom k (loc :: (r ++ b)) = _
    rw [show gmapFrom k (loc :: (r ++ b)) =
      (loc, strOf "0_" ++ natStr k) :: gmapFrom (k + 1) (r ++ b) from rfl]
    rw [ih (k + 1) b]
    show _ = (loc, strOf "0_" ++ natStr k) ::
      (gmapFrom (k + 1) r ++ gmapFrom (k + (r.length + 1)) b)
    have : k + 1 + r.length = k + (r.length + 1) := by omega
    rw [this]

theorem gmapFrom_keys (k : Nat) : ∀ (l : List (Int × Int)) (q : (Int × Int) × Str),
    q ∈ gmapFrom k l → q.1 ∈ l := by
  intro l
  induction l generalizing k with
  | nil =>
    intro q hq
    simp [gmapFrom] at hq
  | cons loc r ih =>
    intro q hq
    simp only [gmapFrom, List.mem_cons] at hq
    rcases hq with rfl | hq
    · simp
    · exact List.mem_cons_of_mem _ (ih (k + 1) q hq)

theorem gmapFrom_find_none (k : Nat) (l : List (Int × Int)) (loc : Int × Int)
    (h : loc ∉ l) :
    (gmapFrom k l).find? (fun q => q.1 = loc) = none := by
  rw [List.find?_eq_none]
  intro q hq
  simp only [decide_eq_true_eq]
  intro hql
  exact h (hql ▸ gmapFrom_keys k l q hq)

theorem find?_gmap_dedup_none {gs : List (Int × Int)} {loc : Int × Int} (h : loc ∉ gs) :
    (gmapFrom 1 (dedupFirst gs)).find? (fun q => q.1 = loc) = none :=
  gmapFrom_find_none 1 _ loc (fun hm => h (mem_dedupFirst.mp hm))

theorem gmapFrom_find_mem (k : Nat) : ∀ (l : List (Int × Int)) (loc : Int × Int),
    loc ∈ l → ∃ q, (gmapFrom k l).find? (fun q => q.1 = loc) = some q := by
  intro l
  induction l generalizing k with
  | nil =>
    intro loc hloc
    simp at hloc
  | cons a r ih =>
    intro loc hloc
    by_cases ha : a = loc
    · subst ha
      refine ⟨(a, strOf "0_" ++ natStr k), ?_⟩
      simp [gmapFrom, List.find?]
    · rcases List.mem_cons.mp hloc with h | h
      · exact absurd h.symm ha
      · obtain ⟨q, hq⟩ := ih (k + 1) loc h
        refine ⟨q, ?_⟩
        simp only [gmapFrom, List.find?]
        rw [show (decide ((a, strOf "0_" ++ natStr k).1 = loc)) = false from by
          simp [ha]]
        exact hq

/-- The `ground_map`/`ground_counter` invariant of pass 2 in multi-ground
mode: the map always holds the distinct ground locations seen so far, in
first-appearance order, named `0_1`, `0_2`, …. -/
theorem flags_fold_gmap : ∀ (fs : List (Atom × Atom × Atom)) (st : NodesState)
    (gs : List (Int × Int)),
    st.gmap = gmapFrom 1 (dedupFirst gs) →
    st.counter = (dedupFirst gs).length + 1 →
    (fs.foldl (processFlag false) st).gmap =
        gmapFrom 1 (dedupFirst (gs ++ fs.filterMap (fun f =>
          if atomIsGround f.2.2 then some (atomInt f.1, atomInt f.2.1) else none))) ∧
      (fs.foldl (processFlag false) st).counter =
        (dedupFirst (gs ++ fs.filterMap (fun f =>
          if atomIsGround f.2.2 then some (atomInt f.1, atomInt f.2.1) else none))).length + 1 := by
  intro fs
  induction fs with
  | nil =>
    intro st gs h1 h2
    simp only [List.foldl_nil, List.filterMap_nil, List.append_nil]
    exact ⟨h1, h2⟩
  | cons f t ih =>
    intro st gs h1 h2
    simp only [List.foldl_cons, List.filterMap_cons]
    by_cases hg : atomIsGround f.2.2
    · rw [if_pos hg]
      have key : gs ++ (atomInt f.1, atomInt f.2.1) :: t.filterMap (fun f =>
          if atomIsGround f.2.2 then some (atomInt f.1, atomInt f.2.1) else none) =
          (gs ++ [(atomInt f.1, atomInt f.2.1)]) ++ t.filterMap (fun f =>
          if atomIsGround f.2.2 then some (atomInt f.1, atomInt f.2.1) else none) := by
        simp
      rw [key]
      cases hfind : (st.gmap.find? (fun q =>
          q.1 = (atomInt f.1, atomInt f.2.1))).map (fun q => q.2) with
      | some g =>
        have hmem : (atomInt f.1, atomInt f.2.1) ∈ gs := by
          by_contra hmem
          rw [h1, find?_gmap_dedup_none hmem] at hfind
          simp at hfind
        have hdd : dedupFirst (gs ++ [(atomInt f.1, atomInt f.2.1)]) = dedupFirst gs := by
          rw [dedupFirst_append]
          simp [dedupFirst, hmem]
        have hgm1 : (processFlag false st f).gmap = st.gmap := by
          simp only [processFlag, if_pos hg, Bool.false_eq_true, if_false, hfind]
        have hgm2 : (processFlag false st f).counter = st.counter := by
          simp only [processFlag, if_pos hg, Bool.false_eq_true, if_false, hfind]
        exact ih _ _ (hgm1.trans (h1.trans (by rw [hdd])))
          (hgm2.trans (h2.trans (by rw [hdd])))
      | none =>
        have hmem : (atomInt f.1, atomInt f.2.1) ∉ gs := by
          intro hmem
          have hmem2 : (atomInt f.1, atomInt f.2.1) ∈ dedupFirst gs :=
            mem_dedupFirst.mpr hmem
          obtain ⟨q, hq⟩ := gmapFrom_find_mem 1 _ _ hmem2
          rw [h1, hq] at hfind
          simp at hfind
        have hdd : dedupFirst (gs ++ [(atomInt f.1, atomInt f.2.1)]) =
            dedupFirst gs ++ [(atomInt f.1, atomInt f.2.1)] := by
          rw [dedupFirst_append]
          simp [dedupFirst, hmem]
        have hgm1 : (processFlag false st f).gmap =
            st.gmap ++ [((atomInt f.1, atomInt f.2.1),
              strOf "0_" ++ natStr st.counter)] := by
          simp only [processFlag, if_pos hg, Bool.false_eq_true, if_false, hfind]
        have hgm2 : (processFlag false st f).counter = st.counter + 1 := by
          simp only [processFlag, if_pos hg, Bool.false_eq_true, if_false, hfind]
        refine ih _ _ ?_ ?_
        · rw [hgm1, h1, hdd, h2]
          rw [gmapFrom_append]
          have : 1 + (dedupFirst gs).length = (dedupFirst gs).length + 1 := by omega
          rw [this]
          rfl
        · rw [hgm2, h2, hdd]
          simp
    · rw [if_neg hg]
      have hs1 : (processFlag false st f).gmap = st.gmap := by
        simp only [processFlag, if_neg hg]
      have hs2 : (processFlag false st f).counter = st.counter := by
        simp only [processFlag, if_neg hg]
      exact ih _ gs (hs1.trans h1) (hs2.trans h2)

/-- In multi-ground mode the final ground map is exactly the distinct
ground locations in first-appearance order, named `0_1`, `0_2`, …. -/
theorem groundNameMap_eq (pd : Parsed)
    (h : 2 ≤ (groundLocations pd).dedup.length) :
    groundNameMap pd = gmapFrom 1 (dedupFirst (groundLocations pd)) := by
  unfold groundNameMap
  rw [show (decide ((groundLocations pd).dedup.length ≤ 1)) = false from by
    simp
    omega]
  rw [flagsFold_eq]
  have := (flags_fold_gmap (allFlags pd) ⟨[], [], 1⟩ [] (by rfl) (by rfl)).1
  rw [this]
  congr 1
  rw [List.nil_append, ← groundLocations_eq]

theorem dget_append_left {d l : Dict} {k : Str} {v : PyVal}
    (h : dget d k = some v) : dget (d ++ l) k = some v := by
  unfold dget at h ⊢
  rw [List.find?_append]
  cases hf : d.find? (fun p => p.1 = k) with
  | none =>
    rw [hf] at h
    simp at h
  | some pr =>
    rw [hf] at h
    exact h

theorem dget_add_node_pres {d : Dict} {x y : Int} {n : Option PyVal} {k : Str}
    {v : PyVal} (h : dget d k = some v) : dget (add_node d x y n) k = some v := by
  unfold add_node dappend
  by_cases hk : (dget d (node_key x y)).isSome
  · rw [if_pos hk]
    exact h
  · rw [if_neg hk]
    cases n with
    | some w => exact dget_append_left h
    | none => exact dget_append_left h

theorem dget_add_node_ne {d : Dict} {x y : Int} {n : Option PyVal} {k : Str}
    (hne : node_key x y ≠ k) : dget (add_node d x y n) k = dget d k := by
  unfold add_node dappend
  by_cases hk : (dget d (node_key x y)).isSome
  · rw [if_pos hk]
  · rw [if_neg hk]
    have hone : ∀ w : PyVal, List.find? (fun p => p.1 = k) [(node_key x y, w)] = none := by
      intro w
      simp [List.find?, hne]
    cases n with
    | some w =>
      unfold dget
      rw [List.find?_append, hone w, Option.or_none]
    | none =>
      unfold dget
      rw [List.find?_append, hone _, Option.or_none]

theorem dget_add_node_set {d : Dict} {x y : Int} {v : PyVal}
    (h : dget d (node_key x y) = none) :
    dget (add_node d x y (some v)) (node_key x y) = some v := by
  unfold add_node dappend
  rw [if_neg (by rw [h]; simp)]
  unfold dget
  rw [List.find?_append]
  rw [show d.find? (fun p => p.1 = node_key x y) = none from
    Option.map_eq_none'.mp h]
  simp [List.find?]

theorem dget_processFlag_pres {sg : Bool} {st : NodesState}
    {f : Atom × Atom × Atom} {k : Str} {v : PyVal}
    (h : dget st.nodes k = some v) :
    dget (processFlag sg st f).nodes k = some v := by
  simp only [processFlag]
  split
  · split
    · dsimp only
      exact dget_add_node_pres h
    · split
      · dsimp only
        exact dget_add_node_pres h
      · dsimp only
        exact dget_add_node_pres h
  · dsimp only
    exact dget_add_node_pres h

theorem dget_processFlag_ne {sg : Bool} {st : NodesState}
    {f : Atom × Atom × Atom} {k : Str}
    (hne : node_key (atomInt f.1) (atomInt f.2.1) ≠ k) :
    dget (processFlag sg st f).nodes k = dget st.nodes k := by
  simp only [processFlag]
  split
  · split
    · dsimp only
      exact dget_add_node_ne hne
    · split
      · dsimp only
        exact dget_add_node_ne hne
      · dsimp only
        exact dget_add_node_ne hne
  · dsimp only
    exact dget_add_node_ne hne

theorem dget_wireStep_pres {d : Dict} {line : List Item} {k : Str} {v : PyVal}
    (h : dget d k = some v) : dget (wireStep d line) k = some v := by
  unfold wireStep
  split
  · split
    · exact dget_add_node_pres (dget_add_node_pres h)
    · exact h
  · exact h

theorem processFlag_gmap_ext (sg : Bool) (st : NodesState) (f : Atom × Atom × Atom) :
    ∃ ext, (processFlag sg st f).gmap = st.gmap ++ ext := by
  simp only [processFlag]
  split
  · split
    · exact ⟨[], by simp⟩
    · split
      · exact ⟨[], by simp⟩
      · exact ⟨[((atomInt f.1, atomInt f.2.1),
          strOf "0_" ++ natStr st.counter)], rfl⟩

  · exact ⟨[], by simp⟩

theorem gmap_find_ext {m ext : List ((Int × Int) × Str)} {xy : Int × Int}
    {q : (Int × Int) × Str} (h : m.find? (fun p => p.1 = xy) = some q) :
    (m ++ ext).find? (fun p => p.1 = xy) = some q := by
  rw [List.find?_append, h]
  rfl

/-- Single-ground positive direction: a coordinate carrying a ground
flag, not shadowed by an earlier non-ground flag at the same key, ends
up as node `0`. -/
theorem flags_fold_ground0 (k : Str) : ∀ (fs : List (Atom × Atom × Atom))
    (st : NodesState),
    (∀ f ∈ fs, node_key (atomInt f.1) (atomInt f.2.1) = k →
      atomIsGround f.2.2 = true) →
    (dget st.nodes k = none ∨ dget st.nodes k = some (PyVal.int 0)) →
    (∃ f ∈ fs, node_key (atomInt f.1) (atomInt f.2.1) = k) →
    dget ((fs.foldl (processFlag true) st)).nodes k = some (PyVal.int 0) := by
  intro fs
  induction fs with
  | nil =>
    intro st _ _ hex
    rcases hex with ⟨f, hf, _⟩
    exact absurd hf (List.not_mem_nil f)
  | cons f t ih =>
    intro st hsh hQ hex
    simp only [List.foldl_cons]
    by_cases hfk : node_key (atomInt f.1) (atomInt f.2.1) = k
    · have hg : atomIsGround f.2.2 = true := hsh f (by simp) hfk
      have hafter : dget (processFlag true st f).nodes k = some (PyVal.int 0) := by
        unfold processFlag
        rw [if_pos hg, if_pos rfl]
        show dget (add_node st.nodes (atomInt f.1) (atomInt f.2.1)
          (some (PyVal.int 0))) k = some (PyVal.int 0)
        rcases hQ with hQ | hQ
        · rw [← hfk]
          exact dget_add_node_set (by rw [hfk]; exact hQ)
        · exact dget_add_node_pres hQ
      exact foldl_inv_mem
        (P := fun st : NodesState => dget st.nodes k = some (PyVal.int 0)) t _
        (fun st' f' _ h => dget_processFlag_pres h) hafter
    · have hQ' : dget (processFlag true st f).nodes k = none ∨
          dget (processFlag true st f).nodes k = some (PyVal.int 0) := by
        rw [dget_processFlag_ne hfk]
        exact hQ
      rcases hex with ⟨f', hf', hfk'⟩
      rcases List.mem_cons.mp hf' with rfl | hf'
      · exact absurd hfk' hfk
      · exact ih _ (fun f'' h => hsh f'' (by simp [h])) hQ' ⟨f', hf', hfk'⟩

/-- Multi-ground positive direction: a ground coordinate, not shadowed
at its key, ends up named with its `ground_map` entry. -/
theorem flags_fold_groundname (k : Str) (xy : Int × Int) :
    ∀ (fs : List (Atom × Atom × Atom)) (st : NodesState),
      (∀ f ∈ fs, node_key (atomInt f.1) (atomInt f.2.1) = k →
        atomIsGround f.2.2 = true ∧ (atomInt f.1, atomInt f.2.1) = xy) →
      (dget st.nodes k = none ∨ ∃ g, dget st.nodes k = some (PyVal.str g) ∧
        (st.gmap.find? (fun q => q.1 = xy)).map (fun q => q.2) = some g) →
      (∃ f ∈ fs, node_key (atomInt f.1) (atomInt f.2.1) = k) →
      ∃ g, dget ((fs.foldl (processFlag false) st)).nodes k = some (PyVal.str g) ∧
        (((fs.foldl (processFlag false) st)).gmap.find?
          (fun q => q.1 = xy)).map (fun q => q.2) = some g := by
  intro fs
  induction fs with
  | nil =>
    intro st _ _ hex
    rcases hex with ⟨f, hf, _⟩
    exact absurd hf (List.not_mem_nil f)
  | cons f t ih =>
    intro st hsh hQ hex
    simp only [List.foldl_cons]
    by_cases hfk : node_key (atomInt f.1) (atomInt f.2.1) = k
    · obtain ⟨hg, hxy⟩ := hsh f (by simp) hfk
      have hafter : ∃ g, dget (processFlag false st f).nodes k =
          some (PyVal.str g) ∧
          ((processFlag false st f).gmap.find?
            (fun q => q.1 = xy)).map (fun q => q.2) = some g := by
        unfold processFlag
        rw [if_pos hg, if_neg (by simp)]
        rw [hxy]
        cases hfind : (st.gmap.find? (fun q => q.1 = xy)).map (fun q => q.2) with
        | some g =>
          simp only [hfind]
          refine ⟨g, ?_, rfl⟩
          show dget (add_node st.nodes (atomInt f.1) (atomInt f.2.1)
            (some (PyVal.str g))) k = some (PyVal.str g)
          rcases hQ with hQ | ⟨g0, hQ1, hQ2⟩
          · rw [← hfk]
            exact dget_add_node_set (by rw [hfk]; exact hQ)
          · rw [hfind] at hQ2
            injection hQ2 with hQ2
            rw [← hQ2] at hQ1
            exact dget_add_node_pres hQ1
        | none =>
          simp only [hfind]
          refine ⟨strOf "0_" ++ natStr st.counter, ?_, ?_⟩
          · show dget (add_node st.nodes (atomInt f.1) (atomInt f.2.1)
              (some (PyVal.str (strOf "0_" ++ natStr st.counter)))) k =
              some (PyVal.str (strOf "0_" ++ natStr st.counter))
            rcases hQ with hQ | ⟨g0, _, hQ2⟩
            · rw [← hfk]
              exact dget_add_node_set (by rw [hfk]; exact hQ)
            · rw [hfind] at hQ2
              cases hQ2
          · show ((st.gmap ++ [(xy, strOf "0_" ++ natStr st.counter)]).find?
              (fun q => q.1 = xy)).map (fun q => q.2) = _
            rw [List.find?_append, Option.map_eq_none'.mp hfind]
            simp [List.find?]
      obtain ⟨g, hg1, hg2⟩ := hafter
      have hfinal := foldl_inv_mem
        (P := fun st : NodesState => dget st.nodes k = some (PyVal.str g) ∧
          (st.gmap.find? (fun q => q.1 = xy)).map (fun q => q.2) = some g)
        (f := processFlag false)
        t (processFlag false st f) ?hstep ⟨hg1, hg2⟩
      case hstep =>
        intro st' f' _ hP
        refine ⟨dget_processFlag_pres hP.1, ?_⟩
        obtain ⟨ext, hext⟩ := processFlag_gmap_ext false st' f'
        cases hfq : st'.gmap.find? (fun q => q.1 = xy) with
        | none =>
          rw [hfq] at hP
          simp at hP
        | some q =>
          rw [hext, gmap_find_ext hfq]
          rw [hfq] at hP
          exact hP.2
      exact ⟨g, hfinal.1, hfinal.2⟩
    · have hQ' : dget (processFlag false st f).nodes k = none ∨
          ∃ g, dget (processFlag false st f).nodes k = some (PyVal.str g) ∧
          ((processFlag false st f).gmap.find?
            (fun q => q.1 = xy)).map (fun q => q.2) = some g := by
        rw [dget_processFlag_ne hfk]
        rcases hQ with hQ | ⟨g, hQ1, hQ2⟩
        · exact Or.inl hQ
        · refine Or.inr ⟨g, hQ1, ?_⟩
          obtain ⟨ext, hext⟩ := processFlag_gmap_ext false st f
          cases hfq : st.gmap.find? (fun q => q.1 = xy) with
          | none =>
            rw [hfq] at hQ2
            simp at hQ2
          | some q =>
            rw [hext, gmap_find_ext hfq]
            rw [hfq] at hQ2
            exact hQ2
      rcases hex with ⟨f', hf', hfk'⟩
      rcases List.mem_cons.mp hf' with rfl | hf'
      · exact absurd hfk' hfk
      · exact ih _ (fun f'' h => hsh f'' (by simp [h])) hQ' ⟨f', hf', hfk'⟩

/-- The shape of `%.6f` output: something, a dot, then exactly six
digits. -/
theorem format6f_shape (d : Dec) :
    ∃ ip fp, format6f d = ip ++ ['.'] ++ fp ∧ fp.length = 6 ∧
      ∀ ch ∈ fp, ch.isDigit = true := by
  simp only [format6f]
  generalize (Dec.scale d 6).roundHalfEven = n
  generalize hg : List.replicate (7 - (natStr n.natAbs).length) '0' ++
    natStr n.natAbs = ds
  have h7 : 7 ≤ ds.length := by
    rw [← hg]
    simp only [List.length_append, List.length_replicate]
    omega
  refine ⟨(if n < 0 then ['-'] else []) ++ ds.take (ds.length - 6),
    ds.drop (ds.length - 6), ?_, ?_, ?_⟩
  · simp [List.append_assoc]
  · simp only [List.length_drop]
    omega
  · intro ch hch
    have hm : ch ∈ ds := List.drop_subset _ _ hch
    rw [← hg] at hm
    rcases List.mem_append.mp hm with h | h
    · rw [List.eq_of_mem_replicate h]
      decide
    · exact natStr_all_digit _ ch h

/-! # Theorems -/

/-! ## C2 — rotation convention -/

/-- **C2, counterexample.** The claim's rotation table (left:
`(x,y) → (−y,x)`) is not applied in every code path: at the input
`(1, 0)` with orientation `left`, the legacy module's `rotate_point`
yields `(0, −1)` while the current `components.rotate_point` (which the
claim's table matches) yields `(0, 1)`. -/
theorem C2_counterexample :
    lt_rotate_point 1 0 (strOf "left") = (0, -1) ∧
    rotate_point 1 0 (strOf "left") = (0, 1) ∧
    lt_rotate_point 1 0 (strOf "left") ≠ rotate_point 1 0 (strOf "left") := by
  decide

/-- **C2, amended.** The rotation table down ↦ (x,y), left ↦ (−y,x),
up ↦ (−x,−y), right ↦ (y,−x) is exactly `components.rotate_point`, and
this single convention yields the two-terminal pin coordinates of
`ComponentMatcher.match_node` (terminal 1 at origin + rotate(x_off,
y_off), terminal 2 at origin + rotate(x_off, length)) and of the legacy
two-terminal `LTspice.match_node`; the op-amp matchers of
`components.py` apply `rotate_point` to each pin offset by definition.
However, the legacy module's own `rotate_point` — the one used by the
legacy op-amp matchers — maps left ↦ (y,−x) and right ↦ (−y,x), the
inverse rotation, so the convention does not hold in every code path. -/
theorem C2_rotation_convention :
    (∀ x y : Int,
      rotate_point x y (strOf "down") = (x, y) ∧
      rotate_point x y (strOf "left") = (-y, x) ∧
      rotate_point x y (strOf "up") = (-x, -y) ∧
      rotate_point x y (strOf "right") = (y, -x)) ∧
    (∀ (x y : Int) (cfg : TwoTermCfg) (d : Str),
      d ∈ [strOf "down", strOf "left", strOf "up", strOf "right"] →
      twoTermPins x y cfg d =
        ((x + (rotate_point cfg.x_offset cfg.y_offset d).1,
          y + (rotate_point cfg.x_offset cfg.y_offset d).2),
         (x + (rotate_point cfg.x_offset cfg.length d).1,
          y + (rotate_point cfg.x_offset cfg.length d).2))) ∧
    (∀ (x y xo yo ln : Int) (d : Str),
      d ∈ [strOf "down", strOf "left", strOf "up", strOf "right"] →
      lt_match_node_keys x y xo yo ln d =
        some (node_key (x + (rotate_point xo yo d).1)
                (y + (rotate_point xo yo d).2),
              node_key (x + (rotate_point xo ln d).1)
                (y + (rotate_point xo ln d).2))) ∧
    (∀ (nodes : Dict) (x y : Int) (d : Str),
      match_opamp_nodes nodes x y d = opampPins.map (fun p =>
        (p.1, dgetD nodes
          (node_key (x + (rotate_point p.2.1 p.2.2 d).1)
            (y + (rotate_point p.2.1 p.2.2 d).2)) (.str (strOf "?"))))) ∧
    (∀ x y : Int,
      lt_rotate_point x y (strOf "left") = (y, -x) ∧
      lt_rotate_point x y (strOf "right") = (-y, x)) := by
  refine ⟨?_, ?_, ?_, ?_, ?_⟩
  · intro x y
    refine ⟨rfl, rfl, rfl, rfl⟩
  · intro x y cfg d hd
    fin_cases hd
    · rw [show twoTermPins x y cfg (strOf "down") =
        ((x + cfg.x_offset, y + cfg.y_offset),
         (x + cfg.x_offset, y + cfg.length)) from rfl,
        show rotate_point cfg.x_offset cfg.y_offset (strOf "down") =
          (cfg.x_offset, cfg.y_offset) from rfl,
        show rotate_point cfg.x_offset cfg.length (strOf "down") =
          (cfg.x_offset, cfg.length) from rfl]
    · rw [show twoTermPins x y cfg (strOf "left") =
        ((x - cfg.y_offset, y + cfg.x_offset),
         (x - cfg.length, y + cfg.x_offset)) from rfl,
        show rotate_point cfg.x_offset cfg.y_offset (strOf "left") =
          (-cfg.y_offset, cfg.x_offset) from rfl,
        show rotate_point cfg.x_offset cfg.length (strOf "left") =
          (-cfg.length, cfg.x_offset) from rfl]
      simp only [sub_eq_add_neg]
    · rw [show twoTermPins x y cfg (strOf "up") =
        ((x - cfg.x_offset, y - cfg.y_offset),
         (x - cfg.x_offset, y - cfg.length)) from rfl,
        show rotate_point cfg.x_offset cfg.y_offset (strOf "up") =
          (-cfg.x_offset, -cfg.y_offset) from rfl,
        show rotate_point cfg.x_offset cfg.length (strOf "up") =
          (-cfg.x_offset, -cfg.length) from rfl]
      simp only [sub_eq_add_neg]
    · rw [show twoTermPins x y cfg (strOf "right") =
        ((x + cfg.y_offset, y - cfg.x_offset),
         (x + cfg.length, y - cfg.x_offset)) from rfl,
        show rotate_point cfg.x_offset cfg.y_offset (strOf "right") =
          (cfg.y_offset, -cfg.x_offset) from rfl,
        show rotate_point cfg.x_offset cfg.length (strOf "right") =
          (cfg.length, -cfg.x_offset) from rfl]
      simp only [sub_eq_add_neg]
  · intro x y xo yo ln d hd
    fin_cases hd
    · rw [show rotate_point xo yo (strOf "down") = (xo, yo) from rfl,
        show rotate_point xo ln (strOf "down") = (xo, ln) from rfl]
      rfl
    · rw [show rotate_point xo yo (strOf "left") = (-yo, xo) from rfl,
        show rotate_point xo ln (strOf "left") = (-ln, xo) from rfl,
        show lt_match_node_keys x y xo yo ln (strOf "left") =
          some (node_key (x - yo) (y + xo), node_key (x - ln) (y + xo)) from rfl]
      simp only [sub_eq_add_neg]
    · rw [show rotate_point xo yo (strOf "up") = (-xo, -yo) from rfl,
        show rotate_point xo ln (strOf "up") = (-xo, -ln) from rfl,
        show lt_match_node_keys x y xo yo ln (strOf "up") =
          some (node_key (x - xo) (y - yo), node_key (x - xo) (y - ln)) from rfl]
      simp only [sub_eq_add_neg]
    · rw [show rotate_point xo yo (strOf "right") = (yo, -xo) from rfl,
        show rotate_point xo ln (strOf "right") = (ln, -xo) from rfl,
        show lt_match_node_keys x y xo yo ln (strOf "right") =
          some (node_key (x + yo) (y - xo), node_key (x + ln) (y - xo)) from rfl]
      simp only [sub_eq_add_neg]
  · intro nodes x y d
    rfl
  · intro x y
    exact ⟨rfl, rfl⟩

/-- **C2, witness.** The amended convention applied at a concrete
input: orientation `left` (a member of the four directions), origin
`(1, 2)`, offsets `(3, 4)` with length `5`. -/
theorem C2_rotation_convention_witness :
    (strOf "left") ∈ [strOf "down", strOf "left", strOf "up", strOf "right"] ∧
    twoTermPins 1 2 ⟨3, 4, 5⟩ (strOf "left") =
      ((1 + (rotate_point 3 4 (strOf "left")).1,
        2 + (rotate_point 3 4 (strOf "left")).2),
       (1 + (rotate_point 3 5 (strOf "left")).1,
        2 + (rotate_point 3 5 (strOf "left")).2)) :=
  ⟨by decide, C2_rotation_convention.2.1 1 2 ⟨3, 4, 5⟩ (strOf "left") (by decide)⟩

/-! ## C4 — wire classification and canonicalisation -/

/-- **C4** (confirmed). Wires are classified horizontal exactly when
`|dx| > |dy|` (so a tie classifies vertical); canonicalisation swaps the
endpoint roles of `up`/`left` wires so that only `right` and `down` are
ever emitted; and with direction hints enabled the statement has the
shape `W <n1> <n2>; <direction>`. -/
theorem C4_wire_rules :
    (∀ dx dy : Int,
      (|dx| > |dy| →
        wireDirection dx dy = (if dx > 0 then strOf "right" else strOf "left")) ∧
      (¬ |dx| > |dy| →
        wireDirection dx dy = (if dy > 0 then strOf "down" else strOf "up"))) ∧
    (∀ (n1 n2 : PyVal) (dx dy : Int),
      (wireCanon n1 n2 (wireDirection dx dy)).2.2 = strOf "right" ∨
      (wireCanon n1 n2 (wireDirection dx dy)).2.2 = strOf "down") ∧
    (∀ n1 n2 : PyVal,
      wireCanon n1 n2 (strOf "up") = (n2, n1, strOf "down") ∧
      wireCanon n1 n2 (strOf "left") = (n2, n1, strOf "right") ∧
      wireCanon n1 n2 (strOf "right") = (n1, n2, strOf "right") ∧
      wireCanon n1 n2 (strOf "down") = (n1, n2, strOf "down")) ∧
    (∀ (nodes : Dict) (opts : GenOpts) (st : GenState) (x1 y1 x2 y2 : Int),
      opts.include_directions = true →
      wire_to_netlist nodes opts st
        [Item.s (strOf "WIRE"), Item.i x1, Item.i y1, Item.i x2, Item.i y2] =
        .ok { st with netlist := st.netlist ++
          (strOf "W " ++
            (wireCanon (dgetD nodes (node_key x1 y1) (.str (strOf "?")))
              (dgetD nodes (node_key x2 y2) (.str (strOf "?")))
              (wireDirection (x2 - x1) (y2 - y1))).1.render ++ [' '] ++
            (wireCanon (dgetD nodes (node_key x1 y1) (.str (strOf "?")))
              (dgetD nodes (node_key x2 y2) (.str (strOf "?")))
              (wireDirection (x2 - x1) (y2 - y1))).2.1.render ++ strOf "; " ++
            (wireCanon (dgetD nodes (node_key x1 y1) (.str (strOf "?")))
              (dgetD nodes (node_key x2 y2) (.str (strOf "?")))
              (wireDirection (x2 - x1) (y2 - y1))).2.2 ++ ['\n']) }) := by
  refine ⟨?_, ?_, ?_, ?_⟩
  · intro dx dy
    constructor
    · intro h
      simp only [wireDirection, if_pos h]
    · intro h
      simp only [wireDirection, if_neg h]
  · intro n1 n2 dx dy
    by_cases h1 : |dx| > |dy|
    · by_cases h2 : dx > 0
      · left
        simp only [wireDirection, if_pos h1, if_pos h2]
        rfl
      · left
        simp only [wireDirection, if_pos h1, if_neg h2]
        rfl
    · by_cases h2 : dy > 0
      · right
        simp only [wireDirection, if_neg h1, if_pos h2]
        rfl
      · right
        simp only [wireDirection, if_neg h1, if_neg h2]
        rfl
  · intro n1 n2
    refine ⟨rfl, rfl, rfl, rfl⟩
  · intro nodes opts st x1 y1 x2 y2 hdir
    rcases opts with ⟨un, incl, mi, re, rn⟩
    have h2 : incl = true := hdir
    subst h2
    cases mi <;> rfl

/-- **C4, witness.** The emission shape at a concrete input: a wire from
`(0, 0)` to `(0, 100)` with directions enabled on an empty node map. -/
theorem C4_wire_rules_witness :
    ({ include_directions := true : GenOpts }).include_directions = true ∧
    wire_to_netlist [] { include_directions := true } { netlist := [] }
      [Item.s (strOf "WIRE"), Item.i 0, Item.i 0, Item.i 0, Item.i 100] =
      .ok { netlist := [] ++
        (strOf "W " ++
          (wireCanon (dgetD [] (node_key 0 0) (.str (strOf "?")))
            (dgetD [] (node_key 0 100) (.str (strOf "?")))
            (wireDirection (0 - 0) (100 - 0))).1.render ++ [' '] ++
          (wireCanon (dgetD [] (node_key 0 0) (.str (strOf "?")))
            (dgetD [] (node_key 0 100) (.str (strOf "?")))
            (wireDirection (0 - 0) (100 - 0))).2.1.render ++ strOf "; " ++
          (wireCanon (dgetD [] (node_key 0 0) (.str (strOf "?")))
            (dgetD [] (node_key 0 100) (.str (strOf "?")))
            (wireDirection (0 - 0) (100 - 0))).2.2 ++ ['\n']) } :=
  ⟨rfl, C4_wire_rules.2.2.2 [] { include_directions := true } { netlist := [] }
    0 0 0 100 rfl⟩

/-! ## C1 — ground unification -/

/-- **C1, counterexample.** A schematic whose ground flags occupy two
distinct coordinates, plus an IOPin: the claim says the bare token `0`
then never appears in the final netlist, but the port statement appended
after renumbering always uses the literal `0` as its second node
(`P1 3 0; down, v=out`), so the final text contains a bare ground
token. -/
theorem C1_counterexample :
    2 ≤ (groundLocations
      [[Item.s (strOf "WIRE"), .a (.i 0), .a (.i 0), .a (.i 0), .a (.i 100),
        Item.l [.s (strOf "FLAG"), .i 0, .i 100, .s (strOf "0")]],
       [Item.s (strOf "WIRE"), .a (.i 100), .a (.i 0), .a (.i 100), .a (.i 100),
        Item.l [.s (strOf "FLAG"), .i 100, .i 100, .s (strOf "0")]],
       [Item.s (strOf "WIRE"), .a (.i 200), .a (.i 0), .a (.i 200), .a (.i 100)],
       [Item.l [.s (strOf "FLAG"), .i 200, .i 0, .s (strOf "out")]],
       [Item.s (strOf "IOPIN"), Item.s (strOf "IOPIN"), .a (.i 200), .a (.i 0),
        .a (.s (strOf "BiDir"))]]).dedup.length ∧
    generate [] (fun _ => none)
      (make_nodes_from_wires
        [[Item.s (strOf "WIRE"), .a (.i 0), .a (.i 0), .a (.i 0), .a (.i 100),
          Item.l [.s (strOf "FLAG"), .i 0, .i 100, .s (strOf "0")]],
         [Item.s (strOf "WIRE"), .a (.i 100), .a (.i 0), .a (.i 100), .a (.i 100),
          Item.l [.s (strOf "FLAG"), .i 100, .i 100, .s (strOf "0")]],
         [Item.s (strOf "WIRE"), .a (.i 200), .a (.i 0), .a (.i 200), .a (.i 100)],
         [Item.l [.s (strOf "FLAG"), .i 200, .i 0, .s (strOf "out")]],
         [Item.s (strOf "IOPIN"), Item.s (strOf "IOPIN"), .a (.i 200), .a (.i 0),
          .a (.s (strOf "BiDir"))]])
      [[Item.s (strOf "WIRE"), .a (.i 0), .a (.i 0), .a (.i 0), .a (.i 100),
        Item.l [.s (strOf "FLAG"), .i 0, .i 100, .s (strOf "0")]],
       [Item.s (strOf "WIRE"), .a (.i 100), .a (.i 0), .a (.i 100), .a (.i 100),
        Item.l [.s (strOf "FLAG"), .i 100, .i 100, .s (strOf "0")]],
       [Item.s (strOf "WIRE"), .a (.i 200), .a (.i 0), .a (.i 200), .a (.i 100)],
       [Item.l [.s (strOf "FLAG"), .i 200, .i 0, .s (strOf "out")]],
       [Item.s (strOf "IOPIN"), Item.s (strOf "IOPIN"), .a (.i 200), .a (.i 0),
        .a (.s (strOf "BiDir"))]] {} =
      .ok (strOf "W 1 0_1; down\nW 2 0_2; down\nW 3 4; down\nP1 3 0; down, v=out\n",
        [(strOf "0000_0100", .str (strOf "0_1")),
         (strOf "0100_0100", .str (strOf "0_2")),
         (strOf "0200_0000", .int 3),
         (strOf "0000_0000", .int 1),
         (strOf "0100_0000", .int 2),
         (strOf "0200_0100", .int 4)]) ∧
    containsSub (strOf " 0;")
      (strOf "W 1 0_1; down\nW 2 0_2; down\nW 3 4; down\nP1 3 0; down, v=out\n") =
      true := by
  refine ⟨by decide, by decide, by decide⟩

/-- **C1 (amended).** At the node-map level built by
`make_nodes_from_wires`: with no ground flags every node value is an
integer ≥ 1 (no ground node); with all ground flags at one distinct
coordinate every value is an integer (`0_k` names never appear) and the
ground coordinate maps to `0` provided no non-ground flag shares its
key; with two or more distinct ground coordinates the value `0` never
appears, the ground map names the distinct ground locations `0_1`,
`0_2`, … in first-appearance order, and each unshadowed ground
coordinate maps to its `0_k` name. (The *final netlist* may still
contain a bare `0`: port statements append one after renumbering — see
the counterexample.) -/
theorem C1_grounds :
    (∀ pd : Parsed, groundLocations pd = [] →
      ∀ p ∈ make_nodes_from_wires pd, ∃ i : Int, p.2 = PyVal.int i ∧ 1 ≤ i) ∧
    (∀ pd : Parsed, (groundLocations pd).dedup.length ≤ 1 →
      ∀ p ∈ make_nodes_from_wires pd, ∃ i : Int, p.2 = PyVal.int i) ∧
    (∀ (pd : Parsed) (x y : Int), (groundLocations pd).dedup.length ≤ 1 →
      (x, y) ∈ groundLocations pd →
      (∀ f ∈ allFlags pd, node_key (atomInt f.1) (atomInt f.2.1) = node_key x y →
        atomIsGround f.2.2 = true) →
      dget (make_nodes_from_wires pd) (node_key x y) = some (PyVal.int 0)) ∧
    (∀ pd : Parsed, 2 ≤ (groundLocations pd).dedup.length →
      ∀ p ∈ make_nodes_from_wires pd, p.2 ≠ PyVal.int 0) ∧
    (∀ pd : Parsed, 2 ≤ (groundLocations pd).dedup.length →
      groundNameMap pd = gmapFrom 1 (dedupFirst (groundLocations pd))) ∧
    (∀ (pd : Parsed) (x y : Int), 2 ≤ (groundLocations pd).dedup.length →
      (x, y) ∈ groundLocations pd →
      (∀ f ∈ allFlags pd, node_key (atomInt f.1) (atomInt f.2.1) = node_key x y →
        atomIsGround f.2.2 = true ∧ (atomInt f.1, atomInt f.2.1) = (x, y)) →
      ∃ g, dget (make_nodes_from_wires pd) (node_key x y) = some (PyVal.str g) ∧
        ((groundNameMap pd).find? (fun q => q.1 = (x, y))).map
          (fun q => q.2) = some g) := by
  have hex : ∀ (pd : Parsed) (x y : Int), (x, y) ∈ groundLocations pd →
      ∃ f ∈ allFlags pd, node_key (atomInt f.1) (atomInt f.2.1) = node_key x y := by
    intro pd x y hmem
    rw [groundLocations_eq] at hmem
    obtain ⟨fl, hfl, hflg⟩ := List.mem_filterMap.mp hmem
    by_cases hgr : atomIsGround fl.2.2
    · rw [if_pos hgr] at hflg
      injection hflg with hflg
      refine ⟨fl, hfl, ?_⟩
      have h1 : atomInt fl.1 = x := congrArg Prod.fst hflg
      have h2 : atomInt fl.2.1 = y := congrArg Prod.snd hflg
      rw [h1, h2]
    · rw [if_neg hgr] at hflg
      cases hflg
  refine ⟨?_, ?_, ?_, ?_, groundNameMap_eq, ?_⟩
  · intro pd hnil
    apply make_nodes_values pd (fun v => ∃ i : Int, v = PyVal.int i ∧ 1 ≤ i)
      (fun i hi => ⟨i, rfl, hi⟩)
    intro f hf hgr
    rw [groundLocations_eq] at hnil
    have := List.filterMap_eq_nil_iff.mp hnil f hf
    rw [if_pos hgr] at this
    cases this
  · intro pd hs
    apply make_nodes_values pd (fun v => ∃ i : Int, v = PyVal.int i)
      (fun i _ => ⟨i, rfl⟩)
    intro f _ _
    refine ⟨fun _ => ⟨0, rfl⟩, fun hdec _ => ?_⟩
    rw [decide_eq_false_iff_not] at hdec
    exact absurd hs hdec
  · intro pd x y hs hmem hsh
    simp only [make_nodes_from_wires]
    rw [show decide ((groundLocations pd).dedup.length ≤ 1) = true from by
      simpa using hs]
    refine foldl_inv_mem
      (P := fun d : Dict => dget d (node_key x y) = some (PyVal.int 0))
      (f := wireStep) pd _ (fun d line _ h => dget_wireStep_pres h) ?_
    rw [flagsFold_eq]
    exact flags_fold_ground0 (node_key x y) (allFlags pd) ⟨[], [], 1⟩ hsh
      (Or.inl rfl) (hex pd x y hmem)
  · intro pd hs
    apply make_nodes_values pd (fun v => v ≠ PyVal.int 0)
      (fun i hi h => by injection h with h; omega)
    intro f _ _
    refine ⟨fun hdec => ?_, fun _ g h => by cases h⟩
    rw [decide_eq_true_eq] at hdec
    omega
  · intro pd x y hs hmem hsh
    have hdec : decide ((groundLocations pd).dedup.length ≤ 1) = false := by
      simp
      omega
    obtain ⟨g, hn, hm⟩ := flags_fold_groundname (node_key x y) (x, y)
      (allFlags pd) ⟨[], [], 1⟩ hsh (Or.inl rfl) (hex pd x y hmem)
    refine ⟨g, ?_, ?_⟩
    · simp only [make_nodes_from_wires]
      rw [hdec]
      refine foldl_inv_mem
        (P := fun d : Dict => dget d (node_key x y) = some (PyVal.str g))
        (f := wireStep) pd _ (fun d line _ h => dget_wireStep_pres h) ?_
      rw [flagsFold_eq]
      exact hn
    · unfold groundNameMap
      rw [hdec, flagsFold_eq]
      exact hm

/-- **C1, witness.** The single-ground part of the amended theorem on a
one-flag schematic. -/
theorem C1_grounds_witness :
    (groundLocations [[Item.l [.s (strOf "FLAG"), .i 0, .i 0,
      .s (strOf "0")]]]).dedup.length ≤ 1 ∧
    dget (make_nodes_from_wires
      [[Item.l [.s (strOf "FLAG"), .i 0, .i 0, .s (strOf "0")]]])
      (node_key 0 0) = some (PyVal.int 0) :=
  ⟨by decide, C1_grounds.2.2.1
    [[Item.l [.s (strOf "FLAG"), .i 0, .i 0, .s (strOf "0")]]] 0 0
    (by decide) (by decide) (by decide)⟩

/-! ## C8 — the "?" sentinel for unmatched terminals -/

/-- **C8, counterexample.** With the default options, the renumbering
pass renames the `?` sentinel like any other node token: generating from
a resistor whose terminals were never visited by a wire or flag
*succeeds* and produces `R1 1 1 1000.0; down` — the final text contains
no `?` at all, even though the pre-renumbering emission was
`R1 ? ? 1000.0; down`. The sentinel is not detectable in the default
output. -/
theorem C8_counterexample :
    generate [] (fun _ => none) []
        [[Item.l [Atom.s (strOf "SYMBOL"), Atom.s (strOf "res"),
            Atom.i 0, Atom.i 0, Atom.s (strOf "R0")],
          Item.l [Atom.s (strOf "SYMATTR"), Atom.s (strOf "InstName"),
            Atom.s (strOf " R1")],
          Item.l [Atom.s (strOf "SYMATTR"), Atom.s (strOf "Value"),
            Atom.s (strOf " 1000")]]] {} =
      .ok (strOf "R1 1 1 1000.0; down\n", []) ∧
    ('?' ∉ strOf "R1 1 1 1000.0; down\n") ∧
    symbol_to_netlist [] (fun _ => none) [] {} { netlist := [] }
        [Item.l [Atom.s (strOf "SYMBOL"), Atom.s (strOf "res"),
            Atom.i 0, Atom.i 0, Atom.s (strOf "R0")],
          Item.l [Atom.s (strOf "SYMATTR"), Atom.s (strOf "InstName"),
            Atom.s (strOf " R1")],
          Item.l [Atom.s (strOf "SYMATTR"), Atom.s (strOf "Value"),
            Atom.s (strOf " 1000")]] =
      .ok { netlist := strOf "R1 ? ? 1000.0; down\n" } := by
  refine ⟨by decide, by decide, by decide⟩

/-- **C8 (amended).** An unmatched terminal coordinate resolves to the
sentinel `?` (both on the configured-offsets path and on the fallback
path), and emission completes without error with `?` in the statement;
but the sentinel survives into the final text only when the renumbering
pass is disabled — with default options it is renamed to an ordinary
node number (see the counterexample). -/
theorem C8_sentinel :
    (∀ (tbl : TwoTermTable) (nodes : Dict) (x y : Int) (kind direction : Str)
        (cfg : TwoTermCfg),
      kind ≠ strOf "Opamps/UniversalOpamp2" → kind ≠ strOf "opamp" →
      matchNodeConfig tbl kind = some cfg →
      dget nodes (node_key (twoTermPins x y cfg direction).1.1
        (twoTermPins x y cfg direction).1.2) = none →
      pinGet (match_node tbl nodes x y kind direction) (strOf "n1") =
        .str (strOf "?")) ∧
    (∀ (tbl : TwoTermTable) (nodes : Dict) (x y : Int) (kind direction : Str),
      kind ≠ strOf "Opamps/UniversalOpamp2" → kind ≠ strOf "opamp" →
      matchNodeConfig tbl kind = none →
      dget nodes (node_key x y) = none →
      pinGet (match_node tbl nodes x y kind direction) (strOf "n1") =
        .str (strOf "?")) ∧
    ('?' ∈ strOf "R1 ? ? 1000.0; down\n") ∧
    (generate [] (fun _ => none) []
        [[Item.l [Atom.s (strOf "SYMBOL"), Atom.s (strOf "res"),
            Atom.i 0, Atom.i 0, Atom.s (strOf "R0")],
          Item.l [Atom.s (strOf "SYMATTR"), Atom.s (strOf "InstName"),
            Atom.s (strOf " R1")],
          Item.l [Atom.s (strOf "SYMATTR"), Atom.s (strOf "Value"),
            Atom.s (strOf " 1000")]]] { renumber := false } =
      .ok (strOf "R1 ? ? 1000.0; down\n", [])) := by
  refine ⟨?_, ?_, by decide, by decide⟩
  · intro tbl nodes x y kind direction cfg h1 h2 hcfg hn
    simp only [match_node, if_neg h1, if_neg h2, hcfg, dgetD, hn]
    rfl
  · intro tbl nodes x y kind direction h1 h2 hcfg hn
    simp only [match_node, if_neg h1, if_neg h2, hcfg, dgetD, hn]
    rfl

/-- **C8, witness.** The fallback part of the amended theorem for a
`diode` at (5, 7) with an empty node map. -/
theorem C8_sentinel_witness :
    matchNodeConfig [] (strOf "diode") = none ∧
    pinGet (match_node [] [] 5 7 (strOf "diode") (strOf "down")) (strOf "n1") =
      .str (strOf "?") :=
  ⟨by decide, C8_sentinel.2.1 [] [] 5 7 (strOf "diode") (strOf "down")
    (by decide) (by decide) (by decide) (by decide)⟩

/-! ## C9 — IOPin ports -/

/-- **C9, counterexample.** The claim says a missing node is injected
*rather than the emission failing*; but when the node dict is non-empty
yet contains no positive integer node id (e.g. only the ground node `0`),
`ensure_iopin_nodes` evaluates `max()` over an empty generator and raises
`ValueError`, and `generate` propagates the failure. -/
theorem C9_counterexample :
    ensure_iopin_nodes
        [[Item.s (strOf "IOPIN"), Item.s (strOf "IOPIN"),
          Item.a (.i 10), Item.a (.i 10), Item.a (.s (strOf "BiDir"))]]
        [(strOf "0000_0000", PyVal.int 0)] =
      .error (strOf "ValueError: max() arg is an empty sequence") ∧
    generate [] (fun _ => none) [(strOf "0000_0000", PyVal.int 0)]
        [[Item.s (strOf "IOPIN"), Item.s (strOf "IOPIN"),
          Item.a (.i 10), Item.a (.i 10), Item.a (.s (strOf "BiDir"))]]
        {} =
      .error (strOf "ValueError: max() arg is an empty sequence") := by
  constructor
  · decide
  · decide

/-- **C9 (amended).** Ports are emitted as `P<k> <node> 0; down,
v=<label>` with `k` the 1-based file-order index; a missing co-located
flag yields the synthesized `PORT_<x>_<y>` label plus a warning; a
missing node is injected by `ensure_iopin_nodes` as 1 on an empty dict
and as one past the largest positive integer node id otherwise —
*provided* such an id exists (the non-empty/no-positive-id case raises
`ValueError` instead, see the counterexample). -/
theorem C9_ports :
    (∀ (x y : Int) (d lab : Atom) (flags : List ((Int × Int) × Atom))
        (nodes : Dict) (v : PyVal),
      (flags.find? (fun p => p.1 = (x, y))).map (fun p => p.2) = some lab →
      dget nodes (node_key x y) = some v →
      generate_port_definitions [(x, y, d)] flags nodes false =
        ([strOf "P" ++ natStr 1 ++ [' '] ++ v.render ++ strOf " 0; down, v=" ++
          atomRender lab], [])) ∧
    (∀ (x y : Int) (d : Atom) (flags : List ((Int × Int) × Atom))
        (nodes : Dict) (v : PyVal),
      (flags.find? (fun p => p.1 = (x, y))).map (fun p => p.2) = none →
      dget nodes (node_key x y) = some v →
      generate_port_definitions [(x, y, d)] flags nodes false =
        ([strOf "P" ++ natStr 1 ++ [' '] ++ v.render ++ strOf " 0; down, v=" ++
          (strOf "PORT_" ++ intStr x ++ ['_'] ++ intStr y)],
         [strOf "IOPIN has no matching FLAG"])) ∧
    (∀ (pd : Parsed) (nodes : Dict) (x y : Int) (d : Atom),
      (extract_iopins_and_flags pd).1 = [(x, y, d)] →
      (dget nodes (node_key x y)).isSome →
      ensure_iopin_nodes pd nodes = .ok (nodes, 0, [])) ∧
    (∀ (pd : Parsed) (x y : Int) (d : Atom),
      (extract_iopins_and_flags pd).1 = [(x, y, d)] →
      ensure_iopin_nodes pd [] =
        .ok ([(node_key x y, PyVal.int 1)], 1,
          [strOf "Added node at IOPIN coordinate"])) ∧
    (∀ (pd : Parsed) (nodes : Dict) (x y : Int) (d : Atom) (p : Int) (ps : List Int),
      (extract_iopins_and_flags pd).1 = [(x, y, d)] →
      dget nodes (node_key x y) = none →
      nodes ≠ [] →
      (dvalues nodes).filterMap (fun v => match v with
        | PyVal.int i => if 0 < i then some i else none
        | PyVal.str _ => none) = p :: ps →
      ∃ k, ensure_iopin_nodes pd nodes =
          .ok (dappend nodes (node_key x y) (PyVal.int k), 1,
            [strOf "Added node at IOPIN coordinate"]) ∧
        ∀ i ∈ p :: ps, i < k) ∧
    (generate_port_definitions
        [(0, 0, .s (strOf "Bi")), (200, 0, .s (strOf "Bi"))]
        [((0, 0), .s (strOf "A")), ((200, 0), .s (strOf "B"))]
        [(strOf "0000_0000", .int 1), (strOf "0200_0000", .int 2)] false =
      ([strOf "P1 1 0; down, v=A", strOf "P2 2 0; down, v=B"], [])) := by
  refine ⟨?_, ?_, ?_, ?_, ?_, by decide⟩
  · intro x y d lab flags nodes v hf hn
    simp only [generate_port_definitions, List.enum, List.enumFrom, List.map,
      List.foldl, hf, hn]
    simp
  · intro x y d flags nodes v hf hn
    simp only [generate_port_definitions, List.enum, List.enumFrom, List.map,
      List.foldl, hf, hn]
    simp
  · intro pd nodes x y d hext hsome
    simp only [ensure_iopin_nodes, hext, List.foldlM]
    rw [if_pos hsome]
    rfl
  · intro pd x y d hext
    simp only [ensure_iopin_nodes, hext, List.foldlM]
    rfl
  · intro pd nodes x y d p ps hext hn hne hpos
    refine ⟨ps.foldl max p + 1, ?_, ?_⟩
    · simp only [ensure_iopin_nodes, hext, List.foldlM]
      rw [show (dget nodes (node_key x y)).isSome = false from by rw [hn]; rfl]
      rw [if_neg (by simp)]
      rw [if_pos hne]
      rw [hpos]
      rfl
    · intro i hi
      have := le_foldl_max ps p i hi
      omega

/-- **C9, witness.** The port-format part of the amended theorem at a
concrete IOPin with a co-located flag. -/
theorem C9_ports_witness :
    (([((0, 0), Atom.s (strOf "A"))] : List ((Int × Int) × Atom)).find?
        (fun p => p.1 = ((0 : Int), (0 : Int)))).map (fun p => p.2) =
      some (Atom.s (strOf "A")) ∧
    generate_port_definitions [(0, 0, Atom.s (strOf "Bi"))]
        [((0, 0), Atom.s (strOf "A"))]
        [(strOf "0000_0000", PyVal.int 7)] false =
      ([strOf "P" ++ natStr 1 ++ [' '] ++ (PyVal.int 7).render ++
        strOf " 0; down, v=" ++ atomRender (Atom.s (strOf "A"))], []) :=
  ⟨by decide, C9_ports.1 0 0 (Atom.s (strOf "Bi")) (Atom.s (strOf "A"))
    [((0, 0), Atom.s (strOf "A"))] [(strOf "0000_0000", PyVal.int 7)]
    (PyVal.int 7) (by decide) (by decide)⟩

/-! ## C5 — the Reorient pass -/

/-- **C5, counterexample.** The claim says *every* two-terminal statement
with trailing direction `left`/`up` has its nodes swapped and its
direction flipped; but `reorient_rlc` only does this for statements whose
name starts with `W`, `R`, `L` or `C`. A voltage source — a two-terminal
statement — annotated `; up` passes through unchanged, its nodes
unswapped and its direction still `up`. -/
theorem C5_counterexample :
    reorient_rlc (strOf "V1 1 2 5; up\n") = strOf "V1 1 2 5; up\n" ∧
    reorient_rlc (strOf "V1 1 2 5; up\n") ≠ strOf "V1 2 1 5; down\n" := by
  constructor
  · decide
  · decide

/-- **C5 (amended).** For every statement whose *name starts with `W`,
`R`, `L` or `C`* (not every two-terminal statement) and whose two node
fields and value field are well-formed tokens, the per-line body of the
Reorient pass swaps the two node fields and flips `left` to `right` and
`up` to `down`; any line whose post-`;` text does not strip to
`left`/`up` — in particular one already annotated `right`/`down` — and
any line whose leading token does not start with `W`/`R`/`L`/`C` is left
unchanged; and the whole pass `reorient_rlc` is idempotent on every
input string. -/
theorem C5_reorient :
    (∀ nm n1 n2 v : Str, wfTok nm → wfTok n1 → wfTok n2 → wfTok v →
      (nm.head? = some 'W' ∨ nm.head? = some 'R' ∨
        nm.head? = some 'L' ∨ nm.head? = some 'C') →
      reorientLine
          (nm ++ (' ' :: (n1 ++ (' ' :: (n2 ++ (' ' :: (v ++ (';' :: (' ' :: strOf "left")))))))))
        = nm ++ (' ' :: (n2 ++ (' ' :: (n1 ++ (' ' :: (v ++ (';' :: (' ' :: strOf "right")))))))) ∧
      reorientLine
          (nm ++ (' ' :: (n1 ++ (' ' :: (n2 ++ (' ' :: (v ++ (';' :: (' ' :: strOf "up")))))))))
        = nm ++ (' ' :: (n2 ++ (' ' :: (n1 ++ (' ' :: (v ++ (';' :: (' ' :: strOf "down"))))))))) ∧
    (∀ x : Str, (∀ r, (splitFirst ';' x).2 = some r →
        pyStrip r ≠ strOf "left" ∧ pyStrip r ≠ strOf "up") → reorientLine x = x) ∧
    (∀ x : Str, ¬ (((pySplit x).headD []).head? = some 'W' ∨
        ((pySplit x).headD []).head? = some 'R' ∨
        ((pySplit x).headD []).head? = some 'L' ∨
        ((pySplit x).headD []).head? = some 'C') → reorientLine x = x) ∧
    (∀ s : Str, reorient_rlc (reorient_rlc s) = reorient_rlc s) := by
  refine ⟨?_, reorientLine_fixed_of_dir, reorientLine_fixed_of_not_rlc, reorient_rlc_idem⟩
  intro nm n1 n2 v hnm h1 h2 hv hrlc
  exact ⟨reorientLine_swap nm n1 n2 v _ _ hnm h1 h2 hv (Or.inl ⟨rfl, rfl⟩) hrlc,
    reorientLine_swap nm n1 n2 v _ _ hnm h1 h2 hv (Or.inr ⟨rfl, rfl⟩) hrlc⟩

/-- **C5, witness.** The amended theorem applied to the concrete
resistor statement `R1 1 2 5; left`. -/
theorem C5_reorient_witness :
    wfTok (strOf "R1") ∧
    reorientLine (strOf "R1 1 2 5; left") = strOf "R1 2 1 5; right" := by
  constructor
  · constructor
    · decide
    · decide
  · have h := (C5_reorient.1 (strOf "R1") (strOf "1") (strOf "2") (strOf "5")
      ⟨by decide, by decide⟩ ⟨by decide, by decide⟩ ⟨by decide, by decide⟩
      ⟨by decide, by decide⟩ (Or.inr (Or.inl (by decide)))).1
    rw [show strOf "R1 1 2 5; left" =
      strOf "R1" ++ (' ' :: (strOf "1" ++ (' ' :: (strOf "2" ++
        (' ' :: (strOf "5" ++ (';' :: (' ' :: strOf "left")))))))) from by decide]
    rw [h]
    decide

/-! ## C7 — source values: AC precedence, SINE defaults, unit stripping -/

/-- **C7** (confirmed). For sources: a `Value2 = "AC <amp>"` attribute
takes precedence (whatever the `Value` is, including a `SINE(...)`
literal); an AC amplitude from either path is emitted as `ac <amp>` with
exactly six decimal digits (`%.6f`); `SINE` sub-parameters omitted from
the right default in order dc = 0, amplitude = 1, freq = 0; and a
trailing `V`/`A` unit is stripped before numeric parsing for sources
specifically — a resistor statement keeps such a value verbatim (shown
by the closing pair: the same `Value " SINE(0 5)V"` stays un-stripped,
unparsed text in a resistor statement but is stripped and emitted as
`ac 5.000000` in a voltage-source statement). -/
theorem C7_source_values :
    (∀ (value t : Str) (a : Dec), pyFloat t = some a → t ≠ [] →
      (∀ c ∈ t, isWs c = false) →
      sourceValueText value (strOf "AC " ++ t) = .ok (strOf "ac " ++ format6f a)) ∧
    (∀ a b c : Nat,
      ltspice_sine_parse (strOf "SINE()") = .ok (⟨0, 0⟩, ⟨1, 0⟩, ⟨0, 0⟩) ∧
      ltspice_sine_parse (strOf "SINE(" ++ (natStr a ++ strOf ")")) =
        .ok (⟨(a : Int), 0⟩, ⟨1, 0⟩, ⟨0, 0⟩) ∧
      ltspice_sine_parse
          (strOf "SINE(" ++ (natStr a ++ (' ' :: (natStr b ++ strOf ")")))) =
        .ok (⟨(a : Int), 0⟩, ⟨(b : Int), 0⟩, ⟨0, 0⟩) ∧
      ltspice_sine_parse
          (strOf "SINE(" ++
            (natStr a ++ (' ' :: (natStr b ++ (' ' :: (natStr c ++ strOf ")")))))) =
        .ok (⟨(a : Int), 0⟩, ⟨(b : Int), 0⟩, ⟨(c : Int), 0⟩)) ∧
    (∀ (value : Str) (dc amp om : Dec),
      isPre (strOf "SINE(") (pyUpper value) = true →
      ltspice_sine_parse value = .ok (dc, amp, om) →
      sourceValueText value [] = .ok (strOf "ac " ++ format6f amp)) ∧
    (∀ d : Dec, ∃ ip fp, format6f d = ip ++ ['.'] ++ fp ∧ fp.length = 6 ∧
      ∀ ch ∈ fp, ch.isDigit = true) ∧
    (∀ v : Str, sourceUnitStrip (v ++ ['V']) = v ∧ sourceUnitStrip (v ++ ['A']) = v) ∧
    (symbol_to_netlist [] (fun _ => none) [] {} { netlist := [] }
        [Item.l [.s (strOf "SYMBOL"), .s (strOf "res"), .i 0, .i 0, .s (strOf "R0")],
         Item.l [.s (strOf "SYMATTR"), .s (strOf "InstName"), .s (strOf " R1")],
         Item.l [.s (strOf "SYMATTR"), .s (strOf "Value"), .s (strOf " SINE(0 5)V")]] =
        .ok { netlist := strOf "R1 ? ? SINE(0 5)V; down\n" } ∧
      symbol_to_netlist [] (fun _ => none) [] {} { netlist := [] }
        [Item.l [.s (strOf "SYMBOL"), .s (strOf "voltage"), .i 0, .i 0, .s (strOf "R0")],
         Item.l [.s (strOf "SYMATTR"), .s (strOf "InstName"), .s (strOf " V1")],
         Item.l [.s (strOf "SYMATTR"), .s (strOf "Value"), .s (strOf " SINE(0 5)V")]] =
        .ok { netlist := strOf "V1 ? ? ac 5.000000; down\n" }) := by
  refine ⟨?_, ?_, ?_, format6f_shape, ?_, by decide⟩
  · intro value t a hf ht hw
    have hsplit : pySplit (strOf "AC " ++ t) = [strOf "AC", t] := by
      rw [show strOf "AC " ++ t = strOf "AC" ++ (' ' :: t) from rfl]
      rw [pySplit_token (strOf "AC") (' ' :: t) (by decide) (by decide)
        (fun c hc => by simp at hc; rw [← hc]; decide)]
      rw [pySplit_cons_ws ' ' t (by decide), pySplit_single t ht hw]
    have hX : (if strOf "AC " ++ t ≠ [] then
        (if pyLower (strOf "AC") = strOf "ac" then pyFloat t else none)
        else none) = some a := by
      have hne : strOf "AC " ++ t ≠ [] := fun h =>
        List.noConfusion (show ('A' :: (strOf "C " ++ t)) = ([] : Str) from h)
      rw [if_pos hne,
        if_pos (by decide : pyLower (strOf "AC") = strOf "ac"), hf]
    simp only [sourceValueText, hsplit, hX]
    rfl
  · intro a b c
    refine ⟨by decide, ?_, ?_, ?_⟩
    · have h1 : ppNumber (natStr a ++ strOf ")") = some (⟨(a : Int), 0⟩, strOf ")") :=
        ppNumber_natStr a (strOf ")") (head_stop ')' [] (by decide) (by decide))
      have h2 : ppNumber (strOf ")") = none := by decide
      show sineArgs (natStr a ++ strOf ")") =
        .ok (⟨(a : Int), 0⟩, ⟨1, 0⟩, ⟨0, 0⟩)
      simp only [sineArgs, h1, h2]
      rfl
    · have h1 : ppNumber (natStr a ++ (' ' :: (natStr b ++ strOf ")"))) =
          some (⟨(a : Int), 0⟩, ' ' :: (natStr b ++ strOf ")")) :=
        ppNumber_natStr a _ (head_stop ' ' _ (by decide) (by decide))
      have h2 : ppNumber (' ' :: (natStr b ++ strOf ")")) =
          ppNumber (natStr b ++ strOf ")") := ppNumber_cons_ws _ _ (by decide)
      have h3 : ppNumber (natStr b ++ strOf ")") = some (⟨(b : Int), 0⟩, strOf ")") :=
        ppNumber_natStr b (strOf ")") (head_stop ')' [] (by decide) (by decide))
      have h4 : ppNumber (strOf ")") = none := by decide
      show sineArgs (natStr a ++ (' ' :: (natStr b ++ strOf ")"))) =
        .ok (⟨(a : Int), 0⟩, ⟨(b : Int), 0⟩, ⟨0, 0⟩)
      simp only [sineArgs, h1, h2, h3, h4]
      rfl
    · have h1 : ppNumber
          (natStr a ++ (' ' :: (natStr b ++ (' ' :: (natStr c ++ strOf ")"))))) =
          some (⟨(a : Int), 0⟩, ' ' :: (natStr b ++ (' ' :: (natStr c ++ strOf ")")))) :=
        ppNumber_natStr a _ (head_stop ' ' _ (by decide) (by decide))
      have h2 : ppNumber (' ' :: (natStr b ++ (' ' :: (natStr c ++ strOf ")")))) =
          ppNumber (natStr b ++ (' ' :: (natStr c ++ strOf ")"))) :=
        ppNumber_cons_ws _ _ (by decide)
      have h3 : ppNumber (natStr b ++ (' ' :: (natStr c ++ strOf ")"))) =
          some (⟨(b : Int), 0⟩, ' ' :: (natStr c ++ strOf ")")) :=
        ppNumber_natStr b _ (head_stop ' ' _ (by decide) (by decide))
      have h4 : ppNumber (' ' :: (natStr c ++ strOf ")")) =
          ppNumber (natStr c ++ strOf ")") := ppNumber_cons_ws _ _ (by decide)
      have h5 : ppNumber (natStr c ++ strOf ")") = some (⟨(c : Int), 0⟩, strOf ")") :=
        ppNumber_natStr c (strOf ")") (head_stop ')' [] (by decide) (by decide))
      have h6 : ppNumber (strOf ")") = none := by decide
      show sineArgs
          (natStr a ++ (' ' :: (natStr b ++ (' ' :: (natStr c ++ strOf ")"))))) =
        .ok (⟨(a : Int), 0⟩, ⟨(b : Int), 0⟩, ⟨(c : Int), 0⟩)
      simp only [sineArgs, h1, h2, h3, h4, h5, h6]
      rfl
  · intro value dc amp om hpre hsine
    simp only [sourceValueText]
    rw [if_neg (show ¬ (([] : Str) ≠ []) from fun h => h rfl)]
    rw [dif_neg (show ¬ ((none : Option Dec).isSome = true) from by simp)]
    rw [if_pos hpre, hsine]
  · intro v
    constructor
    · have h1 : (v ++ ['V']).getLast? = some 'V' := by simp
      simp [sourceUnitStrip, h1]
    · have h1 : (v ++ ['A']).getLast? = some 'A' := by simp
      simp [sourceUnitStrip, h1]

/-- **C7, witness.** The AC-attribute path at a concrete input:
`Value2 = "AC 5"` with an arbitrary `Value`. -/
theorem C7_source_values_witness :
    pyFloat (strOf "5") = some ⟨5, 0⟩ ∧
    sourceValueText (strOf "10") (strOf "AC " ++ strOf "5") =
      .ok (strOf "ac " ++ format6f ⟨5, 0⟩) :=
  ⟨by decide, C7_source_values.1 (strOf "10") (strOf "5") ⟨5, 0⟩ (by decide)
    (by decide) (by decide)⟩

/-! ## C6 — value-parser equations -/

/-- **C6, counterexample.** The claim states `parse_value("2M") == 2.0`
(capital `M` not interpreted as a multiplier); in fact the suffix is
matched case-insensitively, so `"2M"` parses as 2 milli = `0.002`, not
`2.0`. -/
theorem C6_counterexample :
    (parse_prefixed_value (strOf "2M")).map Dec.toRat = some (1 / 500) ∧
    ¬ ((1 : ℚ) / 500 = 2) := by
  constructor
  · rw [show parse_prefixed_value (strOf "2M") = some ⟨2, -3⟩ from by decide]
    simp only [Option.map, Option.some.injEq, Dec.toRat]
    norm_num
  · norm_num

/-- **C6, amended.** The value-parser equations with the capital-`M`
case corrected: `4.7meg` parses to 4.7e6; `3µ` and `3u` both parse to
3e-6; and `2M` parses — case-insensitively, like `2m` — to 2e-3, in both
the strict parser (`_parse_prefixed_value`) and the legacy
`ltspice_value_to_number`. -/
theorem C6_value_equations :
    (parse_prefixed_value (strOf "4.7meg")).map Dec.toRat = some 4700000 ∧
    (parse_prefixed_value (strOf "3µ")).map Dec.toRat = some (3 / 1000000) ∧
    (parse_prefixed_value (strOf "3u")).map Dec.toRat = some (3 / 1000000) ∧
    (parse_prefixed_value (strOf "2M")).map Dec.toRat = some (1 / 500) ∧
    (parse_prefixed_value (strOf "2m")).map Dec.toRat = some (1 / 500) ∧
    LtVal.ratValue (ltspice_value_to_number (strOf "4.7meg")) = some 4700000 ∧
    LtVal.ratValue (ltspice_value_to_number (strOf "3µ")) = some (3 / 1000000) ∧
    LtVal.ratValue (ltspice_value_to_number (strOf "3u")) = some (3 / 1000000) ∧
    LtVal.ratValue (ltspice_value_to_number (strOf "2M")) = some (1 / 500) ∧
    LtVal.ratValue (ltspice_value_to_number (strOf "2m")) = some (1 / 500) := by
  refine ⟨?_, ?_, ?_, ?_, ?_, ?_, ?_, ?_, ?_, ?_⟩
  · rw [show parse_prefixed_value (strOf "4.7meg") = some ⟨47, 5⟩ from by decide]
    simp only [Option.map, Option.some.injEq, Dec.toRat]
    norm_num
  · rw [show parse_prefixed_value (strOf "3µ") = some ⟨3, -6⟩ from by decide]
    simp only [Option.map, Option.some.injEq, Dec.toRat]
    norm_num
  · rw [show parse_prefixed_value (strOf "3u") = some ⟨3, -6⟩ from by decide]
    simp only [Option.map, Option.some.injEq, Dec.toRat]
    norm_num
  · rw [show parse_prefixed_value (strOf "2M") = some ⟨2, -3⟩ from by decide]
    simp only [Option.map, Option.some.injEq, Dec.toRat]
    norm_num
  · rw [show parse_prefixed_value (strOf "2m") = some ⟨2, -3⟩ from by decide]
    simp only [Option.map, Option.some.injEq, Dec.toRat]
    norm_num
  · rw [show ltspice_value_to_number (strOf "4.7meg") = .num ⟨47, 5⟩ from by decide]
    simp only [LtVal.ratValue, Option.some.injEq, Dec.toRat]
    norm_num
  · rw [show ltspice_value_to_number (strOf "3µ") = .num ⟨3, -6⟩ from by decide]
    simp only [LtVal.ratValue, Option.some.injEq, Dec.toRat]
    norm_num
  · rw [show ltspice_value_to_number (strOf "3u") = .num ⟨3, -6⟩ from by decide]
    simp only [LtVal.ratValue, Option.some.injEq, Dec.toRat]
    norm_num
  · rw [show ltspice_value_to_number (strOf "2M") = .num ⟨2, -3⟩ from by decide]
    simp only [LtVal.ratValue, Option.some.injEq, Dec.toRat]
    norm_num
  · rw [show ltspice_value_to_number (strOf "2m") = .num ⟨2, -3⟩ from by decide]
    simp only [LtVal.ratValue, Option.some.injEq, Dec.toRat]
    norm_num

/-! ### Renumbering-pass analysis: scan lists, substitution, loop shape -/

theorem head?_eq_get0 {α : Type} (l : List α) : l.head? = l.get? 0 := by
  cases l <;> rfl

theorem headD_nil_eq_get0 (l : List Str) : l.headD [] = (l.get? 0).getD [] := by
  cases l <;> rfl

theorem pyRstrip_append_ne (c a : Char) (s : Str) (h : ¬ a = c) :
    pyRstrip c (s ++ [a]) = s ++ [a] := by
  simp [pyRstrip, List.dropWhile_cons, h]

theorem pyRstrip_append_same (c : Char) (s : Str) :
    pyRstrip c (s ++ [c]) = pyRstrip c s := by
  simp [pyRstrip, List.dropWhile_cons]

theorem mem_pyRstrip_of_ne {a c : Char} {s : Str} (hm : a ∈ s) (h : ¬ a = c) :
    a ∈ pyRstrip c s := by
  unfold pyRstrip
  rw [List.mem_reverse]
  have hrev : a ∈ s.reverse := List.mem_reverse.mpr hm
  rw [← List.takeWhile_append_dropWhile (p := fun x => decide (x = c))
    (l := s.reverse)] at hrev
  rcases List.mem_append.mp hrev with h1 | h1
  · have := List.mem_takeWhile_imp h1
    simp at this
    exact absurd this h
  · exact h1

theorem rnFindLine_eq (sg : Bool) (line : Str) :
    rnFindLine sg line = (rnScanLine sg line).head? := by
  simp only [rnFindLine, rnScanLine]
  by_cases h1 : pyStrip line = []
  · rw [if_pos h1, if_pos h1]
    rfl
  · rw [if_neg h1, if_neg h1]
    by_cases h2 : (pySplit line).length < 3
    · rw [if_pos h2, if_pos h2]
      rfl
    · rw [if_neg h2, if_neg h2]

theorem head?_flatten_map {α β : Type} (f : α → List β) : ∀ (l : List α),
    ((l.map f).flatten).head? = (l.filterMap (fun a => (f a).head?)).head? := by
  intro l
  induction l with
  | nil => rfl
  | cons a t ih =>
    cases hfa : f a with
    | nil =>
      rw [List.map_cons, List.flatten_cons, hfa, List.nil_append,
        List.filterMap_cons_none (by rw [hfa]; rfl)]
      exact ih
    | cons b t2 =>
      rw [List.map_cons, List.flatten_cons, hfa,
        List.filterMap_cons_some (by rw [hfa]; rfl)]
      rfl

theorem rnFind_eq (sg : Bool) (s : Str) :
    rnFind sg s = (rnScan sg s).head? := by
  unfold rnFind rnScan
  rw [head?_flatten_map]
  rw [show (fun a => (rnScanLine sg a).head?) = rnFindLine sg from
    funext (fun l => (rnFindLine_eq sg l).symm)]

theorem pySplit_joinChar : ∀ (toks : List Str),
    (∀ t ∈ toks, t ≠ [] ∧ ∀ c ∈ t, isWs c = false) →
    pySplit (joinChar ' ' toks) = toks := by
  intro toks
  induction toks with
  | nil =>
    intro _
    rw [joinChar_nil]
    rfl
  | cons a t ih =>
    intro h
    cases t with
    | nil =>
      rw [joinChar_one]
      exact pySplit_single a (h a (by simp)).1 (h a (by simp)).2
    | cons b t2 =>
      rw [joinChar_cons_cons]
      rw [pySplit_token a (' ' :: joinChar ' ' (b :: t2)) (h a (by simp)).1
        (h a (by simp)).2 (fun c hc => by
          simp only [List.head?_cons] at hc
          injection hc with hc
          subst hc
          decide)]
      rw [pySplit_cons_ws ' ' _ (by decide)]
      rw [ih (fun x hx => h x (by simp [hx]))]

theorem rnStep_fst (node newNode : Str) (a : List Str × Bool) (pos : Nat) :
    (rnStep node newNode a pos).1 = rnSetTok node newNode a.1 pos := by
  simp only [rnStep, rnSetTok]
  cases h : a.1.get? pos with
  | none => rfl
  | some tok =>
    simp only [Option.map_some', Option.getD_some]
    by_cases hm : pyRstrip ';' tok = node
    · rw [if_pos hm, if_pos hm]
    · rw [if_neg hm, if_neg hm]

theorem rnStep_snd_true (node newNode : Str) (a : List Str × Bool) (pos : Nat)
    (h : a.2 = true) : (rnStep node newNode a pos).2 = true := by
  simp only [rnStep]
  cases hg : a.1.get? pos with
  | none => exact h
  | some tok =>
    simp only [Option.map_some', Option.getD_some]
    by_cases hm : pyRstrip ';' tok = node
    · rw [if_pos hm]
    · rw [if_neg hm]
      exact h

theorem foldl_rnStep_fst (node newNode : Str) : ∀ (P : List Nat) (cur : List Str)
    (b : Bool), (P.foldl (rnStep node newNode) (cur, b)).1 =
      P.foldl (rnSetTok node newNode) cur := by
  intro P
  induction P with
  | nil =>
    intro cur b
    rfl
  | cons q P ih =>
    intro cur b
    simp only [List.foldl_cons]
    cases hs : rnStep node newNode (cur, b) q with
    | mk c2 b2 =>
      have h1 : c2 = rnSetTok node newNode cur q := by
        have h2 := rnStep_fst node newNode (cur, b) q
        rw [hs] at h2
        exact h2
      rw [ih c2 b2, h1]

theorem foldl_rnStep_flag (node newNode : Str) : ∀ (P : List Nat)
    (a : List Str × Bool), a.2 = true →
    (P.foldl (rnStep node newNode) a).2 = true := by
  intro P
  induction P with
  | nil =>
    intro a h
    exact h
  | cons q P ih =>
    intro a h
    simp only [List.foldl_cons]
    exact ih _ (rnStep_snd_true node newNode a q h)

theorem foldl_rnStep_false (node newNode : Str) : ∀ (P : List Nat) (cur : List Str)
    (b : Bool), (P.foldl (rnStep node newNode) (cur, b)).2 = false →
    b = false ∧ P.foldl (rnSetTok node newNode) cur = cur ∧
      ∀ pos ∈ P, ∀ tok, cur.get? pos = some tok → ¬ pyRstrip ';' tok = node := by
  intro P
  induction P with
  | nil =>
    intro cur b h
    exact ⟨h, rfl, by intro pos hp; simp at hp⟩
  | cons q P ih =>
    intro cur b h
    simp only [List.foldl_cons] at h ⊢
    cases hg : cur.get? q with
    | none =>
      have hgg : cur[q]? = none := by
        rw [← List.get?_eq_getElem?]
        exact hg
      have hone : rnStep node newNode (cur, b) q = (cur, b) := by
        simp [rnStep, hgg]
      rw [hone] at h
      obtain ⟨hb, hfold, hrest⟩ := ih cur b h
      refine ⟨hb, ?_, ?_⟩
      · rw [show rnSetTok node newNode cur q = cur from by simp [rnSetTok, hgg], hfold]
      · intro pos hp tok hptok
        rcases List.mem_cons.mp hp with rfl | hp
        · rw [hg] at hptok
          cases hptok
        · exact hrest pos hp tok hptok
    | some tok =>
      have hgg : cur[q]? = some tok := by
        rw [← List.get?_eq_getElem?]
        exact hg
      by_cases hm : pyRstrip ';' tok = node
      · have hone : rnStep node newNode (cur, b) q =
            (cur.set q (newNode ++ (if tok.getLast? = some ';' then [';'] else [])),
             true) := by
          simp [rnStep, hgg, hm]
        rw [hone] at h
        rw [foldl_rnStep_flag node newNode P _ rfl] at h
        simp at h
      · have hone : rnStep node newNode (cur, b) q = (cur, b) := by
          simp [rnStep, hgg, hm]
        rw [hone] at h
        obtain ⟨hb, hfold, hrest⟩ := ih cur b h
        refine ⟨hb, ?_, ?_⟩
        · rw [show rnSetTok node newNode cur q = cur from by
            simp [rnSetTok, hgg, hm], hfold]
        · intro pos hp tok2 hptok
          rcases List.mem_cons.mp hp with rfl | hp
          · rw [hg] at hptok
            injection hptok with he
            rw [← he]
            exact hm
          · exact hrest pos hp tok2 hptok

theorem rnSetTok_length (node newNode : Str) (cur : List Str) (pos : Nat) :
    (rnSetTok node newNode cur pos).length = cur.length := by
  simp only [rnSetTok]
  cases hg : cur.get? pos with
  | none => rfl
  | some tok =>
    simp only [Option.map_some', Option.getD_some]
    by_cases hm : pyRstrip ';' tok = node
    · rw [if_pos hm, List.length_set]
    · rw [if_neg hm]

theorem foldl_rnSetTok_length (node newNode : Str) : ∀ (P : List Nat)
    (cur : List Str), (P.foldl (rnSetTok node newNode) cur).length = cur.length := by
  intro P
  induction P with
  | nil =>
    intro cur
    rfl
  | cons q P ih =>
    intro cur
    simp only [List.foldl_cons]
    rw [ih, rnSetTok_length]

theorem rnSetTok_get_ne (node newNode : Str) (cur : List Str) (q pos : Nat)
    (h : ¬ pos = q) : (rnSetTok node newNode cur q).get? pos = cur.get? pos := by
  simp only [rnSetTok]
  cases hg : cur.get? q with
  | none => rfl
  | some tok =>
    simp only [Option.map_some', Option.getD_some]
    by_cases hm : pyRstrip ';' tok = node
    · rw [if_pos hm]
      exact List.get?_set_ne _ _ (fun he => h he.symm)
    · rw [if_neg hm]

theorem foldl_rnSetTok_get_notmem (node newNode : Str) : ∀ (P : List Nat)
    (cur : List Str) (pos : Nat), pos ∉ P →
    (P.foldl (rnSetTok node newNode) cur).get? pos = cur.get? pos := by
  intro P
  induction P with
  | nil =>
    intro cur pos _
    rfl
  | cons q P ih =>
    intro cur pos hp
    simp only [List.foldl_cons]
    rw [ih _ pos (fun hm => hp (by simp [hm])),
      rnSetTok_get_ne node newNode cur q pos (fun he => hp (by simp [he]))]

theorem rnSetTok_get_self (node newNode : Str) (cur : List Str) (q : Nat) :
    (rnSetTok node newNode cur q).get? q =
      (cur.get? q).map (substTok node newNode) := by
  simp only [rnSetTok]
  cases hg : cur.get? q with
  | none =>
    simp only [Option.map_none', Option.getD_none]
    rw [hg]
  | some tok =>
    simp only [Option.map_some', Option.getD_some]
    by_cases hm : pyRstrip ';' tok = node
    · rw [if_pos hm]
      have hlt : q < cur.length := by
        by_contra hge
        rw [List.get?_eq_none.mpr (Nat.le_of_not_lt hge)] at hg
        cases hg
      rw [List.get?_set_eq_of_lt _ hlt]
      rw [show substTok node newNode tok =
        newNode ++ (if tok.getLast? = some ';' then [';'] else []) from by
          simp only [substTok, if_pos hm]]
    · rw [if_neg hm, hg]
      rw [show substTok node newNode tok = tok from by simp only [substTok, if_neg hm]]

theorem foldl_rnSetTok_get_mem (node newNode : Str) : ∀ (P : List Nat)
    (cur : List Str) (pos : Nat), pos ∈ P → P.Nodup →
    (P.foldl (rnSetTok node newNode) cur).get? pos =
      (cur.get? pos).map (substTok node newNode) := by
  intro P
  induction P with
  | nil =>
    intro cur pos hp
    simp at hp
  | cons q P ih =>
    intro cur pos hp hnd
    simp only [List.foldl_cons]
    rcases List.mem_cons.mp hp with rfl | hp2
    · have hq : pos ∉ P := (List.nodup_cons.mp hnd).1
      rw [foldl_rnSetTok_get_notmem node newNode P _ pos hq, rnSetTok_get_self]
    · have hne : ¬ pos = q := by
        intro he
        subst he
        exact (List.nodup_cons.mp hnd).1 hp2
      rw [ih _ pos hp2 (List.nodup_cons.mp hnd).2,
        rnSetTok_get_ne node newNode cur q pos hne]

theorem rnSetTok_wf (node newNode : Str) (cur : List Str) (q : Nat)
    (hnn : newNode ≠ []) (hnw : ∀ c ∈ newNode, isWs c = false)
    (hcur : ∀ t ∈ cur, t ≠ [] ∧ ∀ c ∈ t, isWs c = false) :
    ∀ t ∈ rnSetTok node newNode cur q, t ≠ [] ∧ ∀ c ∈ t, isWs c = false := by
  intro t ht
  simp only [rnSetTok] at ht
  cases hg : cur.get? q with
  | none =>
    rw [hg] at ht
    simp only [Option.map_none', Option.getD_none] at ht
    exact hcur t ht
  | some tok =>
    rw [hg] at ht
    simp only [Option.map_some', Option.getD_some] at ht
    by_cases hm : pyRstrip ';' tok = node
    · rw [if_pos hm] at ht
      rcases List.mem_or_eq_of_mem_set ht with h2 | rfl
      · exact hcur t h2
      · constructor
        · intro he
          exact hnn (List.append_eq_nil.mp he).1
        · intro c hc
          rcases List.mem_append.mp hc with h3 | h3
          · exact hnw c h3
          · by_cases hsemi : tok.getLast? = some ';'
            · rw [if_pos hsemi] at h3
              simp at h3
              subst h3
              decide
            · rw [if_neg hsemi] at h3
              simp at h3
    · rw [if_neg hm] at ht
      exact hcur t ht

theorem foldl_rnSetTok_wf (node newNode : Str)
    (hnn : newNode ≠ []) (hnw : ∀ c ∈ newNode, isWs c = false) :
    ∀ (P : List Nat) (cur : List Str),
    (∀ t ∈ cur, t ≠ [] ∧ ∀ c ∈ t, isWs c = false) →
    ∀ t ∈ P.foldl (rnSetTok node newNode) cur,
      t ≠ [] ∧ ∀ c ∈ t, isWs c = false := by
  intro P
  induction P with
  | nil =>
    intro cur hcur
    exact hcur
  | cons q P ih =>
    intro cur hcur
    simp only [List.foldl_cons]
    exact ih _ (rnSetTok_wf node newNode cur q hnn hnw hcur)

theorem nodePositions_cases (comp : Str) (n : Nat) :
    nodePositions comp n = [1, 2, 4, 5] ∨ nodePositions comp n = [1, 2] := by
  unfold nodePositions
  by_cases h1 : comp.head? = some 'E' ∧ 6 ≤ n
  · rw [if_pos h1]
    exact Or.inl rfl
  · rw [if_neg h1]
    by_cases h2 : (comp.head? = some 'V' ∨ comp.head? = some 'I') ∧ 4 ≤ n
    · rw [if_pos h2]
      exact Or.inr rfl
    · rw [if_neg h2]
      exact Or.inr rfl

theorem nodePositions_nodup (comp : Str) (n : Nat) : (nodePositions comp n).Nodup := by
  rcases nodePositions_cases comp n with h | h <;> rw [h] <;> decide

theorem nodePositions_pos (comp : Str) (n : Nat) : 0 ∉ nodePositions comp n := by
  rcases nodePositions_cases comp n with h | h <;> rw [h] <;> decide

theorem rnSubstLine_parts (node newNode line : Str)
    (hnn : newNode ≠ []) (hnw : ∀ c ∈ newNode, isWs c = false)
    (h1 : ¬ pyStrip line = []) (h2 : ¬ (pySplit line).length < 3) :
    pySplit (rnSubstLine node newNode line) =
      (nodePositions ((pySplit line).headD []) (pySplit line).length).foldl
        (rnSetTok node newNode) (pySplit line) := by
  simp only [rnSubstLine]
  rw [if_neg h1, if_neg h2]
  cases hflag : ((nodePositions ((pySplit line).headD []) (pySplit line).length).foldl
      (rnStep node newNode) (pySplit line, false)).2 with
  | false =>
    rw [if_neg (by decide : ¬ (false = true))]
    obtain ⟨_, hfold, _⟩ := foldl_rnStep_false node newNode _ (pySplit line) false hflag
    exact hfold.symm
  | true =>
    rw [if_pos rfl]
    rw [foldl_rnStep_fst]
    exact pySplit_joinChar _
      (foldl_rnSetTok_wf node newNode hnn hnw _ (pySplit line) (pySplit_wf line))

theorem filterMap_bind_filter (node : Str) : ∀ (P : List Nat)
    (f g : Nat → Option Str),
    (∀ pos ∈ P, g pos = (f pos).bind (fun v => if v = node then none else some v)) →
    P.filterMap g = (P.filterMap f).filter (fun v => v ≠ node) := by
  intro P
  induction P with
  | nil =>
    intro f g _
    rfl
  | cons q P ih =>
    intro f g h
    cases hf : f q with
    | none =>
      have hg : g q = none := by
        rw [h q (by simp), hf]
        rfl
      rw [List.filterMap_cons_none hg, List.filterMap_cons_none hf]
      exact ih f g (fun p hp => h p (by simp [hp]))
    | some v =>
      by_cases hv : v = node
      · have hg : g q = none := by
          rw [h q (by simp), hf]
          simp [hv]
        rw [List.filterMap_cons_none hg, List.filterMap_cons_some hf]
        rw [List.filter_cons_of_neg (by simp [hv])]
        exact ih f g (fun p hp => h p (by simp [hp]))
      · have hg : g q = some v := by
          rw [h q (by simp), hf]
          simp [hv]
        rw [List.filterMap_cons_some hg, List.filterMap_cons_some hf]
        rw [List.filter_cons_of_pos (by simp [hv])]
        rw [ih f g (fun p hp => h p (by simp [hp]))]

theorem rnSubstLine_no_newline (node newNode line : Str)
    (hnn : newNode ≠ []) (hnw : ∀ c ∈ newNode, isWs c = false)
    (hline : '\n' ∉ line) : '\n' ∉ rnSubstLine node newNode line := by
  simp only [rnSubstLine]
  by_cases h1 : pyStrip line = []
  · rw [if_pos h1]
    exact hline
  · rw [if_neg h1]
    by_cases h2 : (pySplit line).length < 3
    · rw [if_pos h2]
      exact hline
    · rw [if_neg h2]
      cases hflag : ((nodePositions ((pySplit line).headD []) (pySplit line).length).foldl
          (rnStep node newNode) (pySplit line, false)).2 with
      | false =>
        rw [if_neg (by decide : ¬ (false = true))]
        exact hline
      | true =>
        rw [if_pos rfl]
        intro hmem
        rw [foldl_rnStep_fst] at hmem
        rcases mem_joinChar hmem with he | ⟨t, ht, hct⟩
        · exact absurd he (by decide)
        · have := (foldl_rnSetTok_wf node newNode hnn hnw _ (pySplit line)
            (pySplit_wf line) t ht).2 '\n' hct
          exact absurd this (by decide)

theorem rnScanLine_rnSubstLine (sg : Bool) (node newNode line : Str)
    (hnn : newNode ≠ []) (hnw : ∀ c ∈ newNode, isWs c = false)
    (hsk : rnTokenSkip sg (pyRstrip ';' newNode) = true) :
    rnScanLine sg (rnSubstLine node newNode line) =
      (rnScanLine sg line).filter (fun v => v ≠ node) := by
  by_cases h1 : pyStrip line = []
  · rw [show rnSubstLine node newNode line = line from by
      simp only [rnSubstLine]; rw [if_pos h1]]
    rw [show rnScanLine sg line = [] from by
      simp only [rnScanLine]; rw [if_pos h1]]
    rfl
  · by_cases h2 : (pySplit line).length < 3
    · rw [show rnSubstLine node newNode line = line from by
        simp only [rnSubstLine]; rw [if_neg h1, if_pos h2]]
      rw [show rnScanLine sg line = [] from by
        simp only [rnScanLine]; rw [if_neg h1, if_pos h2]]
      rfl
    · have hparts := rnSubstLine_parts node newNode line hnn hnw h1 h2
      have hlen2 : ((nodePositions ((pySplit line).headD []) (pySplit line).length).foldl
          (rnSetTok node newNode) (pySplit line)).length = (pySplit line).length :=
        foldl_rnSetTok_length node newNode _ _
      have hwf2 : ∀ t ∈ (nodePositions ((pySplit line).headD []) (pySplit line).length).foldl
          (rnSetTok node newNode) (pySplit line), t ≠ [] ∧ ∀ c ∈ t, isWs c = false :=
        foldl_rnSetTok_wf node newNode hnn hnw _ _ (pySplit_wf line)
      have hhead2 : ((nodePositions ((pySplit line).headD []) (pySplit line).length).foldl
          (rnSetTok node newNode) (pySplit line)).headD [] = (pySplit line).headD [] := by
        rw [headD_nil_eq_get0, headD_nil_eq_get0,
          foldl_rnSetTok_get_notmem node newNode _ _ 0 (nodePositions_pos _ _)]
      have hstrip2 : ¬ pyStrip (rnSubstLine node newNode line) = [] := by
        have hne2 : (nodePositions ((pySplit line).headD []) (pySplit line).length).foldl
            (rnSetTok node newNode) (pySplit line) ≠ [] := by
          intro he
          rw [he] at hlen2
          exact h2 (by rw [← hlen2]; simp)
        obtain ⟨t, r, hq⟩ := List.exists_cons_of_ne_nil hne2
        have ht : t ∈ (nodePositions ((pySplit line).headD []) (pySplit line).length).foldl
            (rnSetTok node newNode) (pySplit line) := by
          rw [hq]
          simp
        obtain ⟨htne, htw⟩ := hwf2 t ht
        obtain ⟨c, cr, hcq⟩ := List.exists_cons_of_ne_nil htne
        have hc : c ∈ t := by
          rw [hcq]
          simp
        have hcs : c ∈ rnSubstLine node newNode line :=
          pySplit_mem_subset _ t (by rw [hparts]; exact ht) c hc
        exact pyStrip_ne_nil_of_mem hcs (htw c hc)
      have hlen3 : ¬ (pySplit (rnSubstLine node newNode line)).length < 3 := by
        rw [hparts, hlen2]
        exact h2
      simp only [rnScanLine]
      rw [if_neg hstrip2, if_neg h1, if_neg hlen3, if_neg h2]
      rw [show (pySplit (rnSubstLine node newNode line)).headD [] = (pySplit line).headD []
        from by rw [hparts]; exact hhead2]
      rw [show (pySplit (rnSubstLine node newNode line)).length = (pySplit line).length
        from by rw [hparts]; exact hlen2]
      apply filterMap_bind_filter node
      intro pos hpos
      rw [show pySplit (rnSubstLine node newNode line) =
        (nodePositions ((pySplit line).headD []) (pySplit line).length).foldl
          (rnSetTok node newNode) (pySplit line) from hparts]
      rw [foldl_rnSetTok_get_mem node newNode _ (pySplit line) pos hpos
        (nodePositions_nodup _ _)]
      cases hg : (pySplit line).get? pos with
      | none => rfl
      | some tok =>
        simp only [Option.map_some', Option.some_bind]
        by_cases hm : pyRstrip ';' tok = node
        · have hnew : pyRstrip ';' (substTok node newNode tok) = pyRstrip ';' newNode := by
            rw [show substTok node newNode tok =
              newNode ++ (if tok.getLast? = some ';' then [';'] else []) from by
                simp only [substTok, if_pos hm]]
            by_cases hsemi : tok.getLast? = some ';'
            · rw [if_pos hsemi, pyRstrip_append_same]
            · rw [if_neg hsemi, List.append_nil]
          rw [hnew, if_pos hsk]
          by_cases hskold : rnTokenSkip sg (pyRstrip ';' tok) = true
          · rw [if_pos hskold]
            rfl
          · rw [if_neg hskold]
            simp only [Option.some_bind]
            rw [hm, if_pos rfl]
        · rw [show substTok node newNode tok = tok from by simp only [substTok, if_neg hm]]
          by_cases hskold : rnTokenSkip sg (pyRstrip ';' tok) = true
          · rw [if_pos hskold]
            rfl
          · rw [if_neg hskold]
            simp only [Option.some_bind]
            rw [if_neg hm]

theorem rnSubst_lines (node newNode s : Str)
    (hnn : newNode ≠ []) (hnw : ∀ c ∈ newNode, isWs c = false) :
    splitOnChar '\n' (rnSubst node newNode s) =
      (splitOnChar '\n' s).map (rnSubstLine node newNode) := by
  unfold rnSubst joinChar
  show List.splitOn '\n' (List.intercalate ['\n']
    ((splitOnChar '\n' s).map (rnSubstLine node newNode))) = _
  apply List.splitOn_intercalate
  · intro t ht
    obtain ⟨l, hl, rfl⟩ := List.mem_map.mp ht
    exact rnSubstLine_no_newline node newNode l hnn hnw (splitOnChar_no_sep '\n' s l hl)
  · intro he
    exact splitOnChar_ne_nil '\n' s (List.map_eq_nil_iff.mp he)

theorem rnScan_rnSubst (sg : Bool) (node newNode s : Str)
    (hnn : newNode ≠ []) (hnw : ∀ c ∈ newNode, isWs c = false)
    (hsk : rnTokenSkip sg (pyRstrip ';' newNode) = true) :
    rnScan sg (rnSubst node newNode s) =
      (rnScan sg s).filter (fun v => v ≠ node) := by
  unfold rnScan
  rw [rnSubst_lines node newNode s hnn hnw, List.map_map]
  rw [show (rnScanLine sg ∘ rnSubstLine node newNode) =
      (fun l => (rnScanLine sg l).filter (fun v => v ≠ node)) from
    funext (fun l => rnScanLine_rnSubstLine sg node newNode l hnn hnw hsk)]
  rw [show (fun l => (rnScanLine sg l).filter (fun v => v ≠ node)) =
      ((fun L : List Str => L.filter (fun v => v ≠ node)) ∘ rnScanLine sg) from rfl]
  rw [← List.map_map]
  exact (List.filter_flatten ..).symm

theorem dedupFirst_length_le {α : Type} [DecidableEq α] : ∀ (l : List α),
    (dedupFirst l).length ≤ l.length := by
  intro l
  induction l with
  | nil => simp [dedupFirst]
  | cons a t ih =>
    rw [show dedupFirst (a :: t) = a :: (dedupFirst t).filter (fun b => b ≠ a) from rfl]
    simp only [List.length_cons]
    exact Nat.succ_le_succ (le_trans (List.length_filter_le _ _) ih)

theorem dedupFirst_filter {α : Type} [DecidableEq α] (p : α → Bool) : ∀ (l : List α),
    dedupFirst (l.filter p) = (dedupFirst l).filter p := by
  intro l
  induction l with
  | nil => rfl
  | cons a t ih =>
    by_cases hp : p a = true
    · rw [List.filter_cons_of_pos hp]
      rw [show dedupFirst (a :: t.filter p) =
        a :: (dedupFirst (t.filter p)).filter (fun b => b ≠ a) from rfl]
      rw [ih]
      rw [show dedupFirst (a :: t) = a :: (dedupFirst t).filter (fun b => b ≠ a) from rfl]
      rw [List.filter_cons_of_pos hp]
      congr 1
      rw [List.filter_filter, List.filter_filter]
      exact List.filter_congr (fun b _ => Bool.and_comm _ _)
    · rw [List.filter_cons_of_neg hp]
      rw [ih]
      rw [show dedupFirst (a :: t) = a :: (dedupFirst t).filter (fun b => b ≠ a) from rfl]
      rw [List.filter_cons_of_neg hp]
      rw [List.filter_filter]
      refine List.filter_congr ?_
      intro b _
      cases hb : p b with
      | false => simp [hb]
      | true =>
        have hba : ¬ b = a := fun he => hp (he ▸ hb)
        simp [hb, hba]

theorem dedupFirst_nil_iff {α : Type} [DecidableEq α] (l : List α) :
    dedupFirst l = [] ↔ l = [] := by
  cases l with
  | nil => simp [dedupFirst]
  | cons a t => simp [dedupFirst]

theorem natStrx_ne_nil (k : Nat) : natStr k ++ ['x'] ≠ [] := by
  simp

theorem natStrx_no_ws (k : Nat) : ∀ c ∈ natStr k ++ ['x'], isWs c = false := by
  intro c hc
  rcases List.mem_append.mp hc with h | h
  · exact isDigit_not_ws (natStr_all_digit k c h)
  · simp at h
    subst h
    decide

theorem natStrx_skip (sg : Bool) (k : Nat) :
    rnTokenSkip sg (pyRstrip ';' (natStr k ++ ['x'])) = true := by
  rw [pyRstrip_append_ne ';' 'x' (natStr k) (by decide)]
  have hx : (natStr k ++ ['x']).contains 'x' = true :=
    List.elem_iff.mpr (by simp)
  simp [rnTokenSkip, hx]

theorem rnLoop_eq_rnApply (sg : Bool) : ∀ (ds : List Str) (fuel k : Nat) (s : Str)
    (nd : Option Dict), dedupFirst (rnScan sg s) = ds → ds.length ≤ fuel →
    rnLoop sg fuel k s nd = rnApply ds k s nd := by
  intro ds
  induction ds with
  | nil =>
    intro fuel k s nd hd _
    have hscan : rnScan sg s = [] := (dedupFirst_nil_iff _).mp hd
    have hfind : rnFind sg s = none := by
      rw [rnFind_eq, hscan]
      rfl
    cases fuel with
    | zero => rfl
    | succ f =>
      simp only [rnLoop, hfind]
      rfl
  | cons v ds ih =>
    intro fuel k s nd hd hlen
    cases hs : rnScan sg s with
    | nil =>
      rw [hs] at hd
      simp [dedupFirst] at hd
    | cons w rest =>
      rw [hs] at hd
      rw [show dedupFirst (w :: rest) =
        w :: (dedupFirst rest).filter (fun b => b ≠ w) from rfl] at hd
      have hw : w = v := (List.cons_eq_cons.mp hd).1
      subst hw
      have hds : (dedupFirst rest).filter (fun b => b ≠ w) = ds :=
        (List.cons_eq_cons.mp hd).2
      have hfind : rnFind sg s = some w := by
        rw [rnFind_eq, hs]
        rfl
      cases fuel with
      | zero => simp at hlen
      | succ f =>
        simp only [rnLoop, hfind]
        rw [show rnApply (w :: ds) k s nd =
          rnApply ds (k + 1) (rnSubst w (natStr k ++ ['x']) s)
            (nd.map (fun d => rnUpdateDict d w (natStr k ++ ['x']))) from rfl]
        apply ih
        · rw [rnScan_rnSubst sg w (natStr k ++ ['x']) s (natStrx_ne_nil k)
            (natStrx_no_ws k) (natStrx_skip sg k), hs]
          rw [List.filter_cons_of_neg (by simp)]
          rw [dedupFirst_filter]
          exact hds
        · exact Nat.le_of_succ_le_succ hlen

theorem rnScan_rnApply (sg : Bool) : ∀ (ds : List Str) (k : Nat) (s : Str)
    (nd : Option Dict), rnScan sg (rnApply ds k s nd).1 =
      (rnScan sg s).filter (fun v => decide (v ∉ ds)) := by
  intro ds
  induction ds with
  | nil =>
    intro k s nd
    rw [show rnApply [] k s nd = (s, nd) from rfl]
    exact (List.filter_eq_self.mpr (fun v _ => by simp)).symm
  | cons d ds ih =>
    intro k s nd
    rw [show rnApply (d :: ds) k s nd =
      rnApply ds (k + 1) (rnSubst d (natStr k ++ ['x']) s)
        (nd.map (fun dd => rnUpdateDict dd d (natStr k ++ ['x']))) from rfl]
    rw [ih]
    rw [rnScan_rnSubst sg d (natStr k ++ ['x']) s (natStrx_ne_nil k)
      (natStrx_no_ws k) (natStrx_skip sg k)]
    rw [List.filter_filter]
    refine List.filter_congr ?_
    intro v _
    by_cases h1 : v = d <;> by_cases h2 : v ∈ ds <;> simp [h1, h2]

theorem rnTokenSkip_no_x {sg : Bool} {tok : Str}
    (h : ¬ rnTokenSkip sg (pyRstrip ';' tok) = true) : tok.contains 'x' = false := by
  have h1 : ¬ (pyRstrip ';' tok).contains 'x' = true := by
    intro hc
    exact h (by simp [rnTokenSkip]; exact Or.inl (List.elem_iff.mp hc))
  cases hc : tok.contains 'x' with
  | false => rfl
  | true =>
    exact absurd (List.elem_iff.mpr
      (mem_pyRstrip_of_ne (List.elem_iff.mp hc) (by decide))) h1

theorem filterMap_le_filter_length {α : Type} (q : Str → Bool) : ∀ (P : List α)
    (f : α → Option Str) (g : α → Option Str),
    (∀ a ∈ P, ∀ v, f a = some v → ∃ t, g a = some t ∧ q t = true) →
    (P.filterMap f).length ≤ ((P.filterMap g).filter q).length := by
  intro P
  induction P with
  | nil =>
    intro f g _
    simp
  | cons a P ih =>
    intro f g h
    cases hf : f a with
    | none =>
      rw [List.filterMap_cons_none hf]
      cases hg : g a with
      | none =>
        rw [List.filterMap_cons_none hg]
        exact ih f g (fun p hp => h p (by simp [hp]))
      | some t =>
        rw [List.filterMap_cons_some hg]
        by_cases hq : q t = true
        · rw [List.filter_cons_of_pos hq]
          exact Nat.le_succ_of_le (ih f g (fun p hp => h p (by simp [hp])))
        · rw [List.filter_cons_of_neg hq]
          exact ih f g (fun p hp => h p (by simp [hp]))
    | some v =>
      obtain ⟨t, hg, hq⟩ := h a (by simp) v hf
      rw [List.filterMap_cons_some hf, List.filterMap_cons_some hg,
        List.filter_cons_of_pos hq]
      simp only [List.length_cons]
      exact Nat.succ_le_succ (ih f g (fun p hp => h p (by simp [hp])))

theorem rnScanLine_le_measure (sg : Bool) (line : Str) :
    (rnScanLine sg line).length ≤
      (if pyStrip line = [] then 0
       else if (pySplit line).length < 3 then 0
       else (((nodePositions ((pySplit line).headD []) (pySplit line).length).filterMap
          (fun pos => (pySplit line).get? pos)).filter
            (fun tok => ¬ tok.contains 'x')).length) := by
  by_cases h1 : pyStrip line = []
  · rw [if_pos h1]
    rw [show rnScanLine sg line = [] from by simp only [rnScanLine]; rw [if_pos h1]]
    simp
  · rw [if_neg h1]
    by_cases h2 : (pySplit line).length < 3
    · rw [if_pos h2]
      rw [show rnScanLine sg line = [] from by
        simp only [rnScanLine]; rw [if_neg h1, if_pos h2]]
      simp
    · rw [if_neg h2]
      rw [show rnScanLine sg line =
        (nodePositions ((pySplit line).headD []) (pySplit line).length).filterMap
          (fun pos => ((pySplit line).get? pos).bind (fun tok =>
            if rnTokenSkip sg (pyRstrip ';' tok) then none
            else some (pyRstrip ';' tok))) from by
          simp only [rnScanLine]; rw [if_neg h1, if_neg h2]]
      apply filterMap_le_filter_length
      intro pos _ v hv
      cases hg : (pySplit line).get? pos with
      | none =>
        rw [hg] at hv
        cases hv
      | some tok =>
        rw [hg] at hv
        simp only [Option.some_bind] at hv
        by_cases hskt : rnTokenSkip sg (pyRstrip ';' tok) = true
        · rw [if_pos hskt] at hv
          cases hv
        · refine ⟨tok, rfl, ?_⟩
          cases hcx : tok.contains 'x' with
          | false => simp [hcx]
          | true =>
            rw [rnTokenSkip_no_x hskt] at hcx
            cases hcx

theorem rnScan_length_le (sg : Bool) (s : Str) :
    (rnScan sg s).length ≤ rnMeasure s := by
  unfold rnScan rnMeasure
  rw [List.length_flatten, List.map_map]
  apply List.sum_le_sum
  intro line hline
  exact rnScanLine_le_measure sg line

theorem renumber_nodes_eq (s : Str) (sg : Bool) (nd : Option Dict) (h : ¬ s = []) :
    renumber_nodes s sg nd = rnApply (dedupFirst (rnScan sg s)) 1 s nd := by
  unfold renumber_nodes
  rw [if_neg h]
  apply rnLoop_eq_rnApply sg _ _ 1 s nd rfl
  calc (dedupFirst (rnScan sg s)).length
      ≤ (rnScan sg s).length := dedupFirst_length_le _
    _ ≤ rnMeasure s := rnScan_length_le sg s
    _ ≤ rnMeasure s + 1 := Nat.le_succ _

theorem rnFind_renumber_none (s : Str) (sg : Bool) (nd : Option Dict) :
    rnFind sg ((renumber_nodes s sg nd).1) = none := by
  by_cases h : s = []
  · subst h
    rw [show renumber_nodes [] sg nd = ([], nd) from by
      unfold renumber_nodes; rw [if_pos rfl]]
    rfl
  · rw [renumber_nodes_eq s sg nd h]
    rw [rnFind_eq, rnScan_rnApply]
    rw [List.filter_eq_nil_iff.mpr ?hh]
    · rfl
    case hh =>
      intro v hv
      simp
      exact mem_dedupFirst.mpr hv

theorem renumber_nodes_unfold (netlist : Str) (sg : Bool) (nd : Option Dict)
    (h : ¬ netlist = []) : renumber_nodes netlist sg nd =
      rnLoop sg (rnMeasure netlist + 1) 1 netlist nd := by
  unfold renumber_nodes
  rw [if_neg h]

theorem renumber_nodes_idem (s : Str) (sg : Bool) (nd nd' : Option Dict) :
    renumber_nodes ((renumber_nodes s sg nd).1) sg nd' =
      ((renumber_nodes s sg nd).1, nd') := by
  have hfind := rnFind_renumber_none s sg nd
  by_cases hR : (renumber_nodes s sg nd).1 = []
  · rw [hR]
    rfl
  · rw [renumber_nodes_unfold _ sg nd' hR]
    simp only [rnLoop, hfind]

theorem rnScan_not_ground (s : Str) : ∀ v ∈ rnScan true s,
    v ≠ strOf "0" ∧ isPre (strOf "0_") v = false ∧ v.contains 'x' = false := by
  intro v hv
  unfold rnScan at hv
  rw [List.mem_flatten] at hv
  obtain ⟨L, hL, hvL⟩ := hv
  obtain ⟨line, _, rfl⟩ := List.mem_map.mp hL
  simp only [rnScanLine] at hvL
  by_cases h1 : pyStrip line = []
  · rw [if_pos h1] at hvL
    simp at hvL
  · rw [if_neg h1] at hvL
    by_cases h2 : (pySplit line).length < 3
    · rw [if_pos h2] at hvL
      simp at hvL
    · rw [if_neg h2] at hvL
      rw [List.mem_filterMap] at hvL
      obtain ⟨pos, _, hpos⟩ := hvL
      cases hg : (pySplit line).get? pos with
      | none =>
        rw [hg] at hpos
        cases hpos
      | some tok =>
        rw [hg] at hpos
        simp only [Option.some_bind] at hpos
        by_cases hskt : rnTokenSkip true (pyRstrip ';' tok) = true
        · rw [if_pos hskt] at hpos
          cases hpos
        · rw [if_neg hskt] at hpos
          injection hpos with he
          subst he
          refine ⟨?_, ?_, ?_⟩
          · intro he2
            exact hskt (by simp [rnTokenSkip, he2])
          · cases hp : isPre (strOf "0_") (pyRstrip ';' tok) with
            | false => rfl
            | true => exact absurd (by simp [rnTokenSkip, hp]) hskt
          · cases hc : (pyRstrip ';' tok).contains 'x' with
            | false => rfl
            | true => exact absurd (by
                simp [rnTokenSkip]
                exact Or.inl (List.elem_iff.mp hc)) hskt

theorem pyReplace_x_filter : ∀ (s : Str),
    pyReplace ['x'] [] s = s.filter (fun c => c ≠ 'x') := by
  intro s
  induction s with
  | nil => rfl
  | cons c rest ih =>
    rw [pyReplace_cons]
    by_cases hc : c = 'x'
    · subst hc
      rw [if_pos ⟨by simp, by simp [isPre]⟩]
      rw [show ('x' :: rest).drop (['x'] : Str).length = rest from rfl]
      rw [List.nil_append, ih]
      rw [List.filter_cons_of_neg (by simp)]
    · rw [if_neg (by
        intro hand
        apply hc
        have h2 := hand.2
        simp [isPre] at h2
        exact h2.symm)]
      rw [ih, List.filter_cons_of_pos (by simp [hc])]

theorem rnSubstLine_frame (node newNode line : Str) (pos : Nat)
    (hnn : newNode ≠ []) (hnw : ∀ c ∈ newNode, isWs c = false)
    (hpos : pos ∉ nodePositions ((pySplit line).headD []) (pySplit line).length) :
    (pySplit (rnSubstLine node newNode line)).get? pos = (pySplit line).get? pos := by
  by_cases h1 : pyStrip line = []
  · rw [show rnSubstLine node newNode line = line from by
      simp only [rnSubstLine]; rw [if_pos h1]]
  · by_cases h2 : (pySplit line).length < 3
    · rw [show rnSubstLine node newNode line = line from by
        simp only [rnSubstLine]; rw [if_neg h1, if_pos h2]]
    · rw [rnSubstLine_parts node newNode line hnn hnw h1 h2]
      exact foldl_rnSetTok_get_notmem node newNode _ _ pos hpos

/-- C3 (counterexample): `renumber_nodes_for_drawing` is not idempotent.
On the tab-separated wire `W\t0\t0; down` with no parsed data, the
single-ground heuristic counts zero textual space-delimited bare-`0`
patterns, so both ground positions collapse to bare `0`; re-running the
pass on its own output now counts two such patterns and renames them
`0_1`, `0_2`, changing the text. -/
theorem C3_counterexample :
    (renumber_nodes_for_drawing (strOf "W\t0\t0; down\n") none none).1 =
        strOf "W 0 0; down\n" ∧
      (renumber_nodes_for_drawing (strOf "W 0 0; down\n") none none).1 =
        strOf "W 0_1 0_2; down\n" ∧
      ¬ (renumber_nodes_for_drawing
          ((renumber_nodes_for_drawing (strOf "W\t0\t0; down\n") none none).1)
          none none).1 =
        (renumber_nodes_for_drawing (strOf "W\t0\t0; down\n") none none).1 :=
  ⟨rfl, rfl, by decide⟩

/-- C3 (amended): the core renumbering pass `renumber_nodes` substitutes
exactly the distinct unmarked node values, in first-appearance scan
order (top to bottom, left to right over node positions), with the
sequential marks `1x`, `2x`, …, each substituted at every node-position
occurrence across the netlist in one step; afterwards no unmarked node
remains (totality); re-running `renumber_nodes` on its own marked output
is the identity on the text; and with grounds skipped no ground token
(`0` or `0_…`) and no already-marked token is ever selected for
renumbering. (The drawing-level wrapper, which strips the marks, is not
idempotent in general — see the counterexample.) -/
theorem C3_renumber :
    (∀ (s : Str) (sg : Bool) (nd : Option Dict), ¬ s = [] →
      renumber_nodes s sg nd = rnApply (dedupFirst (rnScan sg s)) 1 s nd) ∧
    (∀ (s : Str) (sg : Bool) (nd : Option Dict),
      rnFind sg ((renumber_nodes s sg nd).1) = none) ∧
    (∀ (s : Str) (sg : Bool) (nd nd' : Option Dict),
      renumber_nodes ((renumber_nodes s sg nd).1) sg nd' =
        ((renumber_nodes s sg nd).1, nd')) ∧
    (∀ (s v : Str), v ∈ rnScan true s →
      v ≠ strOf "0" ∧ isPre (strOf "0_") v = false ∧ v.contains 'x' = false) :=
  ⟨renumber_nodes_eq, rnFind_renumber_none, renumber_nodes_idem, rnScan_not_ground⟩

theorem C3_renumber_witness :
    renumber_nodes (strOf "V1 3 7 5; up\n") true none =
      rnApply (dedupFirst (rnScan true (strOf "V1 3 7 5; up\n"))) 1
        (strOf "V1 3 7 5; up\n") none ∧
    (strOf "3" ∈ rnScan true (strOf "V1 3 7 5; up\n") ∧
      strOf "3" ≠ strOf "0" ∧ isPre (strOf "0_") (strOf "3") = false ∧
      (strOf "3").contains 'x' = false) :=
  ⟨C3_renumber.1 _ true none (by decide),
   by
    have hm : strOf "3" ∈ rnScan true (strOf "V1 3 7 5; up\n") := by decide
    exact ⟨hm, C3_renumber.2.2.2 _ _ hm⟩⟩

/-- C10 (counterexample): the drawing-level renumbering pass does not
leave every non-node field byte-for-byte intact: its final cleanup step
removes every `x` character from the whole text, so the instance name
`Rx1` is corrupted to `R1` (the head token of the statement changes). -/
theorem C10_counterexample :
    (renumber_nodes_for_drawing (strOf "Rx1 1 2 5; right\n") none none).1 =
        strOf "R1 1 2 5; right\n" ∧
      ¬ (pySplit ((renumber_nodes_for_drawing (strOf "Rx1 1 2 5; right\n")
            none none).1)).headD [] =
        (pySplit (strOf "Rx1 1 2 5; right\n")).headD [] :=
  ⟨rfl, by decide⟩

/-- C10 (amended): the token-level substitution of the renumbering pass
rewrites only node fields — every token position outside the statement's
node positions is preserved by `rnSubstLine` — and on an `x`-free
netlist the pass behaves as claimed (concrete instance: only the two
node fields of `V1 3 7 5; up, v=out` change); but the final cleanup is
`replace("x", "")` over the whole text, which deletes every `x`
character wherever it occurs, so non-node fields containing `x` are
corrupted. -/
theorem C10_frame :
    (∀ s : Str, pyReplace ['x'] [] s = s.filter (fun c => c ≠ 'x')) ∧
    (∀ (node newNode line : Str) (pos : Nat), newNode ≠ [] →
      (∀ c ∈ newNode, isWs c = false) →
      pos ∉ nodePositions ((pySplit line).headD []) (pySplit line).length →
      (pySplit (rnSubstLine node newNode line)).get? pos = (pySplit line).get? pos) ∧
    (renumber_nodes_for_drawing (strOf "V1 3 7 5; up, v=out\n") none none).1 =
      strOf "V1 1 2 5; up, v=out\n" :=
  ⟨pyReplace_x_filter,
   fun node newNode line pos hnn hnw hpos =>
     rnSubstLine_frame node newNode line pos hnn hnw hpos,
   rfl⟩

theorem C10_frame_witness :
    (pySplit (rnSubstLine (strOf "7") (strOf "1x") (strOf "R1 7 8 5k; down"))).get? 3 =
      (pySplit (strOf "R1 7 8 5k; down")).get? 3 :=
  C10_frame.2.1 (strOf "7") (strOf "1x") (strOf "R1 7 8 5k; down") 3 (by decide)
    (by decide) (by decide)

end LTP
